import Mathlib

/-!
Verification development for the TenderTool backend ingestion pipeline.

The JavaScript sources under consideration are shallowly embedded:
pure functions become Lean functions, JS strings become Lean `String`
(UTF-16 code-unit corner cases are noted where they matter), `null` and
`undefined` become `Option.none`, fallible code returns `Option`/`Except`,
and the stateful SQS/S3/SNS/Postgres handler is modelled as explicit
state passing over a database value plus an event trace.
-/

namespace TenderTool

/-! ## JavaScript character classes and small string helpers -/

/-- Whitespace class of the JavaScript regular-expression escape
backslash-s and of String.prototype.trim: tab, LF, VT, FF, CR, space,
NBSP, and the Unicode space separators, line/paragraph separators and
BOM recognised by ECMAScript. -/
def isJsWs (c : Char) : Bool :=
  c = '\t' || c = '\n' || c.val = 11 || c.val = 12 || c = '\r' || c = ' ' ||
  c.val = 0xa0 || c.val = 0x1680 ||
  (0x2000 ≤ c.val && c.val ≤ 0x200a) ||
  c.val = 0x2028 || c.val = 0x2029 || c.val = 0x202f || c.val = 0x205f ||
  c.val = 0x3000 || c.val = 0xfeff

/-- ASCII decimal digit, the JS regex class backslash-d. -/
def isDigitCh (c : Char) : Bool := '0' ≤ c && c ≤ '9'

/-- ASCII letter, the JS regex class [A-Za-z]. -/
def isAlphaCh (c : Char) : Bool :=
  ('A' ≤ c && c ≤ 'Z') || ('a' ≤ c && c ≤ 'z')

/-- ASCII lower-casing of one character; models String.prototype.toLowerCase
on the ASCII range, which is the only range the repository feeds it. -/
def lowerCh (c : Char) : Char :=
  if 'A' ≤ c && c ≤ 'Z' then Char.ofNat (c.val.toNat + 32) else c

/-- Models String.prototype.toLowerCase (ASCII range). -/
def jsToLower (s : String) : String := ⟨s.data.map lowerCh⟩

/-- Models the JS logical-or idiom `a || b` on a possibly null/undefined
string `a`: the empty string is falsy, so it falls through to `b`. -/
def jsOrD (a : Option String) (b : String) : String :=
  match a with
  | some s => if s = "" then b else s
  | none => b

/-- Truthiness of a JS string value (`undefined`, `null` and `""` are falsy). -/
def truthyS (a : Option String) : Bool :=
  match a with
  | some s => s ≠ ""
  | none => false

/-! ## squashWhitespace (src/lambdas/normalizer/index.js lines 50-52)

Source:
  function squashWhitespace(s) \x7b
    return typeof s === "string" ? s.replace(/\s+/g, " ").trim() : s ?? null;
  \x7d

The argument is modelled as `Option String`: `some s` for a string input,
`none` for `null`/`undefined` (for which `s ?? null` yields `null`).
-/

/-- Models one pass of s.replace with the global regex backslash-s-plus
replaced by a single space: every maximal run of whitespace characters
becomes one space. The boolean argument records whether the previous
character belonged to a whitespace run. -/
def collapseAux : Bool → List Char → List Char
  | _, [] => []
  | prevWs, c :: cs =>
    if isJsWs c then
      if prevWs then collapseAux true cs else ' ' :: collapseAux true cs
    else c :: collapseAux false cs

/-- Models removal of a trailing whitespace run (the right half of
String.prototype.trim). -/
def trimRight : List Char → List Char
  | [] => []
  | c :: cs =>
    let r := trimRight cs
    if isJsWs c && r.isEmpty then [] else c :: r

/-- Models String.prototype.trim on a character list. -/
def jsTrimList (l : List Char) : List Char :=
  trimRight (l.dropWhile isJsWs)

/-- Models String.prototype.trim. -/
def jsTrim (s : String) : String := ⟨jsTrimList s.data⟩

/-- Embedding of squashWhitespace from src/lambdas/normalizer/index.js:
a string is whitespace-collapsed and trimmed; null/undefined map to null. -/
def squashWhitespace (s : Option String) : Option String :=
  match s with
  | some str => some ⟨jsTrimList (collapseAux false str.data)⟩
  | none => none

/-! ### Canonical characterization of squashWhitespace

`wordsJoin` is an independent rendering of the sentence "collapse each
maximal run of whitespace to a single space and trim at both ends": it
walks the input once, drops leading whitespace, copies word characters,
and emits exactly one space between consecutive words. -/

mutual

/-- Canonical form: words of the input joined by single spaces, with no
leading or trailing whitespace. -/
def wordsJoin : List Char → List Char
  | [] => []
  | c :: cs => if isJsWs c then wordsJoin cs else c :: inWord cs

/-- Continuation of `wordsJoin` inside a word: a whitespace character
contributes a single separating space only when more words follow. -/
def inWord : List Char → List Char
  | [] => []
  | c :: cs =>
    if isJsWs c then
      if (wordsJoin cs).isEmpty then [] else ' ' :: wordsJoin cs
    else c :: inWord cs

end

/-! ## Date values and the date parsers
(src/lambdas/normalizer/index.js lines 74-136)

Timestamps are represented by their parsed calendar components together
with the offset suffix used to build the ISO string handed to the JS Date
constructor; the repository always uses the fixed configured offset
(TZ_OFFSET, default "+02:00"), so component equality is instant equality.
-/

/-- Result of a successful JS Date construction, kept as the parsed
calendar components plus the offset suffix of the ISO string. -/
structure JsDate where
  year : Nat
  month : Nat
  day : Nat
  hour : Nat
  minute : Nat
  second : Nat
  tz : String
deriving DecidableEq

/-- Configured local offset: process.env.TZ_OFFSET defaulting to +02:00
(the deployment leaves the variable unset). -/
def tzOffset : String := "+02:00"

def isLeapYear (y : Nat) : Bool :=
  (y % 4 = 0 && y % 100 ≠ 0) || y % 400 = 0

def daysInMonth (y M : Nat) : Nat :=
  if M = 2 then (if isLeapYear y then 29 else 28)
  else if M = 4 || M = 6 || M = 9 || M = 11 then 30
  else 31

/-- Validity of ISO date-time components as checked by the ECMAScript
Date parser (a Date built from out-of-range components is NaN);
hour 24 is legal only as 24:00:00. -/
def isoFieldsValid (y M D h m s : Nat) : Bool :=
  1 ≤ M && M ≤ 12 && 1 ≤ D && D ≤ daysInMonth y M &&
  m ≤ 59 && s ≤ 59 && (h ≤ 23 || (h = 24 && m = 0 && s = 0))

/-- Models building `new Date` from an ISO string with the configured
local offset and returning null when the result is an Invalid Date. -/
def mkLocalDate (y M D h m s : Nat) : Option JsDate :=
  if isoFieldsValid y M D h m s then some ⟨y, M, D, h, m, s, tzOffset⟩ else none

/-! ### Character-level matchers for the three regular expressions -/

/-- Consume exactly `n` characters satisfying `p`, returning them and the
rest of the input. -/
def takeCount (p : Char → Bool) : Nat → List Char → Option (List Char × List Char)
  | 0, l => some ([], l)
  | _ + 1, [] => none
  | n + 1, c :: cs =>
    if p c then (takeCount p n cs).bind (fun pr => some (c :: pr.1, pr.2)) else none

/-- Consume one expected literal character. -/
def expectCh (c : Char) : List Char → Option (List Char)
  | [] => none
  | d :: ds => if d = c then some ds else none

/-- Numeric value of a digit string, the shallow form of parseInt on an
all-digit string. -/
def digitsToNat (ds : List Char) : Nat :=
  ds.foldl (fun a c => a * 10 + (c.val.toNat - 48)) 0

/-- Anchor of the regexes' trailing dollar: a value is produced only when
the whole input has been consumed. -/
def endGuard {α : Type} (v : α) (r : List Char) : Option α :=
  if r = [] then some v else none

/-- Matcher for the Eskom alternative of parseLocalTenderDate:
/^(\d\x7b4\x7d)-([A-Za-z]\x7b3\x7d)-(\d\x7b2\x7d) (\d\x7b2\x7d):(\d\x7b2\x7d):(\d\x7b2\x7d)$/ -/
def matchEskom (l : List Char) : Option (Nat × String × Nat × Nat × Nat × Nat) := do
  let (y, r) ← takeCount isDigitCh 4 l
  let r ← expectCh '-' r
  let (mon, r) ← takeCount isAlphaCh 3 r
  let r ← expectCh '-' r
  let (d, r) ← takeCount isDigitCh 2 r
  let r ← expectCh ' ' r
  let (hh, r) ← takeCount isDigitCh 2 r
  let r ← expectCh ':' r
  let (mm, r) ← takeCount isDigitCh 2 r
  let r ← expectCh ':' r
  let (ss, r) ← takeCount isDigitCh 2 r
  endGuard (digitsToNat y, String.mk mon, digitsToNat d,
    digitsToNat hh, digitsToNat mm, digitsToNat ss) r

/-- Month table of the source (exact three-letter English names;
any other capture falls through). -/
def monthIndex : String → Option Nat
  | "Jan" => some 0 | "Feb" => some 1 | "Mar" => some 2 | "Apr" => some 3
  | "May" => some 4 | "Jun" => some 5 | "Jul" => some 6 | "Aug" => some 7
  | "Sep" => some 8 | "Oct" => some 9 | "Nov" => some 10 | "Dec" => some 11
  | _ => none

/-- Tail of the SANRAL regex after the minutes capture: the anchored end,
or an optional colon-seconds group followed by the anchored end
(source: the group (?::(\d\x7b2\x7d))? with sec defaulting to "00"). -/
def sanralTail (y mo d hh mm : Nat) :
    List Char → Option (Nat × Nat × Nat × Nat × Nat × Nat)
  | [] => some (y, mo, d, hh, mm, 0)
  | ':' :: r2 =>
    (takeCount isDigitCh 2 r2).bind fun pr =>
      endGuard (y, mo, d, hh, mm, digitsToNat pr.1) pr.2
  | _ => none

/-- Matcher for the SANRAL alternative of parseLocalTenderDate:
/^(\d\x7b4\x7d)\/(\d\x7b2\x7d)\/(\d\x7b2\x7d) (\d\x7b2\x7d):(\d\x7b2\x7d)(?::(\d\x7b2\x7d))?$/ -/
def matchSanral (l : List Char) : Option (Nat × Nat × Nat × Nat × Nat × Nat) := do
  let (y, r) ← takeCount isDigitCh 4 l
  let r ← expectCh '/' r
  let (mo, r) ← takeCount isDigitCh 2 r
  let r ← expectCh '/' r
  let (d, r) ← takeCount isDigitCh 2 r
  let r ← expectCh ' ' r
  let (hh, r) ← takeCount isDigitCh 2 r
  let r ← expectCh ':' r
  let (mm, r) ← takeCount isDigitCh 2 r
  sanralTail (digitsToNat y) (digitsToNat mo) (digitsToNat d)
    (digitsToNat hh) (digitsToNat mm) r

/-- Embedding of parseLocalTenderDate: the Eskom pattern is tried first;
an unknown month name falls through to the SANRAL pattern exactly as in
the source; a null/undefined or empty argument yields null. -/
def parseLocalTenderDate (s : Option String) : Option JsDate :=
  match s with
  | none => none
  | some str =>
    if str = "" then none
    else
      match matchEskom str.data with
      | some (y, mon, d, hh, mm, ss) =>
        match monthIndex mon with
        | some mi => mkLocalDate y (mi + 1) d hh mm ss
        | none =>
          (matchSanral str.data).bind fun t =>
            mkLocalDate t.1 t.2.1 t.2.2.1 t.2.2.2.1 t.2.2.2.2.1 t.2.2.2.2.2
      | none =>
        (matchSanral str.data).bind fun t =>
          mkLocalDate t.1 t.2.1 t.2.2.1 t.2.2.2.1 t.2.2.2.2.1 t.2.2.2.2.2

/-- Matcher for the Transnet regex
/^(\d\x7b1,2\x7d)\/(\d\x7b1,2\x7d)\/(\d\x7b4\x7d) (\d\x7b1,2\x7d):(\d\x7b2\x7d)(?::(\d\x7b2\x7d))?\s*(AM|PM)$/i.
A maximal digit run checked for length 1..2 is equivalent to the greedy
backtracking semantics here because each run is followed by a
non-digit literal; the optional seconds group likewise admits a
deterministic reading. The final Bool is true for PM. -/
def meridiemEnd (mo d y hh mm ss : Nat) (r : List Char) :
    Option (Nat × Nat × Nat × Nat × Nat × Nat × Bool) :=
  match r.dropWhile isJsWs with
  | [a, p] =>
    if lowerCh p = 'm' && (lowerCh a = 'a' || lowerCh a = 'p') then
      some (mo, d, y, hh, mm, ss, lowerCh a = 'p')
    else none
  | _ => none

/-- Tail of the Transnet regex after the minutes capture: the optional
colon-seconds group, then any whitespace and the case-insensitive
meridiem at the anchored end. -/
def transnetSecs (mo d y hh mm : Nat) :
    List Char → Option (Nat × Nat × Nat × Nat × Nat × Nat × Bool)
  | ':' :: r2 =>
    (takeCount isDigitCh 2 r2).bind fun pr =>
      meridiemEnd mo d y hh mm (digitsToNat pr.1) pr.2
  | r => meridiemEnd mo d y hh mm 0 r

/-- Stage of the Transnet matcher after the space: the 1-2 digit hour run,
the colon, the two-digit minutes, then the tail. -/
def transnetStage3 (mo d y : Nat) (r4 : List Char) :
    Option (Nat × Nat × Nat × Nat × Nat × Nat × Bool) :=
  if (r4.takeWhile isDigitCh).length = 0 || 2 < (r4.takeWhile isDigitCh).length
  then none
  else
    (expectCh ':' (r4.dropWhile isDigitCh)).bind fun r5 =>
      (takeCount isDigitCh 2 r5).bind fun pr =>
        transnetSecs mo d y (digitsToNat (r4.takeWhile isDigitCh))
          (digitsToNat pr.1) pr.2

/-- Stage of the Transnet matcher after the second slash: the four-digit
year and the literal space. -/
def transnetStage2 (mo d : Nat) (r2 : List Char) :
    Option (Nat × Nat × Nat × Nat × Nat × Nat × Bool) :=
  (takeCount isDigitCh 4 r2).bind fun pr =>
    (expectCh ' ' pr.2).bind fun r4 =>
      transnetStage3 mo d (digitsToNat pr.1) r4

/-- Stage of the Transnet matcher after the first slash: the 1-2 digit day
run and the second slash. -/
def transnetStage1 (mo : Nat) (r : List Char) :
    Option (Nat × Nat × Nat × Nat × Nat × Nat × Bool) :=
  if (r.takeWhile isDigitCh).length = 0 || 2 < (r.takeWhile isDigitCh).length
  then none
  else
    (expectCh '/' (r.dropWhile isDigitCh)).bind fun r2 =>
      transnetStage2 mo (digitsToNat (r.takeWhile isDigitCh)) r2

/-- Matcher for the Transnet regex
/^(\d\x7b1,2\x7d)\/(\d\x7b1,2\x7d)\/(\d\x7b4\x7d) (\d\x7b1,2\x7d):(\d\x7b2\x7d)(?::(\d\x7b2\x7d))?\s*(AM|PM)$/i.
A maximal digit run checked for length 1..2 is equivalent to the greedy
backtracking semantics here because each run is followed by a non-digit
literal; the optional seconds group likewise admits a deterministic
reading because a colon can satisfy neither backslash-s-star nor the
meridiem. -/
def matchTransnet (l : List Char) : Option (Nat × Nat × Nat × Nat × Nat × Nat × Bool) :=
  if (l.takeWhile isDigitCh).length = 0 || 2 < (l.takeWhile isDigitCh).length
  then none
  else
    (expectCh '/' (l.dropWhile isDigitCh)).bind fun r =>
      transnetStage1 (digitsToNat (l.takeWhile isDigitCh)) r

/-- Embedding of parseTransnetDate: 12-hour clock folded to 24 hours via
H = h mod 12 plus 12 when PM; seconds default to 00. -/
def parseTransnetDate (s : Option String) : Option JsDate :=
  match s with
  | none => none
  | some str =>
    if str = "" then none
    else
      (matchTransnet str.data).bind fun t =>
        let M := t.1
        let D := t.2.1
        let Y := t.2.2.1
        let h := t.2.2.2.1
        let mm := t.2.2.2.2.1
        let ss := t.2.2.2.2.2.1
        let isPM := t.2.2.2.2.2.2
        mkLocalDate Y M D (h % 12 + (if isPM then 12 else 0)) mm ss

/-! ### parseEtendersDate and the ECMAScript ISO grammar -/

/-- Model of the ECMAScript Date Time String Format accepted by the Date
constructor on eTenders input (YYYY[-MM[-DD]][THH:mm[:ss[.sss]]][Z|+-HH:mm]);
implementation-specific legacy fallback formats are not modelled, matching
the specification's description of this parser as ISO parsing. -/
def jsDateParse (s : String) : Option JsDate := do
  let l := s.data
  let (y, r) ← takeCount isDigitCh 4 l
  let (mo, r) ←
    match r with
    | '-' :: r2 => (takeCount isDigitCh 2 r2).map (fun pr => (pr.1, pr.2))
    | _ => some (['0', '1'], r)
  let (d, r) ←
    match r with
    | '-' :: r2 => (takeCount isDigitCh 2 r2).map (fun pr => (pr.1, pr.2))
    | _ => some (['0', '1'], r)
  let (hh, mm, ss, r) ←
    match r with
    | 'T' :: r2 => do
      let (hh, r3) ← takeCount isDigitCh 2 r2
      let r4 ← expectCh ':' r3
      let (mm, r5) ← takeCount isDigitCh 2 r4
      match r5 with
      | ':' :: r6 => do
        let (ss, r7) ← takeCount isDigitCh 2 r6
        match r7 with
        | '.' :: r8 => do
          let (_, r9) ← takeCount isDigitCh 3 r8
          some (hh, mm, ss, r9)
        | _ => some (hh, mm, ss, r7)
      | _ => some (hh, mm, (['0', '0'] : List Char), r5)
    | _ => some ((['0', '0'] : List Char), ['0', '0'], ['0', '0'], r)
  let tz ←
    match r with
    | [] => some "Z"
    | ['Z'] => some "Z"
    | c :: r2 =>
      if c = '+' || c = '-' then do
        let (oh, r3) ← takeCount isDigitCh 2 r2
        let r4 ← expectCh ':' r3
        let (om, r5) ← takeCount isDigitCh 2 r4
        if r5 = [] then some (String.mk (c :: oh ++ ':' :: om)) else none
      else none
  if isoFieldsValid (digitsToNat y) (digitsToNat mo) (digitsToNat d)
      (digitsToNat hh) (digitsToNat mm) (digitsToNat ss) then
    some ⟨digitsToNat y, digitsToNat mo, digitsToNat d,
      digitsToNat hh, digitsToNat mm, digitsToNat ss, tz⟩
  else none

/-- Embedding of parseEtendersDate: a falsy argument yields null,
otherwise the Date constructor's verdict is passed through. -/
def parseEtendersDate (s : Option String) : Option JsDate :=
  match s with
  | none => none
  | some str => if str = "" then none else jsDateParse str

/-! ### Declarative grammars of the three date regexes, and soundness -/

/-- A block of exactly `n` characters all satisfying `p`. -/
def CharsOf (p : Char → Bool) (l : List Char) (n : Nat) : Prop :=
  l.length = n ∧ ∀ c ∈ l, p c = true

/-- A block of one or two characters all satisfying `p` (the regex
quantifier 1,2). -/
def CharsOf12 (p : Char → Bool) (l : List Char) : Prop :=
  1 ≤ l.length ∧ l.length ≤ 2 ∧ ∀ c ∈ l, p c = true

/-- Strings of the Eskom date grammar YYYY-Mon-DD HH:MM:SS. -/
def eskomShape (s : String) : Prop :=
  ∃ y mon d hh mm ss : List Char,
    s.data = y ++ '-' :: (mon ++ '-' :: (d ++ ' ' ::
      (hh ++ ':' :: (mm ++ ':' :: ss)))) ∧
    CharsOf isDigitCh y 4 ∧ CharsOf isAlphaCh mon 3 ∧ CharsOf isDigitCh d 2 ∧
    CharsOf isDigitCh hh 2 ∧ CharsOf isDigitCh mm 2 ∧ CharsOf isDigitCh ss 2

/-- Optional seconds block of the numeric grammars. -/
def secPart : Option (List Char) → List Char
  | none => []
  | some sec => ':' :: sec

/-- Strings of the SANRAL date grammar YYYY/MM/DD HH:MM with optional
seconds. -/
def sanralShape (s : String) : Prop :=
  ∃ y mo d hh mm : List Char, ∃ os : Option (List Char),
    s.data = y ++ '/' :: (mo ++ '/' :: (d ++ ' ' ::
      (hh ++ ':' :: (mm ++ secPart os)))) ∧
    CharsOf isDigitCh y 4 ∧ CharsOf isDigitCh mo 2 ∧ CharsOf isDigitCh d 2 ∧
    CharsOf isDigitCh hh 2 ∧ CharsOf isDigitCh mm 2 ∧
    ∀ sec, os = some sec → CharsOf isDigitCh sec 2

/-- Strings of the Transnet grammar M/D/YYYY H:MM with optional seconds,
optional whitespace, and a case-insensitive meridiem. -/
def transnetShape (s : String) : Prop :=
  ∃ mo d y hh mm : List Char, ∃ os : Option (List Char),
    ∃ ws : List Char, ∃ a p : Char,
    s.data = mo ++ '/' :: (d ++ '/' :: (y ++ ' ' ::
      (hh ++ ':' :: (mm ++ secPart os ++ ws ++ [a, p])))) ∧
    CharsOf12 isDigitCh mo ∧ CharsOf12 isDigitCh d ∧
    CharsOf isDigitCh y 4 ∧ CharsOf12 isDigitCh hh ∧ CharsOf isDigitCh mm 2 ∧
    (∀ sec, os = some sec → CharsOf isDigitCh sec 2) ∧
    (∀ c ∈ ws, isJsWs c = true) ∧
    lowerCh p = 'm' ∧ (lowerCh a = 'a' ∨ lowerCh a = 'p')

/-! ## Query API: GET /tenders filter and sort building
(src/lambdas/tender-api-handler/index.js lines 40-82 and 162-187) -/

/-- Query-string parameters of GET /tenders; absent parameters are none. -/
structure QueryParams where
  source : Option String := none
  status : Option String := none
  buyer : Option String := none
  category : Option String := none
  q : Option String := none
  closing_from : Option String := none
  closing_to : Option String := none
  published_from : Option String := none
  published_to : Option String := none
  sort : Option String := none
  order : Option String := none
  limit : Option String := none
  offset : Option String := none

/-- Embedding of SORT_WHITELIST. -/
def SORT_WHITELIST : List String := ["closing_at", "published_at", "id"]

/-- Exact test of the anchored regex used by parseDateOrNull:
ten characters shaped dddd-dd-dd. -/
def isYmd (v : String) : Bool :=
  match v.data with
  | [y1, y2, y3, y4, s1, m1, m2, s2, d1, d2] =>
    isDigitCh y1 && isDigitCh y2 && isDigitCh y3 && isDigitCh y4 &&
    s1 = '-' && isDigitCh m1 && isDigitCh m2 &&
    s2 = '-' && isDigitCh d1 && isDigitCh d2
  | _ => false

/-- Embedding of parseDateOrNull: the regex is tested against s or the
empty string, and the original value is passed through on success. -/
def parseDateOrNull (s : Option String) : Option String :=
  match s with
  | some v => if isYmd v then some v else none
  | none => none

/-- One conditional where.push/params.push pair of buildTenderWhere:
skipped when the value is falsy, otherwise the clause produced from the
next positional-parameter index is appended. -/
def pushFilter (acc : List String × List String) (v : Option String)
    (mk : Nat → String) : List String × List String :=
  match v with
  | some s => if s = "" then acc else (acc.1 ++ [mk (acc.2.length + 1)], acc.2 ++ [s])
  | none => acc

/-- Accumulation core of buildTenderWhere over the five text filters and
the four already-validated date bounds, in source order. -/
def buildWhereCore (source status buyer category q cf ct pf pt : Option String) :
    String × List String :=
  let acc := pushFilter ([], []) source
    (fun n => "t.source_id = (SELECT id FROM sources WHERE name = $" ++
      toString n ++ ")")
  let acc := pushFilter acc status (fun n => "t.status = $" ++ toString n)
  let acc := pushFilter acc buyer (fun n => "t.buyer = $" ++ toString n)
  let acc := pushFilter acc category (fun n => "t.category = $" ++ toString n)
  let acc := pushFilter acc q
    (fun n => "to_tsvector('english', coalesce(t.title,'') || ' ' || " ++
      "coalesce(t.description,'')) @@ plainto_tsquery('english', $" ++
      toString n ++ ")")
  let acc := pushFilter acc cf
    (fun n => "t.closing_at >= $" ++ toString n ++ "::date")
  let acc := pushFilter acc ct
    (fun n => "t.closing_at < ($" ++ toString n ++ "::date + INTERVAL '1 day')")
  let acc := pushFilter acc pf
    (fun n => "t.published_at >= $" ++ toString n ++ "::date")
  let acc := pushFilter acc pt
    (fun n => "t.published_at < ($" ++ toString n ++ "::date + INTERVAL '1 day')")
  (if acc.1 = [] then "" else "WHERE " ++ String.intercalate " AND " acc.1,
    acc.2)

/-- Embedding of buildTenderWhere: the WHERE fragment and the positional
parameters, built in source order. -/
def buildTenderWhere (qp : QueryParams) : String × List String :=
  buildWhereCore qp.source qp.status qp.buyer qp.category qp.q
    (parseDateOrNull qp.closing_from) (parseDateOrNull qp.closing_to)
    (parseDateOrNull qp.published_from) (parseDateOrNull qp.published_to)

/-- Models parseInt(v, 10): optional leading whitespace and sign, then a
leading digit run; no digits means NaN, modelled as none. -/
def jsParseInt (v : Option String) : Option Int :=
  match v with
  | none => none
  | some s =>
    let l := s.data.dropWhile isJsWs
    let sl : Int × List Char :=
      match l with
      | '-' :: r => (-1, r)
      | '+' :: r => (1, r)
      | _ => (1, l)
    let ds := sl.2.takeWhile isDigitCh
    if ds = [] then none else some (sl.1 * (digitsToNat ds : Int))

/-- Embedding of parseIntSafe. -/
def parseIntSafe (v : Option String) (d : Int) : Int :=
  (jsParseInt v).getD d

/-- Sort column of GET /tenders: the whitelist check with fallback to
closing_at (Set.has of an absent parameter is false). -/
def sortKeyOf (qp : QueryParams) : String :=
  match qp.sort with
  | some s => if s ∈ SORT_WHITELIST then s else "closing_at"
  | none => "closing_at"

/-- Sort direction of GET /tenders: DESC only when the lowercased order
parameter (defaulted to asc) equals desc. -/
def orderDirOf (qp : QueryParams) : String :=
  if jsToLower (jsOrD qp.order "asc") = "desc" then "DESC" else "ASC"

/-- Clamped limit of GET /tenders. -/
def limitOf (qp : QueryParams) : Int :=
  min (max (parseIntSafe qp.limit 20) 1) 100

/-- Clamped offset of GET /tenders. -/
def offsetOf (qp : QueryParams) : Int :=
  max (parseIntSafe qp.offset 0) 0

/-- The two SQL texts issued by GET /tenders (count query and data query)
with their shared parameter list; template-literal whitespace is
condensed to single spaces. -/
def mkTendersQuery (qp : QueryParams) : String × String × List String :=
  let wp := buildTenderWhere qp
  let totalSql := "SELECT COUNT(*) AS c FROM tenders t " ++ wp.1 ++ ";"
  let dataSql :=
    ("SELECT t.id, t.title, t.buyer, t.category, t.status, t.source_id, " ++
      "t.published_at, t.briefing_at, t.closing_at, t.location, t.url " ++
      "FROM tenders t " ++ wp.1 ++ " ") ++
    ("ORDER BY t." ++ sortKeyOf qp ++ " " ++ orderDirOf qp ++ " NULLS LAST") ++
    (" LIMIT " ++ toString (limitOf qp) ++ " OFFSET " ++
      toString (offsetOf qp) ++ ";")
  (totalSql, dataSql, wp.2)

/-! ## Normalizer output data model (src/lambdas/normalizer/index.js)

The content hash (core.hash = sha256 of a canonical JSON of a fixed field
subset) is not modelled: no claim under verification refers to hash
values, and the hash does not influence any control flow in the
normalizers or the handler (the upsert does not gate on it). -/

/-- JS-or on two optional string values, returning the second operand
verbatim when the first is falsy. -/
def jsOr (a b : Option String) : Option String :=
  if truthyS a then a else b

structure NormDoc where
  url : Option String := none
  name : Option String := none
  mime_type : Option String := none
  published_at : Option JsDate := none
deriving DecidableEq

structure NormContact where
  name : Option String := none
  email : Option String := none
  phone : Option String := none
deriving DecidableEq

/-- Canonical tender record produced by every source normalizer
(the core object of the source, minus the unmodelled hash field). -/
structure NormTender where
  external_id : Option String := none
  source_tender_id : Option String := none
  title : Option String := none
  description : Option String := none
  category : Option String := none
  location : Option String := none
  buyer : Option String := none
  procurement_method : Option String := none
  procurement_method_details : Option String := none
  status : Option String := none
  tender_type : Option String := none
  published_at : Option JsDate := none
  briefing_at : Option JsDate := none
  briefing_venue : Option String := none
  briefing_compulsory : Option Bool := none
  tender_start_at : Option JsDate := none
  closing_at : Option JsDate := none
  value_amount : Option Int := none
  value_currency : Option String := none
  url : Option String := none
  tender_box_address : Option String := none
  target_audience : Option String := none
  contract_type : Option String := none
  project_type : Option String := none
  queries_to : Option String := none
  briefing_details : Option String := none
deriving DecidableEq

/-- One normalized item: the tender plus its child collections. -/
structure NormItem where
  tender : NormTender
  documents : List NormDoc := []
  contacts : List NormContact := []
deriving DecidableEq

/-! ### Eskom normalizer (src/lambdas/normalizer/index.js lines 150-221) -/

/-- Raw Eskom scrape record; absent JSON fields are none. -/
structure EskomRaw where
  TenderID : Option String := none
  enquiryNumber : Option String := none
  scopeDetails : Option String := none
  description : Option String := none
  published : Option String := none
  closing : Option String := none
  category : Option String := none
  TenderBoxAddress : Option String := none
  location : Option String := none
  readMore : Option String := none
  TargetAudience : Option String := none
  ContractType : Option String := none
  downloadLink : Option String := none

/-- Mapping of one raw Eskom record to a normalized item, before the
external_id filter. -/
def eskomItem (r : EskomRaw) : NormItem :=
  let core : NormTender := {
    external_id := jsOr r.TenderID r.enquiryNumber
    source_tender_id := jsOr r.TenderID none
    title := some (jsOrD r.enquiryNumber (jsOrD r.TenderID "Eskom Tender"))
    description := squashWhitespace (jsOr r.scopeDetails r.description)
    category := jsOr r.category none
    location := jsOr r.TenderBoxAddress (jsOr r.location none)
    buyer := some "ESKOM"
    published_at := parseLocalTenderDate r.published
    closing_at := parseLocalTenderDate r.closing
    url := jsOr r.readMore none
    tender_box_address := jsOr r.TenderBoxAddress none
    target_audience := jsOr r.TargetAudience none
    contract_type := jsOr r.ContractType none }
  let documents : List NormDoc :=
    match r.downloadLink with
    | some d => if d = "" then [] else [{ url := some d }]
    | none => []
  { tender := core, documents := documents, contacts := [] }

/-- Embedding of normalizeEskomArray: map each record, then keep only
items with a truthy external_id. -/
def normalizeEskomArray (arr : List EskomRaw) : List NormItem :=
  (arr.map eskomItem).filter (fun x => truthyS x.tender.external_id)

/-! ### eTenders normalizer (src/lambdas/normalizer/index.js lines 226-315) -/

structure EtendersDoc where
  fileName : Option String := none
  extension : Option String := none
  dateModified : Option String := none

/-- Raw OCDS record; nested object accesses such as categories?.name are
flattened into optional fields. -/
structure EtendersItem where
  id : Option Nat := none
  tender_No : Option String := none
  description : Option String := none
  category : Option String := none
  categoriesName : Option String := none
  town : Option String := none
  provincesName : Option String := none
  province : Option String := none
  organ_of_State : Option String := none
  departmentsName : Option String := none
  department : Option String := none
  type : Option String := none
  status : Option String := none
  date_Published : Option String := none
  compulsory_briefing_session : Option String := none
  briefingVenue : Option String := none
  briefingCompulsory : Option Bool := none
  closing_Date : Option String := none
  delivery : Option String := none
  streetname : Option String := none
  contactPerson : Option String := none
  briefingSession : Bool := false
  conditions : Option String := none
  supportDocument : Option (List EtendersDoc) := none
  email : Option String := none
  telephone : Option String := none
  fax : Option String := none

/-- The ⟨data: [...]⟩ wrapper of an eTenders object; a missing or
non-array data field is none. -/
structure EtendersRaw where
  data : Option (List EtendersItem) := none

/-- The fabricated fallback identifier of the source:
the template literal etenders-(item.id), interpolating undefined as the
string "undefined". -/
def etendersFallbackId (id : Option Nat) : String :=
  "etenders-" ++ (match id with | some n => toString n | none => "undefined")

/-- Mapping of one raw OCDS record to a normalized item. -/
def etendersItem (item : EtendersItem) : NormItem :=
  let externalId := jsOrD item.tender_No (etendersFallbackId item.id)
  let core : NormTender := {
    external_id := some externalId
    source_tender_id :=
      match item.id with
      | some n => if n = 0 then none else some (toString n)
      | none => none
    title := some (jsOrD (squashWhitespace item.tender_No) "eTenders Tender")
    description := squashWhitespace item.description
    category := squashWhitespace (jsOr item.category item.categoriesName)
    location := squashWhitespace
      (jsOr item.town (jsOr item.provincesName item.province))
    buyer := squashWhitespace
      (jsOr item.organ_of_State (jsOr item.departmentsName item.department))
    procurement_method := squashWhitespace item.type
    status := squashWhitespace item.status
    tender_type := squashWhitespace item.type
    published_at := parseEtendersDate item.date_Published
    briefing_at := parseEtendersDate item.compulsory_briefing_session
    briefing_venue := squashWhitespace item.briefingVenue
    briefing_compulsory := item.briefingCompulsory
    closing_at := parseEtendersDate item.closing_Date
    tender_box_address := squashWhitespace (jsOr item.delivery item.streetname)
    queries_to := squashWhitespace item.contactPerson
    briefing_details :=
      if item.briefingSession then squashWhitespace item.conditions else none }
  let documents : List NormDoc :=
    match item.supportDocument with
    | some docs =>
      (docs.filter (fun doc => truthyS doc.fileName)).map (fun doc =>
        { url := none
          name := squashWhitespace doc.fileName
          mime_type :=
            if doc.extension = some ".pdf" then some "application/pdf" else none
          published_at := parseEtendersDate doc.dateModified })
    | none => []
  let contacts : List NormContact :=
    if truthyS item.contactPerson || truthyS item.email ||
        truthyS item.telephone then
      [{ name := squashWhitespace item.contactPerson
         email :=
           match item.email with
           | some e => if e = "" then none else some (jsTrim e)
           | none => none
         phone := squashWhitespace (jsOr item.telephone item.fax) }]
    else []
  { tender := core, documents := documents, contacts := contacts }

/-- Embedding of normalizeEtendersArray: a missing wrapper or data array
yields no items; otherwise every record is mapped and the trailing filter
keeps items with truthy external_id. -/
def normalizeEtendersArray (raw : Option EtendersRaw) : List NormItem :=
  match raw with
  | none => []
  | some r =>
    match r.data with
    | none => []
    | some items =>
      (items.map etendersItem).filter (fun it => truthyS it.tender.external_id)

/-! ## SANRAL prose parser

Modelled from the spec: normalizeSanralArray and its prose extractors are
omitted from src/lambdas/normalizer/index.js (the line-223 comment
"SANRAL and Transnet normalizers remain the same - omitted for brevity");
the definitions below follow spec sections 4.1 and 4.2: locate the lines
containing CLOSING (DATE|TIME) and BRIEFING markers, derive the
timestamps via extractTextualDateTime, and apply extractTimeRange with
closing_at taking the range's end, briefing_at its start, and the
end-of-briefing-window note appended to briefing_details. -/

/-- Modelled from the spec: one clock token HH[:.hH]MM of
extractTimeRange and extractTextualDateTime; a 1-2 digit hour run, a
separator among colon, dot, h, H, and exactly two minute digits. -/
def timeTok (l : List Char) : Option ((Nat × Nat) × List Char) :=
  let hs := l.takeWhile isDigitCh
  if hs.length = 0 || 2 < hs.length then none
  else
    match l.dropWhile isDigitCh with
    | sep :: rest =>
      if sep = ':' || sep = '.' || sep = 'h' || sep = 'H' then
        (takeCount isDigitCh 2 rest).bind fun pr =>
          some ((digitsToNat hs, digitsToNat pr.1), pr.2)
      else none
    | [] => none

/-- Modelled from the spec: extractTimeRange finds the first
HH[:.hH]MM dash HH[:.hH]MM occurrence (ASCII hyphen or en-dash, spaces
tolerated around the dash) and returns the start and end times. -/
def findTimeRange : List Char → Option ((Nat × Nat) × (Nat × Nat))
  | [] => none
  | c :: cs =>
    match (do
      let (t1, r) ← timeTok (c :: cs)
      let r := r.dropWhile (fun d => d = ' ')
      let r ← match r with
        | d :: rest =>
          if d = '-' || d = '–' then some rest else none
        | [] => none
      let r := r.dropWhile (fun d => d = ' ')
      let (t2, _) ← timeTok r
      some (t1, t2) : Option ((Nat × Nat) × (Nat × Nat))) with
    | some res => some res
    | none => findTimeRange cs

/-- Modelled from the spec: extractTimeRange over a string. -/
def extractTimeRange (s : String) : Option ((Nat × Nat) × (Nat × Nat)) :=
  findTimeRange s.data

/-- Full English month names for the textual date grammar,
matched case-insensitively. -/
def monthNameNum (w : String) : Option Nat :=
  match jsToLower w with
  | "january" => some 1 | "february" => some 2 | "march" => some 3
  | "april" => some 4 | "may" => some 5 | "june" => some 6
  | "july" => some 7 | "august" => some 8 | "september" => some 9
  | "october" => some 10 | "november" => some 11 | "december" => some 12
  | _ => none

/-- Modelled from the spec: the date-and-optional-time body of
extractTextualDateTime at one position: D Month YYYY, then an optional
@-or-space separated HH[:.hH]MM clock with optional meridiem; a missing
time defaults to 00:00. -/
def textualDateAt (l : List Char) : Option JsDate :=
  let ds := l.takeWhile isDigitCh
  if ds.length = 0 || 2 < ds.length then none
  else
    match l.dropWhile isDigitCh with
    | ' ' :: r1 =>
      let r1 := r1.dropWhile (fun d => d = ' ')
      let w := r1.takeWhile isAlphaCh
      match monthNameNum (String.mk w) with
      | none => none
      | some mo =>
        match r1.dropWhile isAlphaCh with
        | ' ' :: r2 =>
          let r2 := r2.dropWhile (fun d => d = ' ')
          (takeCount isDigitCh 4 r2).bind fun pr =>
            let y := digitsToNat pr.1
            let rest := (pr.2.dropWhile
              (fun d => d = ' ' || d = '@' || d = '.')).dropWhile
              (fun d => d = ' ')
            match timeTok rest with
            | some ((h, mi), r3) =>
              let r3 := r3.dropWhile (fun d => d = ' ')
              let hAdj :=
                match r3 with
                | a :: m :: _ =>
                  if lowerCh a = 'p' && lowerCh m = 'm' && h < 12 then h + 12
                  else h
                | _ => h
              mkLocalDate y mo (digitsToNat ds) hAdj mi 0
            | none => mkLocalDate y mo (digitsToNat ds) 0 0 0
        | _ => none
    | _ => none

/-- Modelled from the spec: extractTextualDateTime scans the line for the
first D Month YYYY occurrence. -/
def textualDate : List Char → Option JsDate
  | [] => none
  | c :: cs =>
    match textualDateAt (c :: cs) with
    | some d => some d
    | none => textualDate cs

/-- Modelled from the spec: extractTextualDateTime over a string. -/
def extractTextualDateTime (s : String) : Option JsDate :=
  textualDate s.data

/-- Prefix test for the substring scan of the marker search. -/
def leadsList : List Char → List Char → Bool
  | [], _ => true
  | _ :: _, [] => false
  | a :: as, b :: bs => a = b && leadsList as bs

/-- Substring containment used to locate marker lines. -/
def containsChars (pat : List Char) : List Char → Bool
  | [] => pat.isEmpty
  | c :: cs => leadsList pat (c :: cs) || containsChars pat cs

/-- Substring containment over strings. -/
def containsSub (pat s : String) : Bool :=
  containsChars pat.data s.data

/-- Modelled from the spec: a line carrying the CLOSING (DATE|TIME)
marker. -/
def isClosingLine (l : String) : Bool :=
  containsSub "CLOSING DATE" l || containsSub "CLOSING TIME" l

/-- Modelled from the spec: a line carrying the BRIEFING marker. -/
def isBriefingLine (l : String) : Bool :=
  containsSub "BRIEFING" l

/-- Two-digit zero-padded clock component. -/
def pad2 (n : Nat) : String :=
  if n < 10 then "0" ++ toString n else toString n

/-- Clock rendering HH:MM used by the briefing-window note. -/
def fmtTime (t : Nat × Nat) : String :=
  pad2 t.1 ++ ":" ++ pad2 t.2

/-- Replace the clock of a parsed date by a range endpoint, re-checking
validity as the Date constructor would. -/
def withTime (d : JsDate) (t : Nat × Nat) : Option JsDate :=
  mkLocalDate d.year d.month d.day t.1 t.2 0

/-- Temporal outputs of the SANRAL prose parser. -/
structure SanralTimes where
  closing_at : Option JsDate
  briefing_at : Option JsDate
  briefing_details : Option String
deriving DecidableEq

/-- Modelled from the spec: derivation of closing_at, briefing_at and the
briefing-window note from the prose lines. The closing timestamp comes
from the first CLOSING (DATE|TIME) line, taking a time range's end when
one is present on that line; the briefing timestamp comes from the first
BRIEFING line, taking a range's start; a briefing range also appends the
end-of-briefing-window note to briefing_details. -/
def sanralDerive (lines : List String) : SanralTimes :=
  let closingLine := lines.find? isClosingLine
  let briefingLine := lines.find? isBriefingLine
  { closing_at := closingLine.bind (fun l =>
      (textualDate l.data).bind (fun d =>
        match findTimeRange l.data with
        | some (_, en) => withTime d en
        | none => some d))
    briefing_at := briefingLine.bind (fun l =>
      (textualDate l.data).bind (fun d =>
        match findTimeRange l.data with
        | some (st, _) => withTime d st
        | none => some d))
    briefing_details := briefingLine.bind (fun l =>
      match findTimeRange l.data with
      | some (_, en) => some ("Briefing window ends at " ++ fmtTime en)
      | none => none) }

/-! ## OCDS fetcher (src/lambdas/etenders-fetcher/index.js)

The sequential default mode (USE_CONCURRENT unset) is modelled. Retry
timings and backoff sleeps are irrelevant to the claims and dropped;
one invocation is a loop over pages with a per-iteration wall-clock
reading supplied by an oracle. -/

/-- Outcome of one HTTP attempt for one page, as classified by
fetchPageWithRetry: a 200 object body, a 404, a 429 rate limit, a
retriable network error, or any other error (non-retriable statuses and
malformed bodies throw and are not retried). -/
inductive FetchAttempt where
  | ok
  | notFound
  | rateLimited
  | retriableErr
  | nonRetriableErr
deriving DecidableEq

/-- Attempt loop of fetchPageWithRetry over an oracle giving the outcome
of each attempt number: success yields the body, a 404 yields null
immediately, 429 and retriable errors consume an attempt and retry, any
other error throws; exhausting the three attempts throws the last
error. -/
def fetchRetryGo (att : Nat → FetchAttempt) : Nat → Nat → Except Unit (Option Unit)
  | 0, _ => Except.error ()
  | n + 1, a =>
    match att a with
    | .ok => Except.ok (some ())
    | .notFound => Except.ok none
    | .rateLimited => fetchRetryGo att n (a + 1)
    | .retriableErr => fetchRetryGo att n (a + 1)
    | .nonRetriableErr => Except.error ()

/-- Embedding of fetchPageWithRetry with its three attempts. -/
def fetchPageWithRetry (att : Nat → Nat → FetchAttempt) (page : Nat) :
    Except Unit (Option Unit) :=
  fetchRetryGo (att page) 3 1

/-- Embedding of processPageSequentially: all errors are caught and
reported as a failed page result; a null body (404) is the failure
"No data returned"; a successful body is persisted by savePage, whose S3
outcome the second oracle decides. -/
def pageSucceeds (att : Nat → Nat → FetchAttempt) (s3ok : Nat → Bool)
    (page : Nat) : Bool :=
  match fetchPageWithRetry att page with
  | .ok (some _) => s3ok page
  | _ => false

/-- Result summary of one fetcher invocation. -/
structure FetchOut where
  pages : List (Nat × Bool)
  savedPages : List Nat
  failedPages : List Nat
  totalSaved : Nat
  continuedFrom : Option Nat
deriving DecidableEq

/-- Main sequential loop of the handler: while the current page does not
exceed MAX_PAGES, check the elapsed-time budget (invoking a
self-continuation when exceeded), process the page, record the result,
and advance to the next page. The fuel argument counts the remaining
loop iterations and is instantiated so the loop runs to MAX_PAGES. -/
def runFetchGo (att : Nat → Nat → FetchAttempt) (s3ok : Nat → Bool)
    (elapsed : Nat → Nat) (maxPages : Nat) :
    Nat → Nat → Nat → List (Nat × Bool) → List Nat → List Nat → Nat → FetchOut
  | 0, _, _, pages, saved, failed, tot =>
    ⟨pages, saved, failed, tot, none⟩
  | fuel + 1, k, cur, pages, saved, failed, tot =>
    if maxPages < cur then ⟨pages, saved, failed, tot, none⟩
    else if 260000 < elapsed k then ⟨pages, saved, failed, tot, some cur⟩
    else
      let s := pageSucceeds att s3ok cur
      runFetchGo att s3ok elapsed maxPages fuel (k + 1) (cur + 1)
        (pages ++ [(cur, s)])
        (if s then saved ++ [cur] else saved)
        (if s then failed else failed ++ [cur])
        (if s then tot + 1 else tot)

/-- One fetcher invocation from a start page, carrying over the failed
pages and total of a previous invocation. -/
def runFetcher (att : Nat → Nat → FetchAttempt) (s3ok : Nat → Bool)
    (elapsed : Nat → Nat) (maxPages startPage : Nat)
    (prevFailed : List Nat) (prevTotal : Nat) : FetchOut :=
  runFetchGo att s3ok elapsed maxPages (maxPages + 1 - startPage) 0 startPage
    [] [] prevFailed prevTotal

/-! ## Ingest worker handler (src/lambdas/normalizer/index.js lines 364-544)

One invocation is modelled as a run over the already-normalized item
lists of the event's notifications (S3 fetch, JSON parsing and source
dispatch happen before the claims' scope; notifications skipped for bad
JSON, unknown prefixes or empty item lists contribute nothing). The
relational store is a value of type `Db`; each batch works on a copy of
the committed state which replaces it at COMMIT and is discarded at
ROLLBACK (one sequential connection, as in the source). Failure
injection: `fp idx` names the 0-based statement of item `idx` that
throws (0 the upsert, then the document/contact statements; an index at
or beyond the statement count means no failure), and `fatal idx` aborts
the whole handler right before item `idx` (modelling non-row-level
errors such as a failing source lookup), which triggers the catch-block
ROLLBACK and rethrow. -/

/-- Character cost in UTF-16 code units. -/
def utf16Cost (c : Char) : Nat := if 0x10000 ≤ c.val.toNat then 2 else 1

/-- Models String.prototype.slice(0, n), which counts UTF-16 code units.
When the budget would split a surrogate pair this model drops the pair
(JS keeps a lone high surrogate, which a Lean Char cannot represent);
the repository only slices at 95 and 300 on BMP text where both agree. -/
def sliceCUList : Nat → List Char → List Char
  | _, [] => []
  | b, c :: cs =>
    if utf16Cost c ≤ b then c :: sliceCUList (b - utf16Cost c) cs else []

/-- String slice by UTF-16 code-unit budget. -/
def jsSliceCU (n : Nat) (s : String) : String := ⟨sliceCUList n s.data⟩

/-- One published notification message: the SNS subject, the JSON
payload fields, and the category message attribute (equal to the payload
category). -/
structure SnsMsg where
  subject : String
  tenderId : Nat
  title : Option String
  category : String
  source : String
  published_at : Option JsDate
  closing_at : Option JsDate
  url : Option String
  description : Option String
deriving DecidableEq

/-- Message content built at lines 484-499: the category is the trimmed
lowercased first truthy of category, source, "general"; the subject is
sliced to 95 code units; the description to 300. -/
def mkSnsMsg (source : String) (tid : Nat) (t : NormTender) : SnsMsg :=
  let cat := jsToLower (jsTrim (jsOrD t.category (jsOrD (some source) "general")))
  { subject := jsSliceCU 95
      ("New " ++ cat ++ " tender: " ++ jsOrD t.title "Untitled")
    tenderId := tid
    title := t.title
    category := cat
    source := source
    published_at := t.published_at
    closing_at := t.closing_at
    url := t.url
    description :=
      match t.description with
      | some d => if d = "" then none else some (jsSliceCU 300 d)
      | none => none }

/-- A stored tender row. -/
structure Row where
  id : Nat
  source_id : Nat
  tender : NormTender
deriving DecidableEq

/-- The relational store: tenders with their serial ids, and the child
document/contact tables keyed by tender id. -/
structure Db where
  nextId : Nat := 1
  tenders : List Row := []
  documents : List (Nat × NormDoc) := []
  contacts : List (Nat × NormContact) := []
deriving DecidableEq

/-- The canonical upsert (UPSERT_TENDER_SQL): on conflict of
(source_id, external_id) all mutable columns are replaced and the
existing id returned, otherwise a fresh row is inserted; last_seen_at is
not modelled (no claim reads it). -/
def upsertTender (sid : Nat) (t : NormTender) (db : Db) : Nat × Db :=
  match db.tenders.find? (fun r =>
      r.source_id = sid && r.tender.external_id = t.external_id) with
  | some r =>
    (r.id, { db with tenders := db.tenders.map (fun r0 =>
      if r0.id = r.id then { r0 with tender := t } else r0) })
  | none =>
    (db.nextId, { db with
      nextId := db.nextId + 1
      tenders := db.tenders ++ [⟨db.nextId, sid, t⟩] })

def deleteDocs (tid : Nat) (db : Db) : Db :=
  { db with documents := db.documents.filter (fun pr => pr.1 ≠ tid) }

def insertDoc (tid : Nat) (d : NormDoc) (db : Db) : Db :=
  { db with documents := db.documents ++ [(tid, d)] }

def deleteContacts (tid : Nat) (db : Db) : Db :=
  { db with contacts := db.contacts.filter (fun pr => pr.1 ≠ tid) }

def insertContact (tid : Nat) (c : NormContact) (db : Db) : Db :=
  { db with contacts := db.contacts ++ [(tid, c)] }

/-- The statements executed for one item after its upsert, in source
order: delete documents, insert each document, delete contacts, insert
each contact. -/
def itemEffects (tid : Nat) (it : NormItem) : List (Db → Db) :=
  [deleteDocs tid] ++ it.documents.map (fun d => insertDoc tid d) ++
    [deleteContacts tid] ++ it.contacts.map (fun c => insertContact tid c)

def applyEffects (effs : List (Db → Db)) (db : Db) : Db :=
  effs.foldl (fun d f => f d) db

/-- Number of statements an item executes (the upsert plus its
effects). -/
def itemStmtCount (it : NormItem) : Nat :=
  3 + it.documents.length + it.contacts.length

/-- Whether every statement of the item succeeds under the injected
failure point. -/
def itemOk (it : NormItem) (fp : Option Nat) : Bool :=
  match fp with
  | none => true
  | some k => itemStmtCount it ≤ k

/-- Events of the handler trace. -/
inductive Ev where
  | beginTxn
  | upsertOk (tid : Nat)
  | upsertFail
  | commit
  | rollback
  | publish (m : SnsMsg)
deriving DecidableEq

def Ev.isPub : Ev → Bool
  | .publish _ => true
  | _ => false

/-- Per-item body of the batch loop (lines 446-505) as seen from the
JS side: the upsert, the child replacement, and the capped
publish-intent push, under the try/catch that logs a row failure and
continues. This runner deliberately simplifies the database: a failed
statement leaves the open transaction usable, so later items can still
succeed. On PostgreSQL an error aborts the transaction instead;
`pgProcessItem` below models that faithfully, and the two coincide on
failure-free traces (`pgRunItems_eq_of_ok`). This simplified runner is
kept for the publish-buffer bookkeeping, which under any failure oracle
evolves exactly as the JS `toPublish` array does for the corresponding
statement outcomes. -/
def processItem (sid : Nat) (source : String) (fp : Option Nat) (db : Db)
    (toPub : List SnsMsg) (it : NormItem) :
    Db × List SnsMsg × List Ev :=
  match fp with
  | some 0 => (db, toPub, [Ev.upsertFail])
  | _ =>
    let pr := upsertTender sid it.tender db
    let tid := pr.1
    let db1 := pr.2
    let effs := itemEffects tid it
    match fp with
    | some k =>
      if k < itemStmtCount it then
        (applyEffects (effs.take (k - 1)) db1, toPub, [Ev.upsertOk tid])
      else
        (applyEffects effs db1,
          if toPub.length < 10 then toPub ++ [mkSnsMsg source tid it.tender]
          else toPub,
          [Ev.upsertOk tid])
    | none =>
      (applyEffects effs db1,
        if toPub.length < 10 then toPub ++ [mkSnsMsg source tid it.tender]
        else toPub,
        [Ev.upsertOk tid])

/-- The item loop of one batch over the working copy of the store,
with the fatal oracle aborting before a given global item index. -/
def runItems (sid : Nat) (source : String) (fp : Nat → Option Nat)
    (fatal : Nat → Bool) :
    Nat → Db → List SnsMsg → List NormItem →
      Nat × Db × List SnsMsg × List Ev × Bool
  | idx, db, toPub, [] => (idx, db, toPub, [], false)
  | idx, db, toPub, it :: rest =>
    if fatal idx then (idx, db, toPub, [], true)
    else
      let st1 := processItem sid source (fp idx) db toPub it
      let st2 := runItems sid source fp fatal (idx + 1) st1.1 st1.2.1 rest
      (st2.1, st2.2.1, st2.2.2.1, st1.2.2 ++ st2.2.2.2.1, st2.2.2.2.2)

/-- Slicing of an item list into batches of BATCH_SIZE 100 (the slice
loop at line 439); the fuel equals the list length, which bounds the
number of slices. -/
def chunksGo : Nat → List NormItem → List (List NormItem)
  | 0, _ => []
  | _, [] => []
  | fuel + 1, l@(_ :: _) => l.take 100 :: chunksGo fuel (l.drop 100)

def chunksOf100 (l : List NormItem) : List (List NormItem) :=
  chunksGo l.length l

/-- The batch loop of the simplified runner: BEGIN, the item loop on a
working copy of the committed store, then COMMIT installing the working
copy — or, on a fatal error, the catch-block ROLLBACK discarding it.
Like `processItem` this ignores transaction abortion: it installs the
working copy even when a statement of the batch failed, which PostgreSQL
does not do; `pgRunBatches` below models the faithful behaviour. -/
def runBatches (sid : Nat) (source : String) (fp : Nat → Option Nat)
    (fatal : Nat → Bool) :
    Nat → Db → List SnsMsg → List (List NormItem) →
      Nat × Db × List SnsMsg × List Ev × Bool
  | idx, db, toPub, [] => (idx, db, toPub, [], false)
  | idx, db, toPub, batch :: rest =>
    let st1 := runItems sid source fp fatal idx db toPub batch
    if st1.2.2.2.2 then
      (st1.1, db, st1.2.2.1, Ev.beginTxn :: st1.2.2.2.1 ++ [Ev.rollback], true)
    else
      let st2 := runBatches sid source fp fatal st1.1 st1.2.1 st1.2.2.1 rest
      (st2.1, st2.2.1, st2.2.2.1,
        Ev.beginTxn :: st1.2.2.2.1 ++ [Ev.commit] ++ st2.2.2.2.1,
        st2.2.2.2.2)

/-- One object-created notification after normalization: the source name
determined from the key prefix and the normalized items. -/
structure Notif where
  source : String
  items : List NormItem

/-- The notification loop of the handler. -/
def runNotifs (srcIds : String → Nat) (fp : Nat → Option Nat)
    (fatal : Nat → Bool) :
    Nat → Db → List SnsMsg → List Notif →
      Nat × Db × List SnsMsg × List Ev × Bool
  | idx, db, toPub, [] => (idx, db, toPub, [], false)
  | idx, db, toPub, n :: rest =>
    let st1 := runBatches (srcIds n.source) n.source fp fatal idx db toPub
      (chunksOf100 n.items)
    if st1.2.2.2.2 then st1
    else
      let st2 := runNotifs srcIds fp fatal st1.1 st1.2.1 st1.2.2.1 rest
      (st2.1, st2.2.1, st2.2.2.1, st1.2.2.2.1 ++ st2.2.2.2.1, st2.2.2.2.2)

/-- One handler invocation: process every batch of every notification,
then publish the buffered intents; on a fatal error the catch block
rolls back and rethrows, so nothing is published. Returns the final
committed store, the event trace, and the published messages (none when
the handler threw). -/
def runHandler (srcIds : String → Nat) (fp : Nat → Option Nat)
    (fatal : Nat → Bool) (db0 : Db) (notifs : List Notif) :
    Db × List Ev × Option (List SnsMsg) :=
  let st := runNotifs srcIds fp fatal 0 db0 [] notifs
  if st.2.2.2.2 then (st.2.1, st.2.2.2.1, none)
  else (st.2.1, st.2.2.2.1 ++ st.2.2.1.map Ev.publish, some st.2.2.1)

/-! ### Specification-side view of the published messages -/

/-- Message content without the run-assigned tender id. -/
structure SnsView where
  subject : String
  title : Option String
  category : String
  source : String
  published_at : Option JsDate
  closing_at : Option JsDate
  url : Option String
  description : Option String
deriving DecidableEq

def viewOf (m : SnsMsg) : SnsView :=
  ⟨m.subject, m.title, m.category, m.source, m.published_at, m.closing_at,
    m.url, m.description⟩

/-- Expected message view of one upserted tender. -/
def mkViewOf (source : String) (t : NormTender) : SnsView :=
  viewOf (mkSnsMsg source 0 t)

/-- Views of the fully-successful items of one notification, in order,
threading the global item index. -/
def okViewsItems (fp : Nat → Option Nat) :
    Nat → String → List NormItem → Nat × List SnsView
  | idx, _, [] => (idx, [])
  | idx, src, it :: rest =>
    let st := okViewsItems fp (idx + 1) src rest
    (st.1,
      (if itemOk it (fp idx) then [mkViewOf src it.tender] else []) ++ st.2)

/-- Views of the fully-successful items of the whole event, in order. -/
def okViewsNotifs (fp : Nat → Option Nat) :
    Nat → List Notif → Nat × List SnsView
  | idx, [] => (idx, [])
  | idx, n :: rest =>
    let st1 := okViewsItems fp idx n.source n.items
    let st2 := okViewsNotifs fp st1.1 rest
    (st2.1, st1.2 ++ st2.2)

/-- Documents stored for a tender id. -/
def docsOf (tid : Nat) (db : Db) : List NormDoc :=
  (db.documents.filter (fun pr => pr.1 = tid)).map (fun pr => pr.2)

/-- Contacts stored for a tender id. -/
def contactsOf (tid : Nat) (db : Db) : List NormContact :=
  (db.contacts.filter (fun pr => pr.1 = tid)).map (fun pr => pr.2)

/-- Well-formedness of the store: distinct row ids, all below the next
serial value. -/
def DbWf (db : Db) : Prop :=
  (db.tenders.map (fun r => r.id)).Nodup ∧
  ∀ r ∈ db.tenders, r.id < db.nextId

/-- Presence of a tender row id in the store. -/
def idIn (tid : Nat) (db : Db) : Prop :=
  ∃ r ∈ db.tenders, r.id = tid

/-! ### C2: the publish-intent buffer and its cap of 10 -/

/-- The capped accumulation of lines 482-483: intents append only while
fewer than 10 are buffered, so of a stream of candidate views only the
first ten beyond those already buffered are kept. -/
def cap10 (prev new : List SnsView) : List SnsView :=
  prev ++ new.take (10 - prev.length)

/-- Eleven one-field items with distinct external ids. -/
def c2Items : List NormItem :=
  ["a", "b", "c", "d", "e", "f", "g", "h", "i", "j", "k"].map
    (fun s => { tender := { external_id := some s } })

/-- A fully successful item for the C3 witness: one document and one
contact. -/
def c3ItemA : NormItem :=
  ⟨{ external_id := some "A" }, [{ url := some "u" }], [{ name := some "c" }]⟩

/-- A second item whose upsert the witness's failure oracle makes
fail. -/
def c3ItemB : NormItem := ⟨{ external_id := some "B" }, [], []⟩

/-- Witness failure oracle: the statement at global item index 1 (the
upsert of the second item) fails; everything else succeeds. -/
def c3Fp : Nat → Option Nat := fun i => if i = 1 then some 0 else none

/-! ### PostgreSQL-faithful transaction semantics

The handler runs `BEGIN` ... per-item try/catch ... `COMMIT` on a
node-postgres client with no savepoints. On PostgreSQL the first
server-side statement error puts the open transaction in the aborted
state: every later statement fails immediately (error 25P02, caught and
logged by the per-item catch, so the loop continues), and the final
`COMMIT` resolves without error but performs a ROLLBACK discarding the
whole batch. The `pg` runners below thread that aborted flag; the
publish-intent buffer is untouched by the rollback, so intents buffered
for the batch's earlier rows are still published afterwards. -/

/-- Per-item body under PostgreSQL semantics. In an aborted transaction
every statement of the item fails at once: the catch logs it and nothing
is applied or buffered. Otherwise as `processItem`, except that the
item's first failing statement leaves the transaction aborted. The last
component is the aborted flag after the item. -/
def pgProcessItem (sid : Nat) (source : String) (fp : Option Nat)
    (aborted : Bool) (db : Db) (toPub : List SnsMsg) (it : NormItem) :
    Db × List SnsMsg × List Ev × Bool :=
  if aborted then (db, toPub, [Ev.upsertFail], true)
  else
    match fp with
    | some 0 => (db, toPub, [Ev.upsertFail], true)
    | _ =>
      let pr := upsertTender sid it.tender db
      let tid := pr.1
      let db1 := pr.2
      let effs := itemEffects tid it
      match fp with
      | some k =>
        if k < itemStmtCount it then
          (applyEffects (effs.take (k - 1)) db1, toPub, [Ev.upsertOk tid],
            true)
        else
          (applyEffects effs db1,
            if toPub.length < 10 then
              toPub ++ [mkSnsMsg source tid it.tender]
            else toPub,
            [Ev.upsertOk tid], false)
      | none =>
        (applyEffects effs db1,
          if toPub.length < 10 then toPub ++ [mkSnsMsg source tid it.tender]
          else toPub,
          [Ev.upsertOk tid], false)

/-- The item loop of one batch threading the aborted-transaction flag;
result: (index, working copy, buffer, events, aborted, fatal). -/
def pgRunItems (sid : Nat) (source : String) (fp : Nat → Option Nat)
    (fatal : Nat → Bool) :
    Nat → Bool → Db → List SnsMsg → List NormItem →
      Nat × Db × List SnsMsg × List Ev × Bool × Bool
  | idx, ab, db, toPub, [] => (idx, db, toPub, [], ab, false)
  | idx, ab, db, toPub, it :: rest =>
    if fatal idx then (idx, db, toPub, [], ab, true)
    else
      let st1 := pgProcessItem sid source (fp idx) ab db toPub it
      let st2 := pgRunItems sid source fp fatal (idx + 1) st1.2.2.2 st1.1
        st1.2.1 rest
      (st2.1, st2.2.1, st2.2.2.1, st1.2.2.1 ++ st2.2.2.2.1, st2.2.2.2.2.1,
        st2.2.2.2.2.2)

/-- The batch loop under PostgreSQL semantics: each batch opens a fresh
transaction (aborted := false); the issued COMMIT installs the working
copy only when the transaction is not aborted — otherwise it silently
rolls the batch back, keeping the previously committed store. The
publish-intent buffer survives either way. -/
def pgRunBatches (sid : Nat) (source : String) (fp : Nat → Option Nat)
    (fatal : Nat → Bool) :
    Nat → Db → List SnsMsg → List (List NormItem) →
      Nat × Db × List SnsMsg × List Ev × Bool
  | idx, db, toPub, [] => (idx, db, toPub, [], false)
  | idx, db, toPub, batch :: rest =>
    let st1 := pgRunItems sid source fp fatal idx false db toPub batch
    if st1.2.2.2.2.2 then
      (st1.1, db, st1.2.2.1, Ev.beginTxn :: st1.2.2.2.1 ++ [Ev.rollback],
        true)
    else
      let committed := if st1.2.2.2.2.1 then db else st1.2.1
      let st2 := pgRunBatches sid source fp fatal st1.1 committed
        st1.2.2.1 rest
      (st2.1, st2.2.1, st2.2.2.1,
        Ev.beginTxn :: st1.2.2.2.1 ++ [Ev.commit] ++ st2.2.2.2.1,
        st2.2.2.2.2)

/-- The notification loop under PostgreSQL semantics. -/
def pgRunNotifs (srcIds : String → Nat) (fp : Nat → Option Nat)
    (fatal : Nat → Bool) :
    Nat → Db → List SnsMsg → List Notif →
      Nat × Db × List SnsMsg × List Ev × Bool
  | idx, db, toPub, [] => (idx, db, toPub, [], false)
  | idx, db, toPub, n :: rest =>
    let st1 := pgRunBatches (srcIds n.source) n.source fp fatal idx db toPub
      (chunksOf100 n.items)
    if st1.2.2.2.2 then st1
    else
      let st2 := pgRunNotifs srcIds fp fatal st1.1 st1.2.1 st1.2.2.1 rest
      (st2.1, st2.2.1, st2.2.2.1, st1.2.2.2.1 ++ st2.2.2.2.1, st2.2.2.2.2)

/-- One handler invocation under PostgreSQL semantics: all batches of
all notifications, then the buffered intents are published; on a fatal
error the catch block rolls back and rethrows, publishing nothing. -/
def pgRunHandler (srcIds : String → Nat) (fp : Nat → Option Nat)
    (fatal : Nat → Bool) (db0 : Db) (notifs : List Notif) :
    Db × List Ev × Option (List SnsMsg) :=
  let st := pgRunNotifs srcIds fp fatal 0 db0 [] notifs
  if st.2.2.2.2 then (st.2.1, st.2.2.2.1, none)
  else (st.2.1, st.2.2.2.1 ++ st.2.2.1.map Ev.publish, some st.2.2.1)

theorem wordsJoin_cons_ws {c : Char} {cs : List Char} (h : isJsWs c = true) :
    wordsJoin (c :: cs) = wordsJoin cs := by
  rw [wordsJoin, h, if_pos rfl]

theorem wordsJoin_cons_not_ws {c : Char} {cs : List Char} (h : isJsWs c = false) :
    wordsJoin (c :: cs) = c :: inWord cs := by
  rw [wordsJoin, h]
  simp only [Bool.false_eq_true, if_false]

theorem inWord_cons_ws {c : Char} {cs : List Char} (h : isJsWs c = true) :
    inWord (c :: cs)
      = if (wordsJoin cs).isEmpty then [] else ' ' :: wordsJoin cs := by
  rw [inWord, h, if_pos rfl]

theorem inWord_cons_not_ws {c : Char} {cs : List Char} (h : isJsWs c = false) :
    inWord (c :: cs) = c :: inWord cs := by
  rw [inWord, h]
  simp only [Bool.false_eq_true, if_false]

theorem collapseAux_cons_ws_true {c : Char} {cs : List Char}
    (h : isJsWs c = true) : collapseAux true (c :: cs) = collapseAux true cs := by
  simp [collapseAux, h]

theorem collapseAux_cons_ws_false {c : Char} {cs : List Char}
    (h : isJsWs c = true) :
    collapseAux false (c :: cs) = ' ' :: collapseAux true cs := by
  simp [collapseAux, h]

theorem collapseAux_cons_not_ws (b : Bool) {c : Char} {cs : List Char}
    (h : isJsWs c = false) :
    collapseAux b (c :: cs) = c :: collapseAux false cs := by
  cases b <;> simp [collapseAux, h]

theorem collapseAux_true_eq (l : List Char) :
    collapseAux true l = collapseAux false (l.dropWhile isJsWs) := by
  induction l with
  | nil => rfl
  | cons c cs ih =>
    rcases h : isJsWs c with _ | _
    · rw [collapseAux_cons_not_ws true h, List.dropWhile_cons, h]
      simp only [Bool.false_eq_true, if_false]
      rw [collapseAux_cons_not_ws false h]
    · rw [collapseAux_cons_ws_true h, List.dropWhile_cons, h, if_pos rfl, ih]

theorem dropWhile_head_not {p : Char → Bool} :
    ∀ l : List Char, ∀ c cs, l.dropWhile p = c :: cs → p c = false := by
  intro l
  induction l with
  | nil => intro c cs h; simp [List.dropWhile] at h
  | cons a as ih =>
    intro c cs h
    rw [List.dropWhile_cons] at h
    rcases ha : p a with _ | _
    · rw [ha] at h
      simp only [Bool.false_eq_true, if_false] at h
      cases h; exact ha
    · rw [ha, if_pos rfl] at h
      exact ih c cs h

theorem isJsWs_space : isJsWs ' ' = true := by decide

theorem dropWhile_collapseAux_false (l : List Char) :
    (collapseAux false l).dropWhile isJsWs
      = collapseAux false (l.dropWhile isJsWs) := by
  cases l with
  | nil => rfl
  | cons c cs =>
    rcases h : isJsWs c with _ | _
    · rw [collapseAux_cons_not_ws false h, List.dropWhile_cons, h]
      simp only [Bool.false_eq_true, if_false]
      rw [List.dropWhile_cons, h]
      simp only [Bool.false_eq_true, if_false]
      rw [collapseAux_cons_not_ws false h]
    · rw [collapseAux_cons_ws_false h]
      have hrhs : List.dropWhile isJsWs (c :: cs) = List.dropWhile isJsWs cs := by
        rw [List.dropWhile_cons, h, if_pos rfl]
      have hlhs : List.dropWhile isJsWs (' ' :: collapseAux true cs)
          = List.dropWhile isJsWs (collapseAux true cs) := by
        rw [List.dropWhile_cons, isJsWs_space, if_pos rfl]
      rw [hrhs, hlhs, collapseAux_true_eq]
      rcases hd : (cs.dropWhile isJsWs) with _ | ⟨d, ds⟩
      · rfl
      · have hdw : isJsWs d = false := dropWhile_head_not cs d ds hd
        rw [collapseAux_cons_not_ws false hdw, List.dropWhile_cons, hdw]
        simp only [Bool.false_eq_true, if_false]

theorem wordsJoin_dropWhile (l : List Char) :
    wordsJoin (l.dropWhile isJsWs) = wordsJoin l := by
  induction l with
  | nil => rfl
  | cons c cs ih =>
    rw [List.dropWhile_cons]
    rcases h : isJsWs c with _ | _
    · simp only [Bool.false_eq_true, if_false]
    · rw [if_pos rfl, ih, wordsJoin_cons_ws h]

theorem inWord_eq_wordsJoin_of_head_not :
    ∀ l : List Char, (∀ c cs, l = c :: cs → isJsWs c = false) →
      inWord l = wordsJoin l := by
  intro l h
  cases l with
  | nil => rfl
  | cons c cs =>
    have hc := h c cs rfl
    rw [inWord_cons_not_ws hc, wordsJoin_cons_not_ws hc]

theorem trimRight_cons (c : Char) (cs : List Char) :
    trimRight (c :: cs)
      = if isJsWs c && (trimRight cs).isEmpty then [] else c :: trimRight cs := rfl

theorem trimRight_collapseAux_false :
    ∀ n, ∀ l : List Char, l.length ≤ n →
      trimRight (collapseAux false l) = inWord l := by
  intro n
  induction n with
  | zero =>
    intro l hl
    have : l = [] := List.length_eq_zero.mp (Nat.le_zero.mp hl)
    subst this; rfl
  | succ n ih =>
    intro l hl
    cases l with
    | nil => rfl
    | cons c cs =>
      simp only [List.length_cons, Nat.succ_le_succ_iff] at hl
      rcases h : isJsWs c with _ | _
      · rw [collapseAux_cons_not_ws false h, trimRight_cons, h,
          Bool.false_and]
        simp only [Bool.false_eq_true, if_false]
        rw [ih cs hl, inWord_cons_not_ws h]
      · rw [collapseAux_cons_ws_false h, collapseAux_true_eq, trimRight_cons,
          isJsWs_space, Bool.true_and]
        have hlen : (cs.dropWhile isJsWs).length ≤ n :=
          le_trans (List.Sublist.length_le (List.dropWhile_sublist _)) hl
        rw [ih (cs.dropWhile isJsWs) hlen]
        have hin : inWord (cs.dropWhile isJsWs) = wordsJoin cs := by
          rw [inWord_eq_wordsJoin_of_head_not _ (by
            intro d ds hd
            exact dropWhile_head_not cs d ds hd)]
          exact wordsJoin_dropWhile cs
        rw [hin, inWord_cons_ws h]

/-- Main characterization: the source chain replace-then-trim equals the
canonical words-joined-by-single-spaces form. -/
theorem squash_eq_wordsJoin (s : String) :
    squashWhitespace (some s) = some ⟨wordsJoin s.data⟩ := by
  rw [squashWhitespace]
  congr 1
  rw [jsTrimList, dropWhile_collapseAux_false]
  rcases hd : (s.data.dropWhile isJsWs) with _ | ⟨c, cs⟩
  · have h3 : wordsJoin s.data = [] := by
      rw [← wordsJoin_dropWhile s.data, hd]; rfl
    rw [h3]; rfl
  · have hc : isJsWs c = false := dropWhile_head_not s.data c cs hd
    have h1 : trimRight (collapseAux false (c :: cs)) = inWord (c :: cs) :=
      trimRight_collapseAux_false (c :: cs).length (c :: cs) le_rfl
    have h2 : inWord (c :: cs) = wordsJoin (c :: cs) :=
      inWord_eq_wordsJoin_of_head_not _ (by rintro d ds ⟨⟩; exact hc)
    have h3 : wordsJoin (c :: cs) = wordsJoin s.data := by
      rw [← hd]; exact wordsJoin_dropWhile s.data
    rw [h1, h2, h3]

theorem takeCount_sound (p : Char → Bool) :
    ∀ n l ds r, takeCount p n l = some (ds, r) →
      l = ds ++ r ∧ CharsOf p ds n := by
  intro n
  induction n with
  | zero =>
    intro l ds r h
    simp only [takeCount, Option.some.injEq, Prod.mk.injEq] at h
    obtain ⟨h1, h2⟩ := h
    subst h1; subst h2
    exact ⟨rfl, rfl, by intro c hc; cases hc⟩
  | succ n ih =>
    intro l ds r h
    cases l with
    | nil => simp [takeCount] at h
    | cons c cs =>
      have hunf : takeCount p (n + 1) (c :: cs)
          = if p c then (takeCount p n cs).bind
              (fun pr => some (c :: pr.1, pr.2)) else none := rfl
      rw [hunf] at h
      rcases hp : p c with _ | _
      · rw [hp] at h; simp at h
      · rw [hp, if_pos rfl] at h
        rcases h0 : takeCount p n cs with _ | ⟨ds0, r0⟩
        · rw [h0] at h; exact Option.noConfusion h
        · rw [h0] at h
          replace h : some (c :: ds0, r0) = some (ds, r) := h
          injection h with h
          injection h with hds hr
          obtain ⟨hl, hlen, hall⟩ := ih cs ds0 r0 h0
          subst hds; subst hr; subst hl
          refine ⟨rfl, by simp [hlen], ?_⟩
          intro x hx
          rcases List.mem_cons.mp hx with hx | hx
          · subst hx; exact hp
          · exact hall x hx

theorem expectCh_sound {c : Char} :
    ∀ l r, expectCh c l = some r → l = c :: r := by
  intro l r h
  cases l with
  | nil => simp [expectCh] at h
  | cons d ds =>
    simp only [expectCh] at h
    by_cases hd : d = c
    · subst hd
      rw [if_pos rfl] at h
      injection h with h
      rw [h]
    · rw [if_neg hd] at h; cases h

theorem takeWhile_all (p : Char → Bool) (l : List Char) :
    ∀ c ∈ l.takeWhile p, p c = true := by
  have h := List.all_takeWhile (p := p) (l := l)
  rw [List.all_eq_true] at h
  intro c hc
  exact h c hc

theorem matchEskom_shape (s : String) (t : Nat × String × Nat × Nat × Nat × Nat)
    (h : matchEskom s.data = some t) : eskomShape s := by
  unfold matchEskom at h
  obtain ⟨⟨y, r1⟩, h1, h⟩ := Option.bind_eq_some.mp h
  obtain ⟨r2, h2, h⟩ := Option.bind_eq_some.mp h
  obtain ⟨⟨mon, r3⟩, h3, h⟩ := Option.bind_eq_some.mp h
  obtain ⟨r4, h4, h⟩ := Option.bind_eq_some.mp h
  obtain ⟨⟨d, r5⟩, h5, h⟩ := Option.bind_eq_some.mp h
  obtain ⟨r6, h6, h⟩ := Option.bind_eq_some.mp h
  obtain ⟨⟨hh, r7⟩, h7, h⟩ := Option.bind_eq_some.mp h
  obtain ⟨r8, h8, h⟩ := Option.bind_eq_some.mp h
  obtain ⟨⟨mm, r9⟩, h9, h⟩ := Option.bind_eq_some.mp h
  obtain ⟨r10, h10, h⟩ := Option.bind_eq_some.mp h
  obtain ⟨⟨ss, r11⟩, h11, h⟩ := Option.bind_eq_some.mp h
  replace h : endGuard (digitsToNat y, String.mk mon, digitsToNat d,
      digitsToNat hh, digitsToNat mm, digitsToNat ss) r11 = some t := h
  unfold endGuard at h
  split at h
  · next hr =>
    obtain ⟨hl1, hcy⟩ := takeCount_sound _ _ _ _ _ h1
    have hl2 := expectCh_sound _ _ h2
    obtain ⟨hl3, hcm⟩ := takeCount_sound _ _ _ _ _ h3
    have hl4 := expectCh_sound _ _ h4
    obtain ⟨hl5, hcd⟩ := takeCount_sound _ _ _ _ _ h5
    have hl6 := expectCh_sound _ _ h6
    obtain ⟨hl7, hch⟩ := takeCount_sound _ _ _ _ _ h7
    have hl8 := expectCh_sound _ _ h8
    obtain ⟨hl9, hcmm⟩ := takeCount_sound _ _ _ _ _ h9
    have hl10 := expectCh_sound _ _ h10
    obtain ⟨hl11, hcss⟩ := takeCount_sound _ _ _ _ _ h11
    refine ⟨y, mon, d, hh, mm, ss, ?_, hcy, hcm, hcd, hch, hcmm, hcss⟩
    rw [hl1, hl2, hl3, hl4, hl5, hl6, hl7, hl8, hl9, hl10, hl11, hr]
    simp
  · exact Option.noConfusion h

theorem matchSanral_shape (s : String) (t : Nat × Nat × Nat × Nat × Nat × Nat)
    (h : matchSanral s.data = some t) : sanralShape s := by
  unfold matchSanral at h
  obtain ⟨⟨y, r1⟩, h1, h⟩ := Option.bind_eq_some.mp h
  obtain ⟨r2, h2, h⟩ := Option.bind_eq_some.mp h
  obtain ⟨⟨mo, r3⟩, h3, h⟩ := Option.bind_eq_some.mp h
  obtain ⟨r4, h4, h⟩ := Option.bind_eq_some.mp h
  obtain ⟨⟨d, r5⟩, h5, h⟩ := Option.bind_eq_some.mp h
  obtain ⟨r6, h6, h⟩ := Option.bind_eq_some.mp h
  obtain ⟨⟨hh, r7⟩, h7, h⟩ := Option.bind_eq_some.mp h
  obtain ⟨r8, h8, h⟩ := Option.bind_eq_some.mp h
  obtain ⟨⟨mm, r9⟩, h9, h⟩ := Option.bind_eq_some.mp h
  obtain ⟨hl1, hcy⟩ := takeCount_sound _ _ _ _ _ h1
  have hl2 := expectCh_sound _ _ h2
  obtain ⟨hl3, hcmo⟩ := takeCount_sound _ _ _ _ _ h3
  have hl4 := expectCh_sound _ _ h4
  obtain ⟨hl5, hcd⟩ := takeCount_sound _ _ _ _ _ h5
  have hl6 := expectCh_sound _ _ h6
  obtain ⟨hl7, hch⟩ := takeCount_sound _ _ _ _ _ h7
  have hl8 := expectCh_sound _ _ h8
  obtain ⟨hl9, hcmm⟩ := takeCount_sound _ _ _ _ _ h9
  replace h : sanralTail (digitsToNat y) (digitsToNat mo) (digitsToNat d)
      (digitsToNat hh) (digitsToNat mm) r9 = some t := h
  rw [sanralTail.eq_def] at h
  split at h
  · refine ⟨y, mo, d, hh, mm, none, ?_, hcy, hcmo, hcd, hch, hcmm, ?_⟩
    · rw [hl1, hl2, hl3, hl4, hl5, hl6, hl7, hl8, hl9]
      simp [secPart]
    · intro sec hsec; cases hsec
  · obtain ⟨⟨ss, r10⟩, h10, h⟩ := Option.bind_eq_some.mp h
    replace h : endGuard (digitsToNat y, digitsToNat mo, digitsToNat d,
        digitsToNat hh, digitsToNat mm, digitsToNat ss) r10 = some t := h
    unfold endGuard at h
    split at h
    · next hr =>
      obtain ⟨hl10, hcss⟩ := takeCount_sound _ _ _ _ _ h10
      refine ⟨y, mo, d, hh, mm, some ss, ?_, hcy, hcmo, hcd, hch, hcmm, ?_⟩
      · rw [hl1, hl2, hl3, hl4, hl5, hl6, hl7, hl8, hl9, hl10, hr]
        simp [secPart]
      · intro sec hsec; cases hsec; exact hcss
    · exact Option.noConfusion h
  · exact Option.noConfusion h

theorem run12_charsOf12 {l : List Char}
    (h : ¬((l.takeWhile isDigitCh).length = 0 ||
        2 < (l.takeWhile isDigitCh).length) = true) :
    CharsOf12 isDigitCh (l.takeWhile isDigitCh) := by
  simp only [Bool.or_eq_true, decide_eq_true_eq, not_or] at h
  obtain ⟨h0, h2⟩ := h
  exact ⟨Nat.one_le_iff_ne_zero.mpr h0, by omega, takeWhile_all _ _⟩

theorem meridiemEnd_shape (mo d y hh mm ss : Nat) (r : List Char)
    (t : Nat × Nat × Nat × Nat × Nat × Nat × Bool)
    (h : meridiemEnd mo d y hh mm ss r = some t) :
    ∃ ws : List Char, ∃ a p : Char, r = ws ++ [a, p] ∧
      (∀ c ∈ ws, isJsWs c = true) ∧
      lowerCh p = 'm' ∧ (lowerCh a = 'a' ∨ lowerCh a = 'p') := by
  unfold meridiemEnd at h
  split at h
  · next a p heq =>
    split at h
    · next hcond =>
      simp only [Bool.and_eq_true, Bool.or_eq_true, decide_eq_true_eq] at hcond
      refine ⟨r.takeWhile isJsWs, a, p, ?_, takeWhile_all _ _, hcond.1, hcond.2⟩
      rw [← heq]
      exact (List.takeWhile_append_dropWhile (p := isJsWs) (l := r)).symm
    · exact Option.noConfusion h
  · exact Option.noConfusion h

theorem matchTransnet_shape (s : String)
    (t : Nat × Nat × Nat × Nat × Nat × Nat × Bool)
    (h : matchTransnet s.data = some t) : transnetShape s := by
  unfold matchTransnet at h
  split at h
  · exact Option.noConfusion h
  · next hc1 =>
    obtain ⟨rB, hB, h⟩ := Option.bind_eq_some.mp h
    replace h : transnetStage1 (digitsToNat (s.data.takeWhile isDigitCh)) rB
        = some t := h
    unfold transnetStage1 at h
    split at h
    · exact Option.noConfusion h
    · next hc2 =>
      obtain ⟨rC, hC, h⟩ := Option.bind_eq_some.mp h
      replace h : transnetStage2 (digitsToNat (s.data.takeWhile isDigitCh))
          (digitsToNat (rB.takeWhile isDigitCh)) rC = some t := h
      unfold transnetStage2 at h
      obtain ⟨⟨y, rD⟩, hD, h⟩ := Option.bind_eq_some.mp h
      replace h : (expectCh ' ' rD).bind (fun r4 =>
          transnetStage3 (digitsToNat (s.data.takeWhile isDigitCh))
            (digitsToNat (rB.takeWhile isDigitCh)) (digitsToNat y) r4)
          = some t := h
      obtain ⟨rE, hE, h⟩ := Option.bind_eq_some.mp h
      replace h : transnetStage3 (digitsToNat (s.data.takeWhile isDigitCh))
          (digitsToNat (rB.takeWhile isDigitCh)) (digitsToNat y) rE = some t := h
      unfold transnetStage3 at h
      split at h
      · exact Option.noConfusion h
      · next hc3 =>
        obtain ⟨rF, hF, h⟩ := Option.bind_eq_some.mp h
        obtain ⟨⟨mm, rG⟩, hG, h⟩ := Option.bind_eq_some.mp h
        replace h : transnetSecs (digitsToNat (s.data.takeWhile isDigitCh))
            (digitsToNat (rB.takeWhile isDigitCh)) (digitsToNat y)
            (digitsToNat (rE.takeWhile isDigitCh)) (digitsToNat mm) rG
            = some t := h
        have hBeq := expectCh_sound _ _ hB
        have hCeq := expectCh_sound _ _ hC
        obtain ⟨hDeq, hcy⟩ := takeCount_sound _ _ _ _ _ hD
        have hEeq := expectCh_sound _ _ hE
        have hFeq := expectCh_sound _ _ hF
        obtain ⟨hGeq, hcmm⟩ := takeCount_sound _ _ _ _ _ hG
        have hmo := run12_charsOf12 hc1
        have hd := run12_charsOf12 hc2
        have hhh := run12_charsOf12 hc3
        rw [transnetSecs.eq_def] at h
        split at h
        · next r2' =>
          obtain ⟨⟨ss, rH⟩, hH, h⟩ := Option.bind_eq_some.mp h
          replace h : meridiemEnd (digitsToNat (s.data.takeWhile isDigitCh))
              (digitsToNat (rB.takeWhile isDigitCh)) (digitsToNat y)
              (digitsToNat (rE.takeWhile isDigitCh)) (digitsToNat mm)
              (digitsToNat ss) rH = some t := h
          obtain ⟨ws, a, p, hreq, hws, hm, hap⟩ :=
            meridiemEnd_shape _ _ _ _ _ _ _ _ h
          obtain ⟨hHeq, hcss⟩ := takeCount_sound _ _ _ _ _ hH
          refine ⟨s.data.takeWhile isDigitCh, rB.takeWhile isDigitCh, y,
            rE.takeWhile isDigitCh, mm, some ss, ws, a, p, ?_,
            hmo, hd, hcy, hhh, hcmm, ?_, hws, hm, hap⟩
          · conv_lhs => rw [← List.takeWhile_append_dropWhile
              (p := isDigitCh) (l := s.data)]
            rw [hBeq]
            conv_lhs => rw [← List.takeWhile_append_dropWhile
              (p := isDigitCh) (l := rB)]
            rw [hCeq, hDeq, hEeq]
            conv_lhs => rw [← List.takeWhile_append_dropWhile
              (p := isDigitCh) (l := rE)]
            rw [hFeq, hGeq, hHeq, hreq]
            simp [secPart]
          · intro sec hsec; cases hsec; exact hcss
        · obtain ⟨ws, a, p, hreq, hws, hm, hap⟩ :=
            meridiemEnd_shape _ _ _ _ _ _ _ _ h
          refine ⟨s.data.takeWhile isDigitCh, rB.takeWhile isDigitCh, y,
            rE.takeWhile isDigitCh, mm, none, ws, a, p, ?_,
            hmo, hd, hcy, hhh, hcmm, ?_, hws, hm, hap⟩
          · conv_lhs => rw [← List.takeWhile_append_dropWhile
              (p := isDigitCh) (l := s.data)]
            rw [hBeq]
            conv_lhs => rw [← List.takeWhile_append_dropWhile
              (p := isDigitCh) (l := rB)]
            rw [hCeq, hDeq, hEeq]
            conv_lhs => rw [← List.takeWhile_append_dropWhile
              (p := isDigitCh) (l := rE)]
            rw [hFeq, hGeq, hreq]
            simp [secPart]
          · intro sec hsec; cases hsec

theorem eskomShape_length {s : String} (h : eskomShape s) :
    s.data.length = 20 := by
  obtain ⟨y, mon, d, hh, mm, ss, he, hy, hmon, hd, hhh, hmm, hss⟩ := h
  rw [he]
  simp [List.length_append, hy.1, hmon.1, hd.1, hhh.1, hmm.1, hss.1]

theorem sanralShape_length {s : String} (h : sanralShape s) :
    16 ≤ s.data.length := by
  obtain ⟨y, mo, d, hh, mm, os, he, hy, hmo, hd, hhh, hmm, _⟩ := h
  rw [he]
  simp [List.length_append, hy.1, hmo.1, hd.1, hhh.1, hmm.1]
  omega

theorem transnetShape_length {s : String} (h : transnetShape s) :
    13 ≤ s.data.length := by
  obtain ⟨mo, d, y, hh, mm, os, ws, a, p, he, hmo, hd, hy, hhh, hmm, _, _, _, _⟩ := h
  have h1 := hmo.1
  have h2 := hd.1
  have h3 := hhh.1
  rw [he]
  simp [List.length_append, hy.1, hmm.1]
  omega

theorem parseLocal_none_of_not_shapes (s : String) (hE : ¬ eskomShape s)
    (hS : ¬ sanralShape s) : parseLocalTenderDate (some s) = none := by
  by_cases h0 : s = ""
  · simp [parseLocalTenderDate, h0]
  · rcases hme : matchEskom s.data with _ | t
    · rcases hms : matchSanral s.data with _ | t2
      · simp [parseLocalTenderDate, h0, hme, hms]
      · exact absurd (matchSanral_shape s t2 hms) hS
    · exact absurd (matchEskom_shape s t hme) hE

theorem parseTransnet_none_of_not_shape (s : String)
    (hT : ¬ transnetShape s) : parseTransnetDate (some s) = none := by
  by_cases h0 : s = ""
  · simp [parseTransnetDate, h0]
  · rcases hmt : matchTransnet s.data with _ | t
    · simp [parseTransnetDate, h0, hmt]
    · exact absurd (matchTransnet_shape s t hmt) hT

/-- C8: every date parser is total and rejects by returning null:
for any string outside the Eskom and SANRAL grammars,
parseLocalTenderDate returns null; for any string outside the Transnet
grammar, parseTransnetDate returns null; and parseEtendersDate returns
null whenever the Date constructor's ISO parse fails. Totality
(never throwing) is expressed by the parsers being total functions into
Option in this embedding. -/
theorem c8_date_parsers_null_on_unrecognized (s : String) :
    (¬ eskomShape s → ¬ sanralShape s → parseLocalTenderDate (some s) = none) ∧
    (¬ transnetShape s → parseTransnetDate (some s) = none) ∧
    (jsDateParse s = none → parseEtendersDate (some s) = none) := by
  refine ⟨parseLocal_none_of_not_shapes s, parseTransnet_none_of_not_shape s, ?_⟩
  intro hj
  by_cases h0 : s = ""
  · simp [parseEtendersDate, h0]
  · simp [parseEtendersDate, h0, hj]

/-- Witness for C8 at the concrete unrecognized input "nope". -/
theorem c8_date_parsers_null_on_unrecognized_witness :
    parseLocalTenderDate (some "nope") = none ∧
    parseTransnetDate (some "nope") = none ∧
    parseEtendersDate (some "nope") = none := by
  obtain ⟨h1, h2, h3⟩ := c8_date_parsers_null_on_unrecognized "nope"
  refine ⟨h1 ?_ ?_, h2 ?_, h3 (by decide)⟩
  · intro hsh
    exact absurd (eskomShape_length hsh) (by decide)
  · intro hsh
    exact absurd (sanralShape_length hsh) (by decide)
  · intro hsh
    exact absurd (transnetShape_length hsh) (by decide)

theorem wordsJoin_of_all_ws :
    ∀ l : List Char, (∀ c ∈ l, isJsWs c = true) → wordsJoin l = [] := by
  intro l h
  induction l with
  | nil => rfl
  | cons c cs ih =>
    rw [wordsJoin_cons_ws (h c (List.mem_cons_self c cs))]
    exact ih (fun d hd => h d (List.mem_cons_of_mem c hd))

/-- C6 counterexample: the claim maps the all-whitespace string (and the
empty string) to null, but squashWhitespace returns the empty string for
both, not null. -/
theorem c6_squash_empty_not_null :
    squashWhitespace (some "   ") = some "" ∧
    squashWhitespace (some "") = some "" ∧
    squashWhitespace (some "   ") ≠ none := by
  refine ⟨by decide, by decide, by decide⟩

/-- C6 as amended: squashWhitespace collapses every maximal whitespace
run to a single space and trims both ends (canonical words-joined form);
the empty and all-whitespace strings map to the empty string, not null;
only a null/undefined input maps to null. -/
theorem c6_squash_amended (s : String) :
    squashWhitespace (some s) = some ⟨wordsJoin s.data⟩ ∧
    (s.data.all isJsWs = true → squashWhitespace (some s) = some "") ∧
    squashWhitespace none = none := by
  refine ⟨squash_eq_wordsJoin s, ?_, rfl⟩
  intro hws
  rw [squash_eq_wordsJoin s,
    wordsJoin_of_all_ws s.data (List.all_eq_true.mp hws)]

/-- Witness for C6 as amended at a concrete all-whitespace input. -/
theorem c6_squash_amended_witness :
    squashWhitespace (some "  ") = some "" :=
  (c6_squash_amended "  ").2.1 (by decide)

/-- C9: any sort value outside the allow-list (and an absent sort) is
coerced to closing_at; an absent order yields ASC; and the data query
orders by the chosen column and direction with NULLS LAST. -/
theorem c9_sort_allowlist_and_default_order (qp : QueryParams) :
    (∀ s, qp.sort = some s → s ∉ SORT_WHITELIST → sortKeyOf qp = "closing_at") ∧
    (qp.sort = none → sortKeyOf qp = "closing_at") ∧
    (qp.order = none → orderDirOf qp = "ASC") ∧
    ∃ pre post : String, (mkTendersQuery qp).2.1 =
      pre ++ ("ORDER BY t." ++ sortKeyOf qp ++ " " ++ orderDirOf qp ++
        " NULLS LAST") ++ post := by
  refine ⟨?_, ?_, ?_, ?_⟩
  · intro s hs hmem
    simp only [sortKeyOf, hs]
    rw [if_neg hmem]
  · intro hs
    simp only [sortKeyOf, hs]
  · intro ho
    simp only [orderDirOf, ho]
    decide
  · exact ⟨"SELECT t.id, t.title, t.buyer, t.category, t.status, " ++
      "t.source_id, t.published_at, t.briefing_at, t.closing_at, " ++
      "t.location, t.url FROM tenders t " ++ (buildTenderWhere qp).1 ++ " ",
      " LIMIT " ++ toString (limitOf qp) ++ " OFFSET " ++
        toString (offsetOf qp) ++ ";", rfl⟩

/-- Witness for C9 at sort equal to a non-whitelisted value and an absent
order parameter. -/
theorem c9_sort_allowlist_and_default_order_witness :
    sortKeyOf { sort := some "bogus" } = "closing_at" ∧
    orderDirOf { sort := some "bogus" } = "ASC" := by
  have h := c9_sort_allowlist_and_default_order { sort := some "bogus" }
  exact ⟨h.1 "bogus" rfl (by decide), h.2.2.1 rfl⟩

/-- C10: a closing_from/closing_to/published_from/published_to value that
does not match dddd-dd-dd is silently dropped: the produced WHERE
fragment, parameters, and the full query pair equal those for an absent
parameter, and query building is total so no error response arises. -/
theorem c10_invalid_date_filters_ignored (qp : QueryParams) (v : String)
    (hv : isYmd v = false) :
    parseDateOrNull (some v) = none ∧
    buildTenderWhere { qp with closing_from := some v }
      = buildTenderWhere { qp with closing_from := none } ∧
    buildTenderWhere { qp with closing_to := some v }
      = buildTenderWhere { qp with closing_to := none } ∧
    buildTenderWhere { qp with published_from := some v }
      = buildTenderWhere { qp with published_from := none } ∧
    buildTenderWhere { qp with published_to := some v }
      = buildTenderWhere { qp with published_to := none } ∧
    mkTendersQuery { qp with closing_from := some v }
      = mkTendersQuery { qp with closing_from := none } := by
  have hp : parseDateOrNull (some v) = none := by
    simp [parseDateOrNull, hv]
  have hnone : parseDateOrNull none = none := rfl
  have h1 : buildTenderWhere { qp with closing_from := some v }
      = buildTenderWhere { qp with closing_from := none } := by
    simp only [buildTenderWhere, hp, hnone]
  refine ⟨hp, h1, ?_, ?_, ?_, ?_⟩
  · simp only [buildTenderWhere, hp, hnone]
  · simp only [buildTenderWhere, hp, hnone]
  · simp only [buildTenderWhere, hp, hnone]
  · simp only [mkTendersQuery, h1]
    rfl

/-- Witness for C10 at a concrete malformed date value. -/
theorem c10_invalid_date_filters_ignored_witness :
    buildTenderWhere { closing_from := some "2025/01/01" }
      = buildTenderWhere {} :=
  (c10_invalid_date_filters_ignored {} "2025/01/01" (by decide)).2.1

theorem filter_of_map {α β : Type} (l : List α) (f : α → β) (p : β → Bool) :
    (l.map f).filter p = (l.filter (fun a => p (f a))).map f := by
  induction l with
  | nil => rfl
  | cons a as ih =>
    simp only [List.map_cons, List.filter_cons]
    rcases h : p (f a) with _ | _
    · simpa [h] using ih
    · simpa [h] using ih

theorem etendersFallbackId_ne_empty (id : Option Nat) :
    etendersFallbackId id ≠ "" := by
  intro h
  have hlen : (etendersFallbackId id).length = 0 := by rw [h]; rfl
  unfold etendersFallbackId at hlen
  rw [String.length_append] at hlen
  have h9 : ("etenders-" : String).length = 9 := rfl
  omega

theorem truthy_etenders_external_id (a : Option String) (id : Option Nat) :
    truthyS (some (jsOrD a (etendersFallbackId id))) = true := by
  unfold truthyS jsOrD
  rcases a with _ | s
  · simp [etendersFallbackId_ne_empty id]
  · by_cases hs : s = ""
    · simp [hs, etendersFallbackId_ne_empty id]
    · simp [hs]

/-- C5 counterexample: an eTenders record with no portal-assigned
tender_No is not skipped; the normalizer fabricates external_id
"etenders-5" from the numeric row id (and "etenders-undefined" when even
the row id is absent). -/
theorem c5_missing_external_id_counterexample :
    (normalizeEtendersArray
        (some { data := some [{ id := some 5 }] })).map
      (fun it => it.tender.external_id) = [some "etenders-5"] ∧
    (normalizeEtendersArray (some { data := some [{}] })).map
      (fun it => it.tender.external_id) = [some "etenders-undefined"] := by
  constructor <;> rfl

/-- C5 as amended: the Eskom normalizer keeps exactly the records whose
TenderID-or-enquiryNumber is truthy, so every produced Eskom item has a
truthy external_id; the eTenders normalizer never skips a record: a
missing tender_No is replaced by the fabricated id etenders-(row id),
and every record maps to exactly one item. SANRAL and Transnet
normalizers are not present in the source tree (omitted for brevity at
src/lambdas/normalizer/index.js line 223). -/
theorem c5_external_id_amended :
    (∀ arr : List EskomRaw,
      normalizeEskomArray arr =
        (arr.filter (fun r => truthyS (jsOr r.TenderID r.enquiryNumber))).map
          eskomItem) ∧
    (∀ arr : List EskomRaw, ∀ it ∈ normalizeEskomArray arr,
      truthyS it.tender.external_id = true) ∧
    (∀ items : List EtendersItem,
      normalizeEtendersArray (some { data := some items })
        = items.map etendersItem) ∧
    (∀ item : EtendersItem,
      (etendersItem item).tender.external_id
        = some (jsOrD item.tender_No (etendersFallbackId item.id))) := by
  refine ⟨?_, ?_, ?_, fun item => rfl⟩
  · intro arr
    exact filter_of_map arr eskomItem (fun x => truthyS x.tender.external_id)
  · intro arr it hit
    simp only [normalizeEskomArray] at hit
    exact List.of_mem_filter
      (p := fun (x : NormItem) => truthyS x.tender.external_id) hit
  · intro items
    show (items.map etendersItem).filter
        (fun it => truthyS it.tender.external_id) = items.map etendersItem
    rw [List.filter_eq_self]
    intro it hit
    obtain ⟨item, _, rfl⟩ := List.mem_map.mp hit
    exact truthy_etenders_external_id item.tender_No item.id

/-- Witness for C5 as amended at concrete records. -/
theorem c5_external_id_amended_witness :
    truthyS ((eskomItem { TenderID := some "T1" }).tender.external_id)
      = true :=
  c5_external_id_amended.2.1 [{ TenderID := some "T1" }]
    (eskomItem { TenderID := some "T1" }) (by decide)

/-- C4 (spec-modelled): the SANRAL normalizer derives closing_at and
briefing_at from the CLOSING/BRIEFING marker lines; when such a line
carries a time range, closing_at takes the range's end, briefing_at the
range's start, and the end-of-briefing-window note is appended to
briefing_details; without a range the line's own timestamp is used. -/
theorem c4_sanral_time_range_derivation (lines : List String) :
    (∀ l d st en, lines.find? isClosingLine = some l →
      textualDate l.data = some d → findTimeRange l.data = some (st, en) →
      (sanralDerive lines).closing_at = withTime d en) ∧
    (∀ l d st en, lines.find? isBriefingLine = some l →
      textualDate l.data = some d → findTimeRange l.data = some (st, en) →
      (sanralDerive lines).briefing_at = withTime d st ∧
      (sanralDerive lines).briefing_details
        = some ("Briefing window ends at " ++ fmtTime en)) ∧
    (∀ l d, lines.find? isClosingLine = some l →
      textualDate l.data = some d → findTimeRange l.data = none →
      (sanralDerive lines).closing_at = some d) := by
  refine ⟨?_, ?_, ?_⟩
  · intro l d st en h1 h2 h3
    simp [sanralDerive, h1, h2, h3]
  · intro l d st en h1 h2 h3
    constructor <;> simp [sanralDerive, h1, h2, h3]
  · intro l d h1 h2 h3
    simp [sanralDerive, h1, h2, h3]

/-- Witness for C4 on the specification's scenario-2 prose lines. -/
theorem c4_sanral_time_range_derivation_witness :
    (sanralDerive ["CLOSING DATE: 20 August 2025 12:00",
        "BRIEFING SESSION: 14 August 2025 13:00-14:00 at Boardroom B, " ++
          "12 Main Road"]).briefing_at
      = withTime ⟨2025, 8, 14, 13, 0, 0, "+02:00"⟩ (13, 0) ∧
    (sanralDerive ["CLOSING DATE: 20 August 2025 12:00",
        "BRIEFING SESSION: 14 August 2025 13:00-14:00 at Boardroom B, " ++
          "12 Main Road"]).briefing_details
      = some ("Briefing window ends at " ++ fmtTime (14, 0)) ∧
    (sanralDerive ["CLOSING DATE: 20 August 2025 12:00",
        "BRIEFING SESSION: 14 August 2025 13:00-14:00 at Boardroom B, " ++
          "12 Main Road"]).closing_at
      = some ⟨2025, 8, 20, 12, 0, 0, "+02:00"⟩ := by
  have h := c4_sanral_time_range_derivation
    ["CLOSING DATE: 20 August 2025 12:00",
      "BRIEFING SESSION: 14 August 2025 13:00-14:00 at Boardroom B, " ++
        "12 Main Road"]
  have hb := h.2.1
    ("BRIEFING SESSION: 14 August 2025 13:00-14:00 at Boardroom B, " ++
      "12 Main Road")
    ⟨2025, 8, 14, 13, 0, 0, "+02:00"⟩ (13, 0) (14, 0)
    (by decide) (by decide) (by decide)
  have hc := h.2.2
    "CLOSING DATE: 20 August 2025 12:00"
    ⟨2025, 8, 20, 12, 0, 0, "+02:00"⟩
    (by decide) (by decide) (by decide)
  exact ⟨hb.1, hb.2, hc⟩

theorem runFetchGo_spec (att : Nat → Nat → FetchAttempt) (s3ok : Nat → Bool)
    (elapsed : Nat → Nat) (maxPages : Nat)
    (hel : ∀ k, elapsed k ≤ 260000) :
    ∀ fuel k cur pages saved failed tot, fuel = maxPages + 1 - cur →
      runFetchGo att s3ok elapsed maxPages fuel k cur pages saved failed tot =
        ⟨pages ++ (List.range' cur fuel).map
            (fun q => (q, pageSucceeds att s3ok q)),
          saved ++ (List.range' cur fuel).filter (pageSucceeds att s3ok),
          failed ++ (List.range' cur fuel).filter
            (fun q => !(pageSucceeds att s3ok q)),
          tot + ((List.range' cur fuel).filter (pageSucceeds att s3ok)).length,
          none⟩ := by
  intro fuel
  induction fuel with
  | zero =>
    intro k cur pages saved failed tot hf
    simp [runFetchGo]
  | succ fuel ih =>
    intro k cur pages saved failed tot hf
    have hcur : ¬ maxPages < cur := by omega
    have hek : ¬ 260000 < elapsed k := by
      have := hel k; omega
    rw [runFetchGo]
    simp only [hcur, if_false, hek]
    rw [ih (k + 1) (cur + 1) _ _ _ _ (by omega)]
    rw [List.range'_succ]
    rcases hs : pageSucceeds att s3ok cur with _ | _
    · simp [List.filter_cons, hs, List.map_cons]
    · simp [List.filter_cons, hs, List.map_cons]
      omega

/-- C7 counterexample: with MAX_PAGES 2 and page 1 answering 404, the
invocation still fetches and persists page 2: the 404 does not terminate
the crawl. -/
theorem c7_crawl_stops_at_404_counterexample :
    (runFetcher (fun p _ => if p = 1 then .notFound else .ok)
        (fun _ => true) (fun _ => 0) 2 1 [] 0).savedPages = [2] ∧
    (runFetcher (fun p _ => if p = 1 then .notFound else .ok)
        (fun _ => true) (fun _ => 0) 2 1 [] 0).failedPages = [1] ∧
    (runFetcher (fun p _ => if p = 1 then .notFound else .ok)
        (fun _ => true) (fun _ => 0) 2 1 [] 0).pages
      = [(1, false), (2, true)] := by
  refine ⟨rfl, rfl, rfl⟩

/-- C7 as amended: a 404 response is returned as null without retrying,
the page is recorded as failed with no object persisted for it, and the
crawl continues with every remaining page up to MAX_PAGES (no
continuation is spawned within the time budget). -/
theorem c7_crawl_continues_after_404_amended
    (att : Nat → Nat → FetchAttempt) (s3ok : Nat → Bool)
    (elapsed : Nat → Nat) (maxPages startPage p : Nat)
    (prevFailed : List Nat) (prevTotal : Nat)
    (hel : ∀ k, elapsed k ≤ 260000)
    (h404 : att p 1 = .notFound)
    (hsp : startPage ≤ p) (hpm : p ≤ maxPages) :
    fetchPageWithRetry att p = Except.ok none ∧
    (runFetcher att s3ok elapsed maxPages startPage prevFailed
        prevTotal).pages
      = (List.range' startPage (maxPages + 1 - startPage)).map
          (fun q => (q, pageSucceeds att s3ok q)) ∧
    p ∉ (runFetcher att s3ok elapsed maxPages startPage prevFailed
        prevTotal).savedPages ∧
    p ∈ (runFetcher att s3ok elapsed maxPages startPage prevFailed
        prevTotal).failedPages ∧
    (runFetcher att s3ok elapsed maxPages startPage prevFailed
        prevTotal).continuedFrom = none := by
  have hfetch : fetchPageWithRetry att p = Except.ok none := by
    simp [fetchPageWithRetry, fetchRetryGo, h404]
  have hps : pageSucceeds att s3ok p = false := by
    simp [pageSucceeds, hfetch]
  have hspec := runFetchGo_spec att s3ok elapsed maxPages hel
    (maxPages + 1 - startPage) 0 startPage [] [] prevFailed prevTotal rfl
  have hmem : p ∈ List.range' startPage (maxPages + 1 - startPage) := by
    rw [List.mem_range'_1]
    omega
  refine ⟨hfetch, ?_, ?_, ?_, ?_⟩
  · rw [runFetcher, hspec]
    simp
  · rw [runFetcher, hspec]
    intro hmemS
    simp only [List.nil_append] at hmemS
    have := List.of_mem_filter hmemS
    rw [hps] at this
    cases this
  · rw [runFetcher, hspec]
    refine List.mem_append.mpr (Or.inr ?_)
    refine List.mem_filter.mpr ⟨hmem, ?_⟩
    rw [hps]
    rfl
  · rw [runFetcher, hspec]

/-- Witness for C7 as amended at the concrete two-page crawl with a 404
on page 1. -/
theorem c7_crawl_continues_after_404_amended_witness :
    fetchPageWithRetry
        (fun p _ => if p = 1 then FetchAttempt.notFound else FetchAttempt.ok) 1
      = Except.ok none ∧
    1 ∉ (runFetcher
        (fun p _ => if p = 1 then FetchAttempt.notFound else FetchAttempt.ok)
        (fun _ => true) (fun _ => 0) 2 1 [] 0).savedPages ∧
    1 ∈ (runFetcher
        (fun p _ => if p = 1 then FetchAttempt.notFound else FetchAttempt.ok)
        (fun _ => true) (fun _ => 0) 2 1 [] 0).failedPages := by
  have h := c7_crawl_continues_after_404_amended
    (fun p _ => if p = 1 then FetchAttempt.notFound else FetchAttempt.ok)
    (fun _ => true) (fun _ => 0) 2 1 1 [] 0
    (fun k => Nat.zero_le 260000) (by decide) (by decide) (by decide)
  exact ⟨h.1, h.2.2.1, h.2.2.2.1⟩

theorem processItem_no_pub (sid : Nat) (source : String) (fp : Option Nat)
    (db : Db) (toPub : List SnsMsg) (it : NormItem) :
    ∀ e ∈ (processItem sid source fp db toPub it).2.2, e.isPub = false := by
  intro e he
  rcases fp with _ | k
  · simp only [processItem] at he
    rcases List.mem_singleton.mp he with rfl
    rfl
  · rcases k with _ | k
    · simp only [processItem] at he
      rcases List.mem_singleton.mp he with rfl
      rfl
    · simp only [processItem] at he
      split at he <;>
        rcases List.mem_singleton.mp he with rfl <;> rfl

theorem runItems_no_pub (sid : Nat) (source : String) (fp : Nat → Option Nat)
    (fatal : Nat → Bool) :
    ∀ items idx db toPub,
      ∀ e ∈ (runItems sid source fp fatal idx db toPub items).2.2.2.1,
        e.isPub = false := by
  intro items
  induction items with
  | nil => intro idx db toPub e he; simp [runItems] at he
  | cons it rest ih =>
    intro idx db toPub e he
    rw [runItems] at he
    split at he
    · simp at he
    · simp only [List.mem_append] at he
      rcases he with he | he
      · exact processItem_no_pub sid source (fp idx) db toPub it e he
      · exact ih (idx + 1) _ _ e he

theorem runBatches_no_pub (sid : Nat) (source : String) (fp : Nat → Option Nat)
    (fatal : Nat → Bool) :
    ∀ batches idx db toPub,
      ∀ e ∈ (runBatches sid source fp fatal idx db toPub batches).2.2.2.1,
        e.isPub = false := by
  intro batches
  induction batches with
  | nil => intro idx db toPub e he; simp [runBatches] at he
  | cons batch rest ih =>
    intro idx db toPub e he
    rw [runBatches] at he
    split at he
    · rcases List.mem_cons.mp he with rfl | he2
      · rfl
      · rcases List.mem_append.mp he2 with he3 | he3
        · exact runItems_no_pub sid source fp fatal batch idx db toPub e he3
        · rcases List.mem_singleton.mp he3 with rfl
          rfl
    · rcases List.mem_cons.mp he with rfl | he2
      · rfl
      · rcases List.mem_append.mp he2 with he3 | he3
        · rcases List.mem_append.mp he3 with he4 | he4
          · exact runItems_no_pub sid source fp fatal batch idx db toPub e he4
          · rcases List.mem_singleton.mp he4 with rfl
            rfl
        · exact ih _ _ _ e he3

theorem upsertTender_mono (sid : Nat) (t : NormTender) (db : Db) (tid : Nat)
    (h : idIn tid db) : idIn tid (upsertTender sid t db).2 := by
  obtain ⟨r, hr, hid⟩ := h
  unfold upsertTender
  split
  · next r' _ =>
    by_cases hrr : r.id = r'.id
    · refine ⟨{ r with tender := t }, ?_, hid⟩
      refine List.mem_map.mpr ⟨r, hr, ?_⟩
      rw [if_pos hrr]
    · refine ⟨r, ?_, hid⟩
      refine List.mem_map.mpr ⟨r, hr, ?_⟩
      rw [if_neg hrr]
  · exact ⟨r, List.mem_append.mpr (Or.inl hr), hid⟩

theorem upsertTender_ret (sid : Nat) (t : NormTender) (db : Db) :
    idIn (upsertTender sid t db).1 (upsertTender sid t db).2 := by
  unfold upsertTender
  split
  · next r' hfind =>
    refine ⟨{ r' with tender := t }, ?_, rfl⟩
    refine List.mem_map.mpr ⟨r', List.mem_of_find?_eq_some hfind, ?_⟩
    rw [if_pos rfl]
  · exact ⟨⟨db.nextId, sid, t⟩,
      List.mem_append.mpr (Or.inr (List.mem_singleton.mpr rfl)), rfl⟩

theorem itemEffects_skeleton (tid : Nat) (it : NormItem) :
    ∀ f ∈ itemEffects tid it, ∀ d : Db,
      (f d).tenders = d.tenders ∧ (f d).nextId = d.nextId := by
  intro f hf d
  unfold itemEffects at hf
  rcases List.mem_append.mp hf with hf | hf
  · rcases List.mem_append.mp hf with hf | hf
    · rcases List.mem_append.mp hf with hf | hf
      · rcases List.mem_singleton.mp hf with rfl
        exact ⟨rfl, rfl⟩
      · obtain ⟨d0, _, rfl⟩ := List.mem_map.mp hf
        exact ⟨rfl, rfl⟩
    · rcases List.mem_singleton.mp hf with rfl
      exact ⟨rfl, rfl⟩
  · obtain ⟨c0, _, rfl⟩ := List.mem_map.mp hf
    exact ⟨rfl, rfl⟩

theorem applyEffects_skeleton :
    ∀ (effs : List (Db → Db)),
      (∀ f ∈ effs, ∀ d : Db, (f d).tenders = d.tenders ∧ (f d).nextId = d.nextId) →
      ∀ db : Db, (applyEffects effs db).tenders = db.tenders ∧
        (applyEffects effs db).nextId = db.nextId := by
  intro effs
  induction effs with
  | nil => intro _ db; exact ⟨rfl, rfl⟩
  | cons f fs ih =>
    intro h db
    have hf := h f (List.mem_cons_self f fs) db
    have hfs := ih (fun g hg => h g (List.mem_cons_of_mem f hg)) (f db)
    unfold applyEffects at hfs ⊢
    simp only [List.foldl_cons]
    exact ⟨hfs.1.trans hf.1, hfs.2.trans hf.2⟩

theorem applyEffects_item_tenders (tid : Nat) (it : NormItem) (n : Nat)
    (db : Db) :
    (applyEffects ((itemEffects tid it).take n) db).tenders = db.tenders ∧
    (applyEffects ((itemEffects tid it).take n) db).nextId = db.nextId :=
  applyEffects_skeleton _
    (fun f hf => itemEffects_skeleton tid it f (List.mem_of_mem_take hf)) db

theorem applyEffects_item_tenders_all (tid : Nat) (it : NormItem) (db : Db) :
    (applyEffects (itemEffects tid it) db).tenders = db.tenders ∧
    (applyEffects (itemEffects tid it) db).nextId = db.nextId :=
  applyEffects_skeleton _ (fun f hf => itemEffects_skeleton tid it f hf) db

theorem idIn_applyEffects_item (tid0 tid : Nat) (it : NormItem) (db : Db)
    (h : idIn tid db) : idIn tid (applyEffects (itemEffects tid0 it) db) := by
  obtain ⟨r, hr, hid⟩ := h
  refine ⟨r, ?_, hid⟩
  rw [(applyEffects_item_tenders_all tid0 it db).1]
  exact hr

theorem idIn_applyEffects_take (tid0 tid n : Nat) (it : NormItem) (db : Db)
    (h : idIn tid db) :
    idIn tid (applyEffects ((itemEffects tid0 it).take n) db) := by
  obtain ⟨r, hr, hid⟩ := h
  refine ⟨r, ?_, hid⟩
  rw [(applyEffects_item_tenders tid0 it n db).1]
  exact hr

theorem processItem_mono (sid : Nat) (source : String) (fp : Option Nat)
    (db : Db) (toPub : List SnsMsg) (it : NormItem) (tid : Nat)
    (h : idIn tid db) :
    idIn tid (processItem sid source fp db toPub it).1 := by
  have hup := upsertTender_mono sid it.tender db tid h
  rcases fp with _ | k
  · exact idIn_applyEffects_item _ _ _ _ hup
  · rcases k with _ | k
    · exact h
    · rw [processItem]
      · split
        · exact idIn_applyEffects_take _ _ _ _ _ hup
        · exact idIn_applyEffects_item _ _ _ _ hup
      · simp

theorem processItem_tid_in (sid : Nat) (source : String) (fp : Option Nat)
    (db : Db) (toPub : List SnsMsg) (it : NormItem) :
    idIn (upsertTender sid it.tender db).1
      (processItem sid source fp db toPub it).1 ∨ fp = some 0 := by
  have hret := upsertTender_ret sid it.tender db
  rcases fp with _ | k
  · exact Or.inl (idIn_applyEffects_item _ _ _ _ hret)
  · rcases k with _ | k
    · exact Or.inr rfl
    · refine Or.inl ?_
      rw [processItem]
      · split
        · exact idIn_applyEffects_take _ _ _ _ _ hret
        · exact idIn_applyEffects_item _ _ _ _ hret
      · simp

theorem lastOfAppend {α : Type} (l1 l2 : List α) (x : α)
    (h : l2.getLast? = some x) : (l1 ++ l2).getLast? = some x := by
  induction l1 with
  | nil => simpa using h
  | cons a as ih =>
    rw [List.cons_append]
    have hne : as ++ l2 ≠ [] := by
      intro hco
      rcases List.append_eq_nil.mp hco with ⟨_, h2⟩
      rw [h2] at h
      cases h
    rcases hd : as ++ l2 with _ | ⟨b, bs⟩
    · exact absurd hd hne
    · rw [hd] at ih
      rw [List.getLast?_cons_cons]
      exact ih

theorem processItem_toPub (sid : Nat) (source : String) (fp : Option Nat)
    (db : Db) (toPub : List SnsMsg) (it : NormItem) :
    ∀ m ∈ (processItem sid source fp db toPub it).2.1,
      m ∈ toPub ∨
      (idIn m.tenderId (processItem sid source fp db toPub it).1 ∧
        Ev.upsertOk m.tenderId ∈ (processItem sid source fp db toPub it).2.2) := by
  intro m hm
  have htid := processItem_tid_in sid source fp db toPub it
  rcases fp with _ | k
  · replace hm : m ∈ (if toPub.length < 10 then
        toPub ++ [mkSnsMsg source (upsertTender sid it.tender db).1 it.tender]
      else toPub) := hm
    split at hm
    · rcases List.mem_append.mp hm with hm | hm
      · exact Or.inl hm
      · rcases List.mem_singleton.mp hm with rfl
        refine Or.inr ⟨?_, ?_⟩
        · rcases htid with htid | hco
          · exact htid
          · cases hco
        · exact List.mem_singleton.mpr rfl
    · exact Or.inl hm
  · rcases k with _ | k
    · exact Or.inl hm
    · rw [processItem] at hm
      · split at hm
        · exact Or.inl hm
        · next hnl =>
          split at hm
          · rcases List.mem_append.mp hm with hm | hm
            · exact Or.inl hm
            · rcases List.mem_singleton.mp hm with rfl
              refine Or.inr ⟨?_, ?_⟩
              · rcases htid with htid | hco
                · exact htid
                · cases hco
              · rw [processItem]
                · rw [if_neg hnl]
                  exact List.mem_singleton.mpr rfl
                · simp
          · exact Or.inl hm
      · simp

theorem runItems_inv (sid : Nat) (source : String) (fp : Nat → Option Nat)
    (fatal : Nat → Bool) :
    ∀ items idx db toPub,
      (∀ tid, idIn tid db →
        idIn tid (runItems sid source fp fatal idx db toPub items).2.1) ∧
      (∀ m ∈ (runItems sid source fp fatal idx db toPub items).2.2.1,
        m ∈ toPub ∨
        (idIn m.tenderId (runItems sid source fp fatal idx db toPub items).2.1 ∧
          Ev.upsertOk m.tenderId ∈
            (runItems sid source fp fatal idx db toPub items).2.2.2.1)) := by
  intro items
  induction items with
  | nil =>
    intro idx db toPub
    exact ⟨fun tid h => h, fun m hm => Or.inl hm⟩
  | cons it rest ih =>
    intro idx db toPub
    rw [runItems]
    split
    · exact ⟨fun tid h => h, fun m hm => Or.inl hm⟩
    · have hpi_mono := processItem_mono sid source (fp idx) db toPub it
      have hpi_pub := processItem_toPub sid source (fp idx) db toPub it
      obtain ⟨ihm, ihp⟩ := ih (idx + 1)
        (processItem sid source (fp idx) db toPub it).1
        (processItem sid source (fp idx) db toPub it).2.1
      constructor
      · intro tid h
        exact ihm tid (hpi_mono tid h)
      · intro m hm
        rcases ihp m hm with hm1 | ⟨hid, hev⟩
        · rcases hpi_pub m hm1 with hm2 | ⟨hid2, hev2⟩
          · exact Or.inl hm2
          · exact Or.inr ⟨ihm _ hid2, List.mem_append.mpr (Or.inl hev2)⟩
        · exact Or.inr ⟨hid, List.mem_append.mpr (Or.inr hev)⟩

theorem runBatches_inv (sid : Nat) (source : String) (fp : Nat → Option Nat)
    (fatal : Nat → Bool) :
    ∀ batches idx db toPub,
      (runBatches sid source fp fatal idx db toPub batches).2.2.2.2 = false →
      (∀ tid, idIn tid db →
        idIn tid (runBatches sid source fp fatal idx db toPub batches).2.1) ∧
      (∀ m ∈ (runBatches sid source fp fatal idx db toPub batches).2.2.1,
        m ∈ toPub ∨
        (idIn m.tenderId
            (runBatches sid source fp fatal idx db toPub batches).2.1 ∧
          Ev.upsertOk m.tenderId ∈
            (runBatches sid source fp fatal idx db toPub batches).2.2.2.1)) := by
  intro batches
  induction batches with
  | nil =>
    intro idx db toPub _
    exact ⟨fun tid h => h, fun m hm => Or.inl hm⟩
  | cons batch rest ih =>
    intro idx db toPub hsucc
    rcases hf : (runItems sid source fp fatal idx db toPub batch).2.2.2.2
      with _ | _
    · simp only [runBatches, hf, Bool.false_eq_true, if_false] at hsucc ⊢
      obtain ⟨i1m, i1p⟩ := runItems_inv sid source fp fatal batch idx db toPub
      obtain ⟨i2m, i2p⟩ := ih
        (runItems sid source fp fatal idx db toPub batch).1
        (runItems sid source fp fatal idx db toPub batch).2.1
        (runItems sid source fp fatal idx db toPub batch).2.2.1
        hsucc
      constructor
      · intro tid h
        exact i2m tid (i1m tid h)
      · intro m hm
        rcases i2p m hm with hm1 | ⟨hid, hev⟩
        · rcases i1p m hm1 with hm2 | ⟨hid2, hev2⟩
          · exact Or.inl hm2
          · refine Or.inr ⟨i2m _ hid2, ?_⟩
            refine List.mem_cons_of_mem _ ?_
            exact List.mem_append.mpr (Or.inl (List.mem_append.mpr (Or.inl hev2)))
        · refine Or.inr ⟨hid, ?_⟩
          refine List.mem_cons_of_mem _ ?_
          exact List.mem_append.mpr (Or.inr hev)
    · simp only [runBatches, hf, if_true] at hsucc
      exact Bool.noConfusion hsucc

theorem runNotifs_no_pub (srcIds : String → Nat) (fp : Nat → Option Nat)
    (fatal : Nat → Bool) :
    ∀ notifs idx db toPub,
      ∀ e ∈ (runNotifs srcIds fp fatal idx db toPub notifs).2.2.2.1,
        e.isPub = false := by
  intro notifs
  induction notifs with
  | nil => intro idx db toPub e he; simp [runNotifs] at he
  | cons n rest ih =>
    intro idx db toPub e he
    rw [runNotifs] at he
    split at he
    · exact runBatches_no_pub _ _ fp fatal _ idx db toPub e he
    · simp only [List.mem_append] at he
      rcases he with he | he
      · exact runBatches_no_pub _ _ fp fatal _ idx db toPub e he
      · exact ih _ _ _ e he

theorem runNotifs_inv (srcIds : String → Nat) (fp : Nat → Option Nat)
    (fatal : Nat → Bool) :
    ∀ notifs idx db toPub,
      (runNotifs srcIds fp fatal idx db toPub notifs).2.2.2.2 = false →
      (∀ tid, idIn tid db →
        idIn tid (runNotifs srcIds fp fatal idx db toPub notifs).2.1) ∧
      (∀ m ∈ (runNotifs srcIds fp fatal idx db toPub notifs).2.2.1,
        m ∈ toPub ∨
        (idIn m.tenderId (runNotifs srcIds fp fatal idx db toPub notifs).2.1 ∧
          Ev.upsertOk m.tenderId ∈
            (runNotifs srcIds fp fatal idx db toPub notifs).2.2.2.1)) := by
  intro notifs
  induction notifs with
  | nil =>
    intro idx db toPub _
    exact ⟨fun tid h => h, fun m hm => Or.inl hm⟩
  | cons n rest ih =>
    intro idx db toPub hsucc
    rcases hf : (runBatches (srcIds n.source) n.source fp fatal idx db toPub
      (chunksOf100 n.items)).2.2.2.2 with _ | _
    · simp only [runNotifs, hf, Bool.false_eq_true, if_false] at hsucc ⊢
      obtain ⟨b1m, b1p⟩ := runBatches_inv (srcIds n.source) n.source fp fatal
        (chunksOf100 n.items) idx db toPub hf
      obtain ⟨b2m, b2p⟩ := ih
        (runBatches (srcIds n.source) n.source fp fatal idx db toPub
          (chunksOf100 n.items)).1
        (runBatches (srcIds n.source) n.source fp fatal idx db toPub
          (chunksOf100 n.items)).2.1
        (runBatches (srcIds n.source) n.source fp fatal idx db toPub
          (chunksOf100 n.items)).2.2.1
        hsucc
      constructor
      · intro tid h
        exact b2m tid (b1m tid h)
      · intro m hm
        rcases b2p m hm with hm1 | ⟨hid, hev⟩
        · rcases b1p m hm1 with hm2 | ⟨hid2, hev2⟩
          · exact Or.inl hm2
          · exact Or.inr ⟨b2m _ hid2, List.mem_append.mpr (Or.inl hev2)⟩
        · exact Or.inr ⟨hid, List.mem_append.mpr (Or.inr hev)⟩
    · simp only [runNotifs, hf, if_true] at hsucc
      exact Bool.noConfusion hsucc

theorem runBatches_fatal_last (sid : Nat) (source : String)
    (fp : Nat → Option Nat) (fatal : Nat → Bool) :
    ∀ batches idx db toPub,
      (runBatches sid source fp fatal idx db toPub batches).2.2.2.2 = true →
      (runBatches sid source fp fatal idx db toPub batches).2.2.2.1.getLast?
        = some Ev.rollback := by
  intro batches
  induction batches with
  | nil => intro idx db toPub h; exact Bool.noConfusion h
  | cons batch rest ih =>
    intro idx db toPub h
    rcases hf : (runItems sid source fp fatal idx db toPub batch).2.2.2.2
      with _ | _
    · simp only [runBatches, hf, Bool.false_eq_true, if_false] at h ⊢
      have hrec := ih _ _ _ h
      have hne :
          (runBatches sid source fp fatal
            (runItems sid source fp fatal idx db toPub batch).1
            (runItems sid source fp fatal idx db toPub batch).2.1
            (runItems sid source fp fatal idx db toPub batch).2.2.1
            rest).2.2.2.1.getLast? = some Ev.rollback := hrec
      rw [show (Ev.beginTxn :: (runItems sid source fp fatal idx db toPub
            batch).2.2.2.1 ++ [Ev.commit] ++
            (runBatches sid source fp fatal
              (runItems sid source fp fatal idx db toPub batch).1
              (runItems sid source fp fatal idx db toPub batch).2.1
              (runItems sid source fp fatal idx db toPub batch).2.2.1
              rest).2.2.2.1)
          = (Ev.beginTxn :: (runItems sid source fp fatal idx db toPub
              batch).2.2.2.1 ++ [Ev.commit]) ++
            (runBatches sid source fp fatal
              (runItems sid source fp fatal idx db toPub batch).1
              (runItems sid source fp fatal idx db toPub batch).2.1
              (runItems sid source fp fatal idx db toPub batch).2.2.1
              rest).2.2.2.1 from by simp]
      exact lastOfAppend _ _ _ hne
    · simp only [runBatches, hf, if_true]
      rw [show (Ev.beginTxn :: (runItems sid source fp fatal idx db toPub
            batch).2.2.2.1 ++ [Ev.rollback])
          = (Ev.beginTxn :: (runItems sid source fp fatal idx db toPub
              batch).2.2.2.1) ++ [Ev.rollback] from by simp]
      exact lastOfAppend _ _ _ rfl

theorem runNotifs_fatal_last (srcIds : String → Nat) (fp : Nat → Option Nat)
    (fatal : Nat → Bool) :
    ∀ notifs idx db toPub,
      (runNotifs srcIds fp fatal idx db toPub notifs).2.2.2.2 = true →
      (runNotifs srcIds fp fatal idx db toPub notifs).2.2.2.1.getLast?
        = some Ev.rollback := by
  intro notifs
  induction notifs with
  | nil => intro idx db toPub h; exact Bool.noConfusion h
  | cons n rest ih =>
    intro idx db toPub h
    rcases hf : (runBatches (srcIds n.source) n.source fp fatal idx db toPub
      (chunksOf100 n.items)).2.2.2.2 with _ | _
    · simp only [runNotifs, hf, Bool.false_eq_true, if_false] at h ⊢
      exact lastOfAppend _ _ _ (ih _ _ _ h)
    · simp only [runNotifs, hf, if_true]
      exact runBatches_fatal_last _ _ fp fatal _ idx db toPub hf

theorem viewOf_mkSnsMsg (source : String) (tid : Nat) (t : NormTender) :
    viewOf (mkSnsMsg source tid t) = mkViewOf source t := rfl

theorem cap10_nil (prev : List SnsView) : cap10 prev [] = prev := by
  simp [cap10]

theorem cap10_full (prev l : List SnsView) (h : 10 ≤ prev.length) :
    cap10 prev l = prev := by
  have h0 : 10 - prev.length = 0 := by omega
  simp [cap10, h0]

theorem cap10_cons_lt (prev : List SnsView) (v : SnsView)
    (rest : List SnsView) (h : prev.length < 10) :
    cap10 prev (v :: rest) = cap10 (prev ++ [v]) rest := by
  have h1 : 10 - prev.length = (10 - (prev.length + 1)) + 1 := by omega
  simp [cap10, h1, List.take_succ_cons, List.append_assoc]

theorem cap10_append (prev a b : List SnsView) :
    cap10 prev (a ++ b) = cap10 (cap10 prev a) b := by
  have h : 10 - prev.length - a.length
      = 10 - (prev.length + min (10 - prev.length) a.length) := by omega
  simp [cap10, List.take_append_eq_append_take, List.length_take, h,
    List.append_assoc]

theorem okViewsItems_idx (fp : Nat → Option Nat) (src : String) :
    ∀ (l : List NormItem) (idx : Nat),
      (okViewsItems fp idx src l).1 = idx + l.length := by
  intro l
  induction l with
  | nil => intro idx; simp [okViewsItems]
  | cons it rest ih =>
    intro idx
    simp only [okViewsItems, ih, List.length_cons]
    omega

theorem okViewsItems_append (fp : Nat → Option Nat) (src : String) :
    ∀ (l1 l2 : List NormItem) (idx : Nat),
      (okViewsItems fp idx src (l1 ++ l2)).2 =
        (okViewsItems fp idx src l1).2 ++
          (okViewsItems fp (idx + l1.length) src l2).2 := by
  intro l1
  induction l1 with
  | nil => intro l2 idx; simp [okViewsItems]
  | cons it l1' ih =>
    intro l2 idx
    rw [List.cons_append]
    simp only [okViewsItems, ih, List.length_cons, List.append_assoc]
    rw [show idx + (l1'.length + 1) = idx + 1 + l1'.length from by omega]

theorem chunksGo_flatten :
    ∀ (fuel : Nat) (l : List NormItem), l.length ≤ fuel →
      (chunksGo fuel l).flatten = l := by
  intro fuel
  induction fuel with
  | zero =>
    intro l h
    have h0 : l = [] := List.eq_nil_of_length_eq_zero (Nat.le_zero.mp h)
    subst h0
    rfl
  | succ fuel ih =>
    intro l h
    rcases l with _ | ⟨c, cs⟩
    · rfl
    · have hlen : ((c :: cs).drop 100).length ≤ fuel := by
        rw [List.length_drop]
        simp only [List.length_cons] at h ⊢
        omega
      simp only [chunksGo, List.flatten_cons]
      rw [ih ((c :: cs).drop 100) hlen]
      exact List.take_append_drop 100 (c :: cs)

theorem processItem_pub (sid : Nat) (source : String) (fp : Option Nat)
    (db : Db) (toPub : List SnsMsg) (it : NormItem) :
    (processItem sid source fp db toPub it).2.1 =
      if itemOk it fp = true ∧ toPub.length < 10 then
        toPub ++ [mkSnsMsg source (upsertTender sid it.tender db).1 it.tender]
      else toPub := by
  rcases fp with _ | k
  · simp [processItem, itemOk]
  · rcases k with _ | k
    · have hok : itemOk it (some 0) = false := by
        simp [itemOk, itemStmtCount]
      simp [processItem, hok]
    · rw [processItem]
      · split
        · next hlt =>
          have hok : itemOk it (some (k + 1)) = false := by
            simp only [itemOk, decide_eq_false_iff_not]
            omega
          rw [hok]
          simp
        · next hlt =>
          have hok : itemOk it (some (k + 1)) = true := by
            simp only [itemOk, decide_eq_true_eq]
            omega
          rw [hok]
          by_cases hl : toPub.length < 10
          · simp [hl]
          · simp [hl]
      · simp

theorem runItems_pub (sid : Nat) (source : String) (fp : Nat → Option Nat) :
    ∀ (items : List NormItem) (idx : Nat) (db : Db) (toPub : List SnsMsg),
      toPub.length ≤ 10 →
      (runItems sid source fp (fun _ => false) idx db toPub
            items).2.2.1.map viewOf
          = cap10 (toPub.map viewOf) (okViewsItems fp idx source items).2 ∧
      (runItems sid source fp (fun _ => false) idx db toPub
        items).2.2.1.length ≤ 10 ∧
      (runItems sid source fp (fun _ => false) idx db toPub items).1
          = idx + items.length ∧
      (runItems sid source fp (fun _ => false) idx db toPub
        items).2.2.2.2 = false := by
  intro items
  induction items with
  | nil =>
    intro idx db toPub hlen
    refine ⟨?_, hlen, by simp [runItems], rfl⟩
    show toPub.map viewOf
        = cap10 (toPub.map viewOf) (okViewsItems fp idx source []).2
    rw [show (okViewsItems fp idx source []).2 = [] from rfl, cap10_nil]
  | cons it rest ih =>
    intro idx db toPub hlen
    rw [runItems]
    split
    · next hco => simp at hco
    · have hpub := processItem_pub sid source (fp idx) db toPub it
      have hov : (okViewsItems fp idx source (it :: rest)).2
          = (if itemOk it (fp idx) then [mkViewOf source it.tender]
              else []) ++ (okViewsItems fp (idx + 1) source rest).2 := rfl
      by_cases hok : itemOk it (fp idx) = true
      · by_cases hl : toPub.length < 10
        · rw [if_pos ⟨hok, hl⟩] at hpub
          obtain ⟨ihmap, ihlen, ihidx, ihflag⟩ := ih (idx + 1)
            (processItem sid source (fp idx) db toPub it).1
            (processItem sid source (fp idx) db toPub it).2.1
            (by rw [hpub]; simp; omega)
          refine ⟨?_, ihlen, ?_, ihflag⟩
          · show (runItems sid source fp (fun _ => false) (idx + 1)
                  (processItem sid source (fp idx) db toPub it).1
                  (processItem sid source (fp idx) db toPub it).2.1
                  rest).2.2.1.map viewOf
                = cap10 (toPub.map viewOf)
                    (okViewsItems fp idx source (it :: rest)).2
            rw [ihmap, hpub, hov, if_pos hok, List.singleton_append,
              cap10_cons_lt _ _ _ (by rw [List.length_map]; exact hl),
              List.map_append]
            rfl
          · show (runItems sid source fp (fun _ => false) (idx + 1)
                  (processItem sid source (fp idx) db toPub it).1
                  (processItem sid source (fp idx) db toPub it).2.1 rest).1
                = idx + (it :: rest).length
            rw [ihidx, List.length_cons]
            omega
        · rw [if_neg (fun hco => hl hco.2)] at hpub
          obtain ⟨ihmap, ihlen, ihidx, ihflag⟩ := ih (idx + 1)
            (processItem sid source (fp idx) db toPub it).1
            (processItem sid source (fp idx) db toPub it).2.1
            (by rw [hpub]; exact hlen)
          have h10 : (10 : Nat) ≤ (toPub.map viewOf).length := by
            rw [List.length_map]
            omega
          refine ⟨?_, ihlen, ?_, ihflag⟩
          · show (runItems sid source fp (fun _ => false) (idx + 1)
                  (processItem sid source (fp idx) db toPub it).1
                  (processItem sid source (fp idx) db toPub it).2.1
                  rest).2.2.1.map viewOf
                = cap10 (toPub.map viewOf)
                    (okViewsItems fp idx source (it :: rest)).2
            rw [ihmap, hpub, hov, if_pos hok, List.singleton_append,
              cap10_full _ _ h10, cap10_full _ _ h10]
          · show (runItems sid source fp (fun _ => false) (idx + 1)
                  (processItem sid source (fp idx) db toPub it).1
                  (processItem sid source (fp idx) db toPub it).2.1 rest).1
                = idx + (it :: rest).length
            rw [ihidx, List.length_cons]
            omega
      · rw [if_neg (fun hco => hok hco.1)] at hpub
        obtain ⟨ihmap, ihlen, ihidx, ihflag⟩ := ih (idx + 1)
          (processItem sid source (fp idx) db toPub it).1
          (processItem sid source (fp idx) db toPub it).2.1
          (by rw [hpub]; exact hlen)
        refine ⟨?_, ihlen, ?_, ihflag⟩
        · show (runItems sid source fp (fun _ => false) (idx + 1)
                (processItem sid source (fp idx) db toPub it).1
                (processItem sid source (fp idx) db toPub it).2.1
                rest).2.2.1.map viewOf
              = cap10 (toPub.map viewOf)
                  (okViewsItems fp idx source (it :: rest)).2
          rw [ihmap, hpub, hov, if_neg hok, List.nil_append]
        · show (runItems sid source fp (fun _ => false) (idx + 1)
                (processItem sid source (fp idx) db toPub it).1
                (processItem sid source (fp idx) db toPub it).2.1 rest).1
              = idx + (it :: rest).length
          rw [ihidx, List.length_cons]
          omega

theorem runBatches_pub (sid : Nat) (source : String) (fp : Nat → Option Nat) :
    ∀ (batches : List (List NormItem)) (idx : Nat) (db : Db)
      (toPub : List SnsMsg),
      toPub.length ≤ 10 →
      (runBatches sid source fp (fun _ => false) idx db toPub
            batches).2.2.1.map viewOf
          = cap10 (toPub.map viewOf)
              (okViewsItems fp idx source batches.flatten).2 ∧
      (runBatches sid source fp (fun _ => false) idx db toPub
        batches).2.2.1.length ≤ 10 ∧
      (runBatches sid source fp (fun _ => false) idx db toPub batches).1
          = idx + batches.flatten.length ∧
      (runBatches sid source fp (fun _ => false) idx db toPub
        batches).2.2.2.2 = false := by
  intro batches
  induction batches with
  | nil =>
    intro idx db toPub hlen
    refine ⟨?_, hlen, by simp [runBatches], rfl⟩
    show toPub.map viewOf
        = cap10 (toPub.map viewOf)
            (okViewsItems fp idx source ([] : List (List NormItem)).flatten).2
    rw [show (okViewsItems fp idx source
        ([] : List (List NormItem)).flatten).2 = [] from rfl, cap10_nil]
  | cons batch rest ih =>
    intro idx db toPub hlen
    obtain ⟨imap, ilen, iidx, iflag⟩ :=
      runItems_pub sid source fp batch idx db toPub hlen
    simp only [runBatches, iflag, Bool.false_eq_true, if_false]
    obtain ⟨bmap, blen, bidx, bflag⟩ := ih
      (runItems sid source fp (fun _ => false) idx db toPub batch).1
      (runItems sid source fp (fun _ => false) idx db toPub batch).2.1
      (runItems sid source fp (fun _ => false) idx db toPub batch).2.2.1
      ilen
    refine ⟨?_, blen, ?_, bflag⟩
    · rw [bmap, imap, iidx,
        show (batch :: rest).flatten = batch ++ rest.flatten from rfl,
        okViewsItems_append fp source batch rest.flatten idx, cap10_append]
    · rw [bidx, iidx,
        show (batch :: rest).flatten = batch ++ rest.flatten from rfl,
        List.length_append]
      omega

theorem runNotifs_pub (srcIds : String → Nat) (fp : Nat → Option Nat) :
    ∀ (notifs : List Notif) (idx : Nat) (db : Db) (toPub : List SnsMsg),
      toPub.length ≤ 10 →
      (runNotifs srcIds fp (fun _ => false) idx db toPub
            notifs).2.2.1.map viewOf
          = cap10 (toPub.map viewOf) (okViewsNotifs fp idx notifs).2 ∧
      (runNotifs srcIds fp (fun _ => false) idx db toPub
        notifs).2.2.1.length ≤ 10 ∧
      (runNotifs srcIds fp (fun _ => false) idx db toPub
        notifs).2.2.2.2 = false := by
  intro notifs
  induction notifs with
  | nil =>
    intro idx db toPub hlen
    refine ⟨?_, hlen, rfl⟩
    show toPub.map viewOf
        = cap10 (toPub.map viewOf) (okViewsNotifs fp idx []).2
    rw [show (okViewsNotifs fp idx []).2 = [] from rfl, cap10_nil]
  | cons n rest ih =>
    intro idx db toPub hlen
    have hjoin : (chunksOf100 n.items).flatten = n.items :=
      chunksGo_flatten n.items.length n.items (Nat.le_refl _)
    obtain ⟨bmap, blen, bidx, bflag⟩ := runBatches_pub (srcIds n.source)
      n.source fp (chunksOf100 n.items) idx db toPub hlen
    simp only [runNotifs, bflag, Bool.false_eq_true, if_false]
    obtain ⟨nmap, nlen, nflag⟩ := ih
      (runBatches (srcIds n.source) n.source fp (fun _ => false) idx db toPub
        (chunksOf100 n.items)).1
      (runBatches (srcIds n.source) n.source fp (fun _ => false) idx db toPub
        (chunksOf100 n.items)).2.1
      (runBatches (srcIds n.source) n.source fp (fun _ => false) idx db toPub
        (chunksOf100 n.items)).2.2.1
      blen
    refine ⟨?_, nlen, nflag⟩
    rw [nmap, bmap, bidx, hjoin,
      show (okViewsNotifs fp idx (n :: rest)).2
          = (okViewsItems fp idx n.source n.items).2
            ++ (okViewsNotifs fp
                  (okViewsItems fp idx n.source n.items).1 rest).2
        from rfl,
      okViewsItems_idx fp n.source n.items idx, cap10_append]

/-- C2: corrected — the normalizer publishes one message per
successfully upserted tender only up to the ten-intent cap of the
buffer: the published messages are, in order, the views of the first ten
fully successful items of the event (the code pushes an intent only
while fewer than ten are buffered), each with the category attribute
lowercased from the trimmed category falling back to the source name and
then to "general", and with the subject "New {category} tender: {title}"
cut to 95 UTF-16 code units. -/
theorem c2_capped_message_per_upsert_amended (srcIds : String → Nat)
    (fp : Nat → Option Nat) (db0 : Db) (notifs : List Notif) :
    ∃ msgs,
      (runHandler srcIds fp (fun _ => false) db0 notifs).2.2 = some msgs ∧
      msgs.map viewOf = (okViewsNotifs fp 0 notifs).2.take 10 ∧
      msgs.length = min 10 (okViewsNotifs fp 0 notifs).2.length ∧
      ∀ (src : String) (t : NormTender),
        (mkViewOf src t).category
            = jsToLower (jsTrim (jsOrD t.category (jsOrD (some src)
                "general"))) ∧
        (mkViewOf src t).subject
            = jsSliceCU 95 ("New " ++ (mkViewOf src t).category
                ++ " tender: " ++ jsOrD t.title "Untitled") := by
  obtain ⟨nmap, nlen, nflag⟩ :=
    runNotifs_pub srcIds fp notifs 0 db0 [] (by simp)
  have hrw : (runHandler srcIds fp (fun _ => false) db0 notifs).2.2
      = some (runNotifs srcIds fp (fun _ => false) 0 db0 [] notifs).2.2.1 := by
    simp only [runHandler, nflag, Bool.false_eq_true, if_false]
  refine ⟨(runNotifs srcIds fp (fun _ => false) 0 db0 [] notifs).2.2.1,
    hrw, ?_, ?_, fun src t => ⟨rfl, rfl⟩⟩
  · rw [nmap]
    simp [cap10]
  · have hl := congrArg List.length nmap
    simp only [List.length_map, cap10, List.length_append, List.length_take,
      List.length_nil, Nat.zero_add, Nat.sub_zero] at hl
    exact hl

/-- C2 counterexample: with eleven fully successful items the run
upserts eleven tender rows but returns only ten messages to publish —
the intent buffer caps at ten, refuting "one message per upserted
tender, however many there are". -/
theorem c2_eleven_upserts_ten_messages_counterexample :
    (runHandler (fun _ => 1) (fun _ => none) (fun _ => false) {}
        [⟨"eskom", c2Items⟩]).1.tenders.length = 11 ∧
    Option.map List.length
        (runHandler (fun _ => 1) (fun _ => none) (fun _ => false) {}
          [⟨"eskom", c2Items⟩]).2.2 = some 10 := by
  constructor
  · rfl
  · rfl

/-! ### C3: per-row failure isolation and batch durability -/

theorem filter_eq_of_filter_ne {α : Type} (tid : Nat)
    (l : List (Nat × α)) :
    (l.filter (fun pr => pr.1 ≠ tid)).filter (fun pr => pr.1 = tid)
      = [] := by
  induction l with
  | nil => rfl
  | cons pr rest ih =>
    by_cases h : pr.1 = tid
    · simp [List.filter_cons, h, ih]
    · simp [List.filter_cons, h, ih]

theorem filter_eq_map_self {α : Type} (tid : Nat) (ds : List α) :
    ((ds.map (fun d => (tid, d))).filter (fun pr => pr.1 = tid)).map
      (fun pr => pr.2) = ds := by
  induction ds with
  | nil => rfl
  | cons d rest ih => simp [List.filter_cons, ih]

theorem filter_eq_of_ne_first {α : Type} (tid tid2 : Nat) (hne : tid ≠ tid2)
    (l : List (Nat × α)) :
    (l.filter (fun pr => pr.1 ≠ tid2)).filter (fun pr => pr.1 = tid)
      = l.filter (fun pr => pr.1 = tid) := by
  induction l with
  | nil => rfl
  | cons pr rest ih =>
    by_cases h : pr.1 = tid2
    · have h2 : ¬ pr.1 = tid := fun hco => hne (hco.symm.trans h)
      have e1 : List.filter (fun pr => decide (pr.1 ≠ tid2)) (pr :: rest)
          = List.filter (fun pr => decide (pr.1 ≠ tid2)) rest := by
        simp [List.filter_cons, h]
      have e2 : List.filter (fun pr => decide (pr.1 = tid)) (pr :: rest)
          = List.filter (fun pr => decide (pr.1 = tid)) rest := by
        simp [List.filter_cons, h2]
      rw [e1, ih, e2]
    · have e1 : List.filter (fun pr => decide (pr.1 ≠ tid2)) (pr :: rest)
          = pr :: List.filter (fun pr => decide (pr.1 ≠ tid2)) rest := by
        simp [List.filter_cons, h]
      rw [e1]
      simp only [List.filter_cons, ih]

theorem filter_eq_map_other {α : Type} (tid tid2 : Nat) (hne : tid ≠ tid2)
    (ds : List α) :
    (ds.map (fun d => (tid2, d))).filter (fun pr => pr.1 = tid) = [] := by
  induction ds with
  | nil => rfl
  | cons d rest ih => simp [List.filter_cons, ih, Ne.symm hne]

theorem applyEffects_append (l1 l2 : List (Db → Db)) (db : Db) :
    applyEffects (l1 ++ l2) db = applyEffects l2 (applyEffects l1 db) := by
  simp [applyEffects, List.foldl_append]

theorem applyEffects_insertDocs (tid : Nat) :
    ∀ (ds : List NormDoc) (db : Db),
      applyEffects (ds.map (fun d => insertDoc tid d)) db
        = { db with
            documents := db.documents ++ ds.map (fun d => (tid, d)) } := by
  intro ds
  induction ds with
  | nil => intro db; simp [applyEffects]
  | cons d rest ih =>
    intro db
    simp only [List.map_cons, applyEffects, List.foldl_cons]
    have h := ih (insertDoc tid d db)
    simp only [applyEffects] at h
    rw [h]
    simp [insertDoc, List.append_assoc]

theorem applyEffects_insertContacts (tid : Nat) :
    ∀ (cs : List NormContact) (db : Db),
      applyEffects (cs.map (fun c => insertContact tid c)) db
        = { db with
            contacts := db.contacts ++ cs.map (fun c => (tid, c)) } := by
  intro cs
  induction cs with
  | nil => intro db; simp [applyEffects]
  | cons c rest ih =>
    intro db
    simp only [List.map_cons, applyEffects, List.foldl_cons]
    have h := ih (insertContact tid c db)
    simp only [applyEffects] at h
    rw [h]
    simp [insertContact, List.append_assoc]

theorem applyEffects_itemEffects_db (tid : Nat) (it : NormItem) (db : Db) :
    applyEffects (itemEffects tid it) db
      = { db with
          documents := db.documents.filter (fun pr => pr.1 ≠ tid)
            ++ it.documents.map (fun d => (tid, d)),
          contacts := db.contacts.filter (fun pr => pr.1 ≠ tid)
            ++ it.contacts.map (fun c => (tid, c)) } := by
  simp only [itemEffects, applyEffects_append, applyEffects_insertDocs,
    applyEffects_insertContacts]
  rfl

theorem docsOf_after_item (tid : Nat) (it : NormItem) (db : Db) :
    docsOf tid (applyEffects (itemEffects tid it) db) = it.documents ∧
    contactsOf tid (applyEffects (itemEffects tid it) db) = it.contacts := by
  rw [applyEffects_itemEffects_db]
  constructor
  · simp only [docsOf, List.filter_append, List.map_append,
      filter_eq_of_filter_ne, List.nil_append, filter_eq_map_self]
  · simp only [contactsOf, List.filter_append, List.map_append,
      filter_eq_of_filter_ne, List.nil_append, filter_eq_map_self]

theorem itemEffects_other_op (tid tid2 : Nat) (hne : tid ≠ tid2)
    (it : NormItem) :
    ∀ f ∈ itemEffects tid2 it, ∀ d : Db,
      docsOf tid (f d) = docsOf tid d ∧
      contactsOf tid (f d) = contactsOf tid d := by
  intro f hf d
  unfold itemEffects at hf
  rcases List.mem_append.mp hf with hf | hf
  · rcases List.mem_append.mp hf with hf | hf
    · rcases List.mem_append.mp hf with hf | hf
      · rcases List.mem_singleton.mp hf with rfl
        constructor
        · simp only [docsOf, deleteDocs]
          rw [filter_eq_of_ne_first tid tid2 hne]
        · rfl
      · obtain ⟨d0, _, rfl⟩ := List.mem_map.mp hf
        constructor
        · simp only [docsOf, insertDoc, List.filter_append, List.map_append]
          simp [Ne.symm hne]
        · rfl
    · rcases List.mem_singleton.mp hf with rfl
      constructor
      · rfl
      · simp only [contactsOf, deleteContacts]
        rw [filter_eq_of_ne_first tid tid2 hne]
  · obtain ⟨c0, _, rfl⟩ := List.mem_map.mp hf
    constructor
    · rfl
    · simp only [contactsOf, insertContact, List.filter_append,
        List.map_append]
      simp [Ne.symm hne]

theorem applyEffects_pres (tid : Nat) :
    ∀ (effs : List (Db → Db)),
      (∀ f ∈ effs, ∀ d : Db, docsOf tid (f d) = docsOf tid d ∧
        contactsOf tid (f d) = contactsOf tid d) →
      ∀ db : Db,
        docsOf tid (applyEffects effs db) = docsOf tid db ∧
        contactsOf tid (applyEffects effs db) = contactsOf tid db := by
  intro effs
  induction effs with
  | nil => intro _ db; exact ⟨rfl, rfl⟩
  | cons f fs ih =>
    intro h db
    have hf := h f (List.mem_cons_self f fs) db
    have hfs := ih (fun g hg => h g (List.mem_cons_of_mem f hg)) (f db)
    unfold applyEffects at hfs ⊢
    simp only [List.foldl_cons]
    exact ⟨hfs.1.trans hf.1, hfs.2.trans hf.2⟩

theorem row_eq_of_id_eq (db : Db) (hwf : DbWf db) {r1 r2 : Row}
    (h1 : r1 ∈ db.tenders) (h2 : r2 ∈ db.tenders) (hid : r1.id = r2.id) :
    r1 = r2 :=
  List.inj_on_of_nodup_map hwf.1 h1 h2 hid

theorem DbWf_congr (db' : Db) (hw : DbWf db') (db'' : Db)
    (ht : db''.tenders = db'.tenders) (hn : db''.nextId = db'.nextId) :
    DbWf db'' := by
  rw [DbWf, ht, hn]
  exact hw

theorem upsertTender_wf (sid : Nat) (t : NormTender) (db : Db)
    (hwf : DbWf db) : DbWf (upsertTender sid t db).2 := by
  obtain ⟨hnd, hlt⟩ := hwf
  unfold upsertTender
  split
  · next r' hfind =>
    constructor
    · have hids : (db.tenders.map (fun r0 =>
          if r0.id = r'.id then { r0 with tender := t } else r0)).map
            (fun r => r.id) = db.tenders.map (fun r => r.id) := by
        rw [List.map_map]
        refine List.map_congr_left ?_
        intro r0 _
        by_cases h : r0.id = r'.id
        · simp [h]
        · simp [h]
      rw [hids]
      exact hnd
    · intro r hr
      obtain ⟨r0, hr0, rfl⟩ := List.mem_map.mp hr
      by_cases h : r0.id = r'.id
      · simp only [if_pos h]
        exact hlt r0 hr0
      · simp only [if_neg h]
        exact hlt r0 hr0
  · constructor
    · rw [List.map_append]
      refine List.nodup_append.mpr ⟨hnd, List.nodup_singleton _, ?_⟩
      intro a ha hb
      obtain ⟨r, hr, rfl⟩ := List.mem_map.mp ha
      have hb' : r.id = db.nextId := by
        simpa using hb
      have := hlt r hr
      omega
    · intro r hr
      rcases List.mem_append.mp hr with hr | hr
      · exact Nat.lt_succ_of_lt (hlt r hr)
      · rcases List.mem_singleton.mp hr with rfl
        exact Nat.lt_succ_self _

theorem upsertTender_row (sid : Nat) (t : NormTender) (db : Db) :
    (⟨(upsertTender sid t db).1, sid, t⟩ : Row)
      ∈ (upsertTender sid t db).2.tenders := by
  unfold upsertTender
  split
  · next r' hfind =>
    have hpred := List.find?_some hfind
    simp only [Bool.and_eq_true, decide_eq_true_eq] at hpred
    refine List.mem_map.mpr ⟨r', List.mem_of_find?_eq_some hfind, ?_⟩
    rw [if_pos rfl,
      show ({ r' with tender := t } : Row) = ⟨r'.id, r'.source_id, t⟩
        from rfl,
      hpred.1]
  · exact List.mem_append.mpr (Or.inr (List.mem_singleton.mpr rfl))

theorem upsertTender_pres (sid : Nat) (t2 : NormTender) (db : Db)
    (hwf : DbWf db) (tid sid0 : Nat) (t : NormTender)
    (hmem : (⟨tid, sid0, t⟩ : Row) ∈ db.tenders)
    (hne : t2.external_id ≠ t.external_id) :
    (⟨tid, sid0, t⟩ : Row) ∈ (upsertTender sid t2 db).2.tenders ∧
    (upsertTender sid t2 db).1 ≠ tid ∧
    (upsertTender sid t2 db).2.documents = db.documents ∧
    (upsertTender sid t2 db).2.contacts = db.contacts := by
  unfold upsertTender
  split
  · next r' hfind =>
    have hpred := List.find?_some hfind
    simp only [Bool.and_eq_true, decide_eq_true_eq] at hpred
    have hmem' := List.mem_of_find?_eq_some hfind
    have hrne : r'.id ≠ tid := by
      intro hco
      have hreq : r' = ⟨tid, sid0, t⟩ :=
        row_eq_of_id_eq db hwf hmem' hmem (by exact hco)
      apply hne
      rw [← hpred.2, hreq]
    refine ⟨?_, hrne, rfl, rfl⟩
    refine List.mem_map.mpr ⟨⟨tid, sid0, t⟩, hmem, ?_⟩
    rw [if_neg (fun hco => hrne (Eq.symm hco))]
  · have htid_lt : tid < db.nextId := hwf.2 _ hmem
    refine ⟨List.mem_append.mpr (Or.inl hmem), ?_, rfl, rfl⟩
    show db.nextId ≠ tid
    omega

theorem processItem_wf (sid : Nat) (source : String) (fp : Option Nat)
    (db : Db) (toPub : List SnsMsg) (it : NormItem) (hwf : DbWf db) :
    DbWf (processItem sid source fp db toPub it).1 := by
  have h1 := upsertTender_wf sid it.tender db hwf
  rcases fp with _ | k
  · exact DbWf_congr _ h1 _ (applyEffects_item_tenders_all _ _ _).1
      (applyEffects_item_tenders_all _ _ _).2
  · rcases k with _ | k
    · exact hwf
    · rw [processItem]
      · split
        · exact DbWf_congr _ h1 _ (applyEffects_item_tenders _ _ _ _).1
            (applyEffects_item_tenders _ _ _ _).2
        · exact DbWf_congr _ h1 _ (applyEffects_item_tenders_all _ _ _).1
            (applyEffects_item_tenders_all _ _ _).2
      · simp

theorem processItem_stores (sid : Nat) (source : String) (fp : Option Nat)
    (db : Db) (toPub : List SnsMsg) (it : NormItem)
    (hok : itemOk it fp = true) :
    ∃ tid,
      (⟨tid, sid, it.tender⟩ : Row)
          ∈ (processItem sid source fp db toPub it).1.tenders ∧
      docsOf tid (processItem sid source fp db toPub it).1
          = it.documents ∧
      contactsOf tid (processItem sid source fp db toPub it).1
          = it.contacts := by
  have hpi : (processItem sid source fp db toPub it).1
      = applyEffects (itemEffects (upsertTender sid it.tender db).1 it)
          (upsertTender sid it.tender db).2 := by
    rcases fp with _ | k
    · rfl
    · rcases k with _ | k
      · exfalso
        revert hok
        simp [itemOk, itemStmtCount]
      · have hnlt : ¬ (k + 1 < itemStmtCount it) := by
          simp only [itemOk, decide_eq_true_eq] at hok
          omega
        rw [processItem]
        · rw [if_neg hnlt]
        · simp
  refine ⟨(upsertTender sid it.tender db).1, ?_, ?_, ?_⟩
  · rw [hpi, (applyEffects_item_tenders_all _ _ _).1]
    exact upsertTender_row sid it.tender db
  · rw [hpi]
    exact (docsOf_after_item _ _ _).1
  · rw [hpi]
    exact (docsOf_after_item _ _ _).2

theorem processItem_pres (sid : Nat) (source : String) (fp : Option Nat)
    (db : Db) (toPub : List SnsMsg) (it2 : NormItem) (hwf : DbWf db)
    (tid sid0 : Nat) (t : NormTender)
    (hmem : (⟨tid, sid0, t⟩ : Row) ∈ db.tenders)
    (hne : it2.tender.external_id ≠ t.external_id) :
    (⟨tid, sid0, t⟩ : Row)
        ∈ (processItem sid source fp db toPub it2).1.tenders ∧
    docsOf tid (processItem sid source fp db toPub it2).1
        = docsOf tid db ∧
    contactsOf tid (processItem sid source fp db toPub it2).1
        = contactsOf tid db := by
  obtain ⟨hm1, htid2, hdeq, hceq⟩ :=
    upsertTender_pres sid it2.tender db hwf tid sid0 t hmem hne
  have hd1 : docsOf tid (upsertTender sid it2.tender db).2
      = docsOf tid db := by
    simp [docsOf, hdeq]
  have hc1 : contactsOf tid (upsertTender sid it2.tender db).2
      = contactsOf tid db := by
    simp [contactsOf, hceq]
  have base : ∀ n : Nat,
      (⟨tid, sid0, t⟩ : Row)
          ∈ (applyEffects
              ((itemEffects (upsertTender sid it2.tender db).1 it2).take n)
              (upsertTender sid it2.tender db).2).tenders ∧
      docsOf tid (applyEffects
            ((itemEffects (upsertTender sid it2.tender db).1 it2).take n)
            (upsertTender sid it2.tender db).2) = docsOf tid db ∧
      contactsOf tid (applyEffects
            ((itemEffects (upsertTender sid it2.tender db).1 it2).take n)
            (upsertTender sid it2.tender db).2) = contactsOf tid db := by
    intro n
    have hops : ∀ f ∈ (itemEffects (upsertTender sid it2.tender db).1
          it2).take n, ∀ d : Db,
        docsOf tid (f d) = docsOf tid d ∧
        contactsOf tid (f d) = contactsOf tid d :=
      fun f hf =>
        itemEffects_other_op tid (upsertTender sid it2.tender db).1
          (Ne.symm htid2) it2 f (List.mem_of_mem_take hf)
    obtain ⟨hdp, hcp⟩ := applyEffects_pres tid _ hops
      (upsertTender sid it2.tender db).2
    refine ⟨?_, ?_, ?_⟩
    · rw [(applyEffects_item_tenders _ _ _ _).1]
      exact hm1
    · rw [hdp]
      exact hd1
    · rw [hcp]
      exact hc1
  have hfull := base (itemEffects (upsertTender sid it2.tender db).1
    it2).length
  rw [List.take_length] at hfull
  rcases fp with _ | k
  · exact hfull
  · rcases k with _ | k
    · exact ⟨hmem, rfl, rfl⟩
    · by_cases hlt : k + 1 < itemStmtCount it2
      · have hpi : (processItem sid source (some (k + 1)) db toPub it2).1
            = applyEffects
                ((itemEffects (upsertTender sid it2.tender db).1 it2).take k)
                (upsertTender sid it2.tender db).2 := by
          rw [processItem]
          · rw [if_pos hlt, Nat.add_sub_cancel]
          · simp
        rw [hpi]
        exact base k
      · have hpi : (processItem sid source (some (k + 1)) db toPub it2).1
            = applyEffects
                (itemEffects (upsertTender sid it2.tender db).1 it2)
                (upsertTender sid it2.tender db).2 := by
          rw [processItem]
          · rw [if_neg hlt]
          · simp
        rw [hpi]
        exact hfull

theorem processItem_ev_len (sid : Nat) (source : String) (fp : Option Nat)
    (db : Db) (toPub : List SnsMsg) (it : NormItem) :
    (processItem sid source fp db toPub it).2.2.length = 1 := by
  rcases fp with _ | k
  · rfl
  · rcases k with _ | k
    · rfl
    · rw [processItem]
      · split
        · rfl
        · rfl
      · simp

theorem runItems_wf (sid : Nat) (source : String) (fp : Nat → Option Nat) :
    ∀ (items : List NormItem) (idx : Nat) (db : Db) (toPub : List SnsMsg),
      DbWf db →
      DbWf (runItems sid source fp (fun _ => false) idx db toPub
        items).2.1 := by
  intro items
  induction items with
  | nil => intro idx db toPub hwf; exact hwf
  | cons it rest ih =>
    intro idx db toPub hwf
    rw [runItems]
    split
    · next hco => simp at hco
    · exact ih (idx + 1) _ _
        (processItem_wf sid source (fp idx) db toPub it hwf)

theorem runItems_flag (sid : Nat) (source : String) (fp : Nat → Option Nat) :
    ∀ (items : List NormItem) (idx : Nat) (db : Db) (toPub : List SnsMsg),
      (runItems sid source fp (fun _ => false) idx db toPub
        items).2.2.2.2 = false := by
  intro items
  induction items with
  | nil => intro idx db toPub; rfl
  | cons it rest ih =>
    intro idx db toPub
    rw [runItems]
    split
    · next hco => simp at hco
    · exact ih (idx + 1) _ _

theorem runItems_evlen (sid : Nat) (source : String)
    (fp : Nat → Option Nat) :
    ∀ (items : List NormItem) (idx : Nat) (db : Db) (toPub : List SnsMsg),
      (runItems sid source fp (fun _ => false) idx db toPub
        items).2.2.2.1.length = items.length := by
  intro items
  induction items with
  | nil => intro idx db toPub; rfl
  | cons it rest ih =>
    intro idx db toPub
    rw [runItems]
    split
    · next hco => simp at hco
    · show ((processItem sid source (fp idx) db toPub it).2.2
          ++ (runItems sid source fp (fun _ => false) (idx + 1)
              (processItem sid source (fp idx) db toPub it).1
              (processItem sid source (fp idx) db toPub it).2.1
              rest).2.2.2.1).length = (it :: rest).length
      rw [List.length_append, processItem_ev_len, ih, List.length_cons]
      omega

theorem runItems_pres (sid : Nat) (source : String) (fp : Nat → Option Nat)
    (tid sid0 : Nat) (t : NormTender) :
    ∀ (items : List NormItem) (idx : Nat) (db : Db) (toPub : List SnsMsg),
      DbWf db →
      (⟨tid, sid0, t⟩ : Row) ∈ db.tenders →
      (∀ it2 ∈ items, it2.tender.external_id ≠ t.external_id) →
      (⟨tid, sid0, t⟩ : Row)
          ∈ (runItems sid source fp (fun _ => false) idx db toPub
              items).2.1.tenders ∧
      docsOf tid (runItems sid source fp (fun _ => false) idx db toPub
          items).2.1 = docsOf tid db ∧
      contactsOf tid (runItems sid source fp (fun _ => false) idx db toPub
          items).2.1 = contactsOf tid db := by
  intro items
  induction items with
  | nil => intro idx db toPub _ hmem _; exact ⟨hmem, rfl, rfl⟩
  | cons it rest ih =>
    intro idx db toPub hwf hmem hall
    rw [runItems]
    split
    · next hco => simp at hco
    · obtain ⟨hm1, hd1, hc1⟩ := processItem_pres sid source (fp idx) db
        toPub it hwf tid sid0 t hmem
        (hall it (List.mem_cons_self it rest))
      obtain ⟨hm2, hd2, hc2⟩ := ih (idx + 1)
        (processItem sid source (fp idx) db toPub it).1
        (processItem sid source (fp idx) db toPub it).2.1
        (processItem_wf sid source (fp idx) db toPub it hwf) hm1
        (fun it2 h2 => hall it2 (List.mem_cons_of_mem it h2))
      exact ⟨hm2, hd2.trans hd1, hc2.trans hc1⟩

theorem runItems_durable (sid : Nat) (source : String)
    (fp : Nat → Option Nat) :
    ∀ (items : List NormItem) (idx : Nat) (db : Db) (toPub : List SnsMsg),
      DbWf db →
      (items.map (fun it => it.tender.external_id)).Nodup →
      ∀ i (hi : i < items.length),
        itemOk (items.get ⟨i, hi⟩) (fp (idx + i)) = true →
        ∃ tid,
          (⟨tid, sid, (items.get ⟨i, hi⟩).tender⟩ : Row)
              ∈ (runItems sid source fp (fun _ => false) idx db toPub
                  items).2.1.tenders ∧
          docsOf tid (runItems sid source fp (fun _ => false) idx db toPub
              items).2.1 = (items.get ⟨i, hi⟩).documents ∧
          contactsOf tid (runItems sid source fp (fun _ => false) idx db
              toPub items).2.1 = (items.get ⟨i, hi⟩).contacts := by
  intro items
  induction items with
  | nil =>
    intro idx db toPub _ _ i hi
    exact absurd hi (by simp)
  | cons it rest ih =>
    intro idx db toPub hwf hnd i hi hok
    simp only [List.map_cons] at hnd
    rw [runItems]
    split
    · next hco => simp at hco
    · rcases i with _ | i
      · obtain ⟨tid, hmem, hdocs, hcons⟩ :=
          processItem_stores sid source (fp idx) db toPub it hok
        have hall : ∀ it2 ∈ rest,
            it2.tender.external_id ≠ it.tender.external_id := by
          intro it2 hit2 hco
          exact (List.nodup_cons.mp hnd).1
            (List.mem_map.mpr ⟨it2, hit2, hco⟩)
        obtain ⟨hm2, hd2, hc2⟩ := runItems_pres sid source fp tid sid
          it.tender rest (idx + 1)
          (processItem sid source (fp idx) db toPub it).1
          (processItem sid source (fp idx) db toPub it).2.1
          (processItem_wf sid source (fp idx) db toPub it hwf) hmem hall
        exact ⟨tid, hm2, hd2.trans hdocs, hc2.trans hcons⟩
      · have hok' : itemOk (rest.get ⟨i, Nat.lt_of_succ_lt_succ hi⟩)
            (fp (idx + 1 + i)) = true := by
          rw [show idx + 1 + i = idx + (i + 1) from by omega]
          exact hok
        exact ih (idx + 1)
          (processItem sid source (fp idx) db toPub it).1
          (processItem sid source (fp idx) db toPub it).2.1
          (processItem_wf sid source (fp idx) db toPub it hwf)
          (List.nodup_cons.mp hnd).2 i (Nat.lt_of_succ_lt_succ hi) hok'

theorem chunksGo_le100 :
    ∀ (fuel : Nat) (l : List NormItem) (batch : List NormItem),
      batch ∈ chunksGo fuel l → batch.length ≤ 100 := by
  intro fuel
  induction fuel with
  | zero =>
    intro l batch h
    simp [chunksGo] at h
  | succ fuel ih =>
    intro l batch h
    rcases l with _ | ⟨c, cs⟩
    · simp [chunksGo] at h
    · simp only [chunksGo] at h
      rcases List.mem_cons.mp h with rfl | h'
      · exact List.length_take_le 100 _
      · exact ih _ _ h'

theorem pgProcessItem_ab (sid : Nat) (source : String) (fp : Option Nat)
    (db : Db) (toPub : List SnsMsg) (it : NormItem) :
    pgProcessItem sid source fp true db toPub it
      = (db, toPub, [Ev.upsertFail], true) := rfl

theorem pgProcessItem_no_pub (sid : Nat) (source : String) (fp : Option Nat)
    (ab : Bool) (db : Db) (toPub : List SnsMsg) (it : NormItem) :
    ∀ e ∈ (pgProcessItem sid source fp ab db toPub it).2.2.1,
      e.isPub = false := by
  intro e he
  rcases ab with _ | _
  · rcases fp with _ | k
    · simp only [pgProcessItem, Bool.false_eq_true, if_false] at he
      rcases List.mem_singleton.mp he with rfl
      rfl
    · rcases k with _ | k
      · simp only [pgProcessItem, Bool.false_eq_true, if_false] at he
        rcases List.mem_singleton.mp he with rfl
        rfl
      · simp only [pgProcessItem, Bool.false_eq_true, if_false] at he
        split at he <;>
          rcases List.mem_singleton.mp he with rfl <;> rfl
  · rw [pgProcessItem_ab] at he
    rcases List.mem_singleton.mp he with rfl
    rfl

theorem pgProcessItem_ev_len (sid : Nat) (source : String) (fp : Option Nat)
    (ab : Bool) (db : Db) (toPub : List SnsMsg) (it : NormItem) :
    (pgProcessItem sid source fp ab db toPub it).2.2.1.length = 1 := by
  rcases ab with _ | _
  · rcases fp with _ | k
    · rfl
    · rcases k with _ | k
      · rfl
      · simp only [pgProcessItem, Bool.false_eq_true, if_false]
        split <;> rfl
  · rfl

theorem pgProcessItem_of_ok (sid : Nat) (source : String) (fp : Option Nat)
    (db : Db) (toPub : List SnsMsg) (it : NormItem)
    (hok : itemOk it fp = true) :
    pgProcessItem sid source fp false db toPub it
      = ((processItem sid source fp db toPub it).1,
         (processItem sid source fp db toPub it).2.1,
         (processItem sid source fp db toPub it).2.2, false) := by
  rcases fp with _ | k
  · rfl
  · rcases k with _ | k
    · exfalso
      revert hok
      simp [itemOk, itemStmtCount]
    · have hnlt : ¬ (k + 1 < itemStmtCount it) := by
        simp only [itemOk, decide_eq_true_eq] at hok
        omega
      simp only [pgProcessItem, processItem, Bool.false_eq_true, if_false,
        if_neg hnlt]

theorem pgProcessItem_fail_ab (sid : Nat) (source : String)
    (fp : Option Nat) (db : Db) (toPub : List SnsMsg) (it : NormItem)
    (hok : itemOk it fp = false) :
    (pgProcessItem sid source fp false db toPub it).2.2.2 = true := by
  rcases fp with _ | k
  · exact absurd hok (by simp [itemOk])
  · rcases k with _ | k
    · rfl
    · have hlt : k + 1 < itemStmtCount it := by
        simp only [itemOk, decide_eq_false_iff_not] at hok
        omega
      simp only [pgProcessItem, Bool.false_eq_true, if_false, if_pos hlt]

theorem pgRunItems_no_pub (sid : Nat) (source : String)
    (fp : Nat → Option Nat) (fatal : Nat → Bool) :
    ∀ items idx ab db toPub,
      ∀ e ∈ (pgRunItems sid source fp fatal idx ab db toPub
          items).2.2.2.1,
        e.isPub = false := by
  intro items
  induction items with
  | nil => intro idx ab db toPub e he; cases he
  | cons it rest ih =>
    intro idx ab db toPub e he
    rw [pgRunItems] at he
    split at he
    · cases he
    · rcases List.mem_append.mp he with he | he
      · exact pgProcessItem_no_pub sid source (fp idx) ab db toPub it e he
      · exact ih (idx + 1) _ _ _ e he

theorem pgRunItems_evlen (sid : Nat) (source : String)
    (fp : Nat → Option Nat) :
    ∀ items idx ab db toPub,
      (pgRunItems sid source fp (fun _ => false) idx ab db toPub
        items).2.2.2.1.length = items.length := by
  intro items
  induction items with
  | nil => intro idx ab db toPub; rfl
  | cons it rest ih =>
    intro idx ab db toPub
    rw [pgRunItems]
    split
    · next hco => simp at hco
    · show ((pgProcessItem sid source (fp idx) ab db toPub it).2.2.1
          ++ (pgRunItems sid source fp (fun _ => false) (idx + 1)
              (pgProcessItem sid source (fp idx) ab db toPub it).2.2.2
              (pgProcessItem sid source (fp idx) ab db toPub it).1
              (pgProcessItem sid source (fp idx) ab db toPub it).2.1
              rest).2.2.2.1).length = (it :: rest).length
      rw [List.length_append, pgProcessItem_ev_len, ih, List.length_cons]
      omega

theorem pgRunItems_flag (sid : Nat) (source : String)
    (fp : Nat → Option Nat) :
    ∀ items idx ab db toPub,
      (pgRunItems sid source fp (fun _ => false) idx ab db toPub
        items).2.2.2.2.2 = false := by
  intro items
  induction items with
  | nil => intro idx ab db toPub; rfl
  | cons it rest ih =>
    intro idx ab db toPub
    rw [pgRunItems]
    split
    · next hco => simp at hco
    · exact ih (idx + 1) _ _ _

theorem pgRunItems_ab_true (sid : Nat) (source : String)
    (fp : Nat → Option Nat) (fatal : Nat → Bool) :
    ∀ items idx db toPub,
      (pgRunItems sid source fp fatal idx true db toPub
        items).2.2.2.2.1 = true := by
  intro items
  induction items with
  | nil => intro idx db toPub; rfl
  | cons it rest ih =>
    intro idx db toPub
    rw [pgRunItems]
    split
    · rfl
    · show (pgRunItems sid source fp fatal (idx + 1)
          (pgProcessItem sid source (fp idx) true db toPub it).2.2.2
          (pgProcessItem sid source (fp idx) true db toPub it).1
          (pgProcessItem sid source (fp idx) true db toPub it).2.1
          rest).2.2.2.2.1 = true
      rw [pgProcessItem_ab]
      exact ih (idx + 1) _ _

theorem pgRunItems_ab_of_fail (sid : Nat) (source : String)
    (fp : Nat → Option Nat) :
    ∀ items idx db toPub,
      (¬ ∀ i (hi : i < items.length),
        itemOk (items.get ⟨i, hi⟩) (fp (idx + i)) = true) →
      (pgRunItems sid source fp (fun _ => false) idx false db toPub
        items).2.2.2.2.1 = true := by
  intro items
  induction items with
  | nil =>
    intro idx db toPub hno
    exact absurd (fun i hi => absurd hi (by simp)) hno
  | cons it rest ih =>
    intro idx db toPub hno
    rw [pgRunItems]
    split
    · next hco => simp at hco
    · by_cases hok : itemOk it (fp idx) = true
      · have hno' : ¬ ∀ i (hi : i < rest.length),
            itemOk (rest.get ⟨i, hi⟩) (fp (idx + 1 + i)) = true := by
          intro hall
          apply hno
          intro i hi
          rcases i with _ | i
          · exact hok
          · have h := hall i (Nat.lt_of_succ_lt_succ hi)
            rw [show idx + 1 + i = idx + (i + 1) from by omega] at h
            exact h
        show (pgRunItems sid source fp (fun _ => false) (idx + 1)
            (pgProcessItem sid source (fp idx) false db toPub it).2.2.2
            (pgProcessItem sid source (fp idx) false db toPub it).1
            (pgProcessItem sid source (fp idx) false db toPub it).2.1
            rest).2.2.2.2.1 = true
        rw [pgProcessItem_of_ok sid source (fp idx) db toPub it hok]
        exact ih (idx + 1) _ _ hno'
      · have hok' : itemOk it (fp idx) = false := by
          revert hok
          cases itemOk it (fp idx) <;> simp
        have hab := pgProcessItem_fail_ab sid source (fp idx) db toPub it
          hok'
        show (pgRunItems sid source fp (fun _ => false) (idx + 1)
            (pgProcessItem sid source (fp idx) false db toPub it).2.2.2
            (pgProcessItem sid source (fp idx) false db toPub it).1
            (pgProcessItem sid source (fp idx) false db toPub it).2.1
            rest).2.2.2.2.1 = true
        rw [hab]
        exact pgRunItems_ab_true sid source fp (fun _ => false) rest
          (idx + 1) _ _

theorem pgRunItems_eq_of_ok (sid : Nat) (source : String)
    (fp : Nat → Option Nat) (fatal : Nat → Bool) :
    ∀ items idx db toPub,
      (∀ i (hi : i < items.length),
        itemOk (items.get ⟨i, hi⟩) (fp (idx + i)) = true) →
      pgRunItems sid source fp fatal idx false db toPub items
        = ((runItems sid source fp fatal idx db toPub items).1,
           (runItems sid source fp fatal idx db toPub items).2.1,
           (runItems sid source fp fatal idx db toPub items).2.2.1,
           (runItems sid source fp fatal idx db toPub items).2.2.2.1,
           false,
           (runItems sid source fp fatal idx db toPub items).2.2.2.2) := by
  intro items
  induction items with
  | nil => intro idx db toPub _; rfl
  | cons it rest ih =>
    intro idx db toPub hall
    have hok : itemOk it (fp idx) = true := hall 0 (by simp)
    have hall' : ∀ i (hi : i < rest.length),
        itemOk (rest.get ⟨i, hi⟩) (fp (idx + 1 + i)) = true := by
      intro i hi
      have h := hall (i + 1) (by simp only [List.length_cons]; omega)
      rw [show idx + (i + 1) = idx + 1 + i from by omega] at h
      exact h
    have hpg := pgProcessItem_of_ok sid source (fp idx) db toPub it hok
    have hih := ih (idx + 1)
      (processItem sid source (fp idx) db toPub it).1
      (processItem sid source (fp idx) db toPub it).2.1 hall'
    rcases hfat : fatal idx with _ | _
    · simp only [pgRunItems, runItems, hfat, Bool.false_eq_true, if_false,
        hpg, hih]
    · simp only [pgRunItems, runItems, hfat, if_true]

theorem lastOfTxnWrap (evs X : List Ev) (x : Ev)
    (h : X.getLast? = some x) :
    (Ev.beginTxn :: evs ++ [Ev.commit] ++ X).getLast? = some x := by
  rw [show (Ev.beginTxn :: evs ++ [Ev.commit] ++ X)
      = (Ev.beginTxn :: evs ++ [Ev.commit]) ++ X from by simp]
  exact lastOfAppend _ _ _ h

theorem lastOfRollbackWrap (evs : List Ev) :
    (Ev.beginTxn :: evs ++ [Ev.rollback]).getLast? = some Ev.rollback := by
  rw [show (Ev.beginTxn :: evs ++ [Ev.rollback])
      = (Ev.beginTxn :: evs) ++ [Ev.rollback] from by simp]
  exact lastOfAppend _ _ _ rfl

theorem pgRunBatches_no_pub (sid : Nat) (source : String)
    (fp : Nat → Option Nat) (fatal : Nat → Bool) :
    ∀ batches idx db toPub,
      ∀ e ∈ (pgRunBatches sid source fp fatal idx db toPub
          batches).2.2.2.1,
        e.isPub = false := by
  intro batches
  induction batches with
  | nil => intro idx db toPub e he; cases he
  | cons batch rest ih =>
    intro idx db toPub e he
    rcases hf : (pgRunItems sid source fp fatal idx false db toPub
      batch).2.2.2.2.2 with _ | _
    · simp only [pgRunBatches, hf, Bool.false_eq_true, if_false] at he
      rcases List.mem_cons.mp he with rfl | he
      · rfl
      · rcases List.mem_append.mp he with he | he
        · rcases List.mem_append.mp he with he | he
          · exact pgRunItems_no_pub sid source fp fatal batch idx false db
              toPub e he
          · rcases List.mem_singleton.mp he with rfl
            rfl
        · exact ih _ _ _ e he
    · simp only [pgRunBatches, hf, if_true] at he
      rcases List.mem_cons.mp he with rfl | he
      · rfl
      · rcases List.mem_append.mp he with he | he
        · exact pgRunItems_no_pub sid source fp fatal batch idx false db
            toPub e he
        · rcases List.mem_singleton.mp he with rfl
          rfl

theorem pgRunNotifs_no_pub (srcIds : String → Nat) (fp : Nat → Option Nat)
    (fatal : Nat → Bool) :
    ∀ notifs idx db toPub,
      ∀ e ∈ (pgRunNotifs srcIds fp fatal idx db toPub notifs).2.2.2.1,
        e.isPub = false := by
  intro notifs
  induction notifs with
  | nil => intro idx db toPub e he; cases he
  | cons n rest ih =>
    intro idx db toPub e he
    rcases hf : (pgRunBatches (srcIds n.source) n.source fp fatal idx db
      toPub (chunksOf100 n.items)).2.2.2.2 with _ | _
    · simp only [pgRunNotifs, hf, Bool.false_eq_true, if_false] at he
      rcases List.mem_append.mp he with he | he
      · exact pgRunBatches_no_pub _ _ fp fatal _ idx db toPub e he
      · exact ih _ _ _ e he
    · simp only [pgRunNotifs, hf, if_true] at he
      exact pgRunBatches_no_pub _ _ fp fatal _ idx db toPub e he

theorem pgRunBatches_fatal_last (sid : Nat) (source : String)
    (fp : Nat → Option Nat) (fatal : Nat → Bool) :
    ∀ batches idx db toPub,
      (pgRunBatches sid source fp fatal idx db toPub
        batches).2.2.2.2 = true →
      (pgRunBatches sid source fp fatal idx db toPub
        batches).2.2.2.1.getLast? = some Ev.rollback := by
  intro batches
  induction batches with
  | nil => intro idx db toPub h; exact Bool.noConfusion h
  | cons batch rest ih =>
    intro idx db toPub h
    rcases hf : (pgRunItems sid source fp fatal idx false db toPub
      batch).2.2.2.2.2 with _ | _
    · simp only [pgRunBatches, hf, Bool.false_eq_true, if_false] at h ⊢
      exact lastOfTxnWrap _ _ _ (ih _ _ _ h)
    · simp only [pgRunBatches, hf, if_true]
      exact lastOfRollbackWrap _

theorem pgRunNotifs_fatal_last (srcIds : String → Nat)
    (fp : Nat → Option Nat) (fatal : Nat → Bool) :
    ∀ notifs idx db toPub,
      (pgRunNotifs srcIds fp fatal idx db toPub notifs).2.2.2.2 = true →
      (pgRunNotifs srcIds fp fatal idx db toPub
        notifs).2.2.2.1.getLast? = some Ev.rollback := by
  intro notifs
  induction notifs with
  | nil => intro idx db toPub h; exact Bool.noConfusion h
  | cons n rest ih =>
    intro idx db toPub h
    rcases hf : (pgRunBatches (srcIds n.source) n.source fp fatal idx db
      toPub (chunksOf100 n.items)).2.2.2.2 with _ | _
    · simp only [pgRunNotifs, hf, Bool.false_eq_true, if_false] at h ⊢
      exact lastOfAppend _ _ _ (ih _ _ _ h)
    · simp only [pgRunNotifs, hf, if_true]
      exact pgRunBatches_fatal_last _ _ fp fatal _ idx db toPub hf

theorem pgRunBatches_eq_none (sid : Nat) (source : String)
    (fatal : Nat → Bool) :
    ∀ batches idx db toPub,
      pgRunBatches sid source (fun _ => none) fatal idx db toPub batches
        = runBatches sid source (fun _ => none) fatal idx db toPub
            batches := by
  intro batches
  induction batches with
  | nil => intro idx db toPub; rfl
  | cons batch rest ih =>
    intro idx db toPub
    have hb := pgRunItems_eq_of_ok sid source (fun _ => none) fatal batch
      idx db toPub (fun i hi => rfl)
    rcases hf : (runItems sid source (fun _ => none) fatal idx db toPub
      batch).2.2.2.2 with _ | _
    · simp only [pgRunBatches, runBatches, hb, hf, Bool.false_eq_true,
        if_false, ih]
    · simp only [pgRunBatches, runBatches, hb, hf, if_true]

theorem pgRunNotifs_eq_none (srcIds : String → Nat) (fatal : Nat → Bool) :
    ∀ notifs idx db toPub,
      pgRunNotifs srcIds (fun _ => none) fatal idx db toPub notifs
        = runNotifs srcIds (fun _ => none) fatal idx db toPub notifs := by
  intro notifs
  induction notifs with
  | nil => intro idx db toPub; rfl
  | cons n rest ih =>
    intro idx db toPub
    have hb := pgRunBatches_eq_none (srcIds n.source) n.source fatal
      (chunksOf100 n.items) idx db toPub
    rcases hf : (runBatches (srcIds n.source) n.source (fun _ => none)
      fatal idx db toPub (chunksOf100 n.items)).2.2.2.2 with _ | _
    · simp only [pgRunNotifs, runNotifs, hb, hf, Bool.false_eq_true,
        if_false, ih]
    · simp only [pgRunNotifs, runNotifs, hb, hf, if_true]

theorem pgRunHandler_eq_none (srcIds : String → Nat) (fatal : Nat → Bool)
    (db0 : Db) (notifs : List Notif) :
    pgRunHandler srcIds (fun _ => none) fatal db0 notifs
      = runHandler srcIds (fun _ => none) fatal db0 notifs := by
  simp only [pgRunHandler, runHandler,
    pgRunNotifs_eq_none srcIds fatal notifs 0 db0 []]

/-- C1 counterexample: one notification with two items whose second
upsert fails. The whole batch is rolled back at COMMIT — the committed
store ends empty — but the intent buffered for the first item is still
published, so the one published message carries tenderId 1 although no
such row was ever committed. -/
theorem c1_rolled_back_publish_counterexample :
    Option.map (fun msgs => msgs.map (fun m => m.tenderId))
        (pgRunHandler (fun _ => 1) c3Fp (fun _ => false) {}
          [⟨"eskom", [c3ItemA, c3ItemB]⟩]).2.2
      = some [1] ∧
    (pgRunHandler (fun _ => 1) c3Fp (fun _ => false) {}
        [⟨"eskom", [c3ItemA, c3ItemB]⟩]).1.tenders = [] := by
  constructor
  · rfl
  · rfl

/-- C1: corrected — the handler publishes only after every transaction
has been closed: its trace is a publish-free prefix followed by publish
events only, and when it aborts with ROLLBACK and rethrows, nothing at
all is published. But a published tenderId names a committed row only
when no statement of the invocation failed: a mid-batch row failure
aborts the transaction, the batch's COMMIT silently rolls back, and the
intents buffered for the batch's earlier rows are still published, so a
message can carry a tenderId that was never committed. Under a
failure-free oracle every published tenderId is in the committed store
and was returned by an upsert of the invocation. -/
theorem c1_publish_after_close_amended (srcIds : String → Nat)
    (fp : Nat → Option Nat) (fatal : Nat → Bool) (db0 : Db)
    (notifs : List Notif) :
    (∃ pre post : List Ev,
      (pgRunHandler srcIds fp fatal db0 notifs).2.1 = pre ++ post ∧
      (∀ e ∈ pre, e.isPub = false) ∧ (∀ e ∈ post, e.isPub = true)) ∧
    ((pgRunHandler srcIds fp fatal db0 notifs).2.2 = none →
      (∀ e ∈ (pgRunHandler srcIds fp fatal db0 notifs).2.1,
        e.isPub = false) ∧
      (pgRunHandler srcIds fp fatal db0 notifs).2.1.getLast?
        = some Ev.rollback) ∧
    (∀ msgs,
      (pgRunHandler srcIds (fun _ => none) fatal db0 notifs).2.2
          = some msgs →
      ∀ m ∈ msgs,
        idIn m.tenderId
          (pgRunHandler srcIds (fun _ => none) fatal db0 notifs).1 ∧
        Ev.upsertOk m.tenderId
          ∈ (pgRunHandler srcIds (fun _ => none) fatal db0
              notifs).2.1) := by
  refine ⟨?_, ?_, ?_⟩
  · rcases hf : (pgRunNotifs srcIds fp fatal 0 db0 [] notifs).2.2.2.2
      with _ | _
    · have hrw : pgRunHandler srcIds fp fatal db0 notifs
          = ((pgRunNotifs srcIds fp fatal 0 db0 [] notifs).2.1,
             (pgRunNotifs srcIds fp fatal 0 db0 [] notifs).2.2.2.1 ++
               (pgRunNotifs srcIds fp fatal 0 db0 []
                 notifs).2.2.1.map Ev.publish,
             some (pgRunNotifs srcIds fp fatal 0 db0 [] notifs).2.2.1) := by
        simp only [pgRunHandler, hf, Bool.false_eq_true, if_false]
      rw [hrw]
      refine ⟨(pgRunNotifs srcIds fp fatal 0 db0 [] notifs).2.2.2.1,
        (pgRunNotifs srcIds fp fatal 0 db0 [] notifs).2.2.1.map Ev.publish,
        rfl, ?_, ?_⟩
      · exact pgRunNotifs_no_pub srcIds fp fatal notifs 0 db0 []
      · intro e he
        obtain ⟨m, _, rfl⟩ := List.mem_map.mp he
        rfl
    · have hrw : pgRunHandler srcIds fp fatal db0 notifs
          = ((pgRunNotifs srcIds fp fatal 0 db0 [] notifs).2.1,
             (pgRunNotifs srcIds fp fatal 0 db0 [] notifs).2.2.2.1,
             none) := by
        simp only [pgRunHandler, hf, if_true]
      rw [hrw]
      refine ⟨(pgRunNotifs srcIds fp fatal 0 db0 [] notifs).2.2.2.1, [],
        (List.append_nil _).symm, ?_, ?_⟩
      · exact pgRunNotifs_no_pub srcIds fp fatal notifs 0 db0 []
      · intro e he
        cases he
  · intro hnone
    rcases hf : (pgRunNotifs srcIds fp fatal 0 db0 [] notifs).2.2.2.2
      with _ | _
    · exfalso
      have hsome : (pgRunHandler srcIds fp fatal db0 notifs).2.2
          = some (pgRunNotifs srcIds fp fatal 0 db0 [] notifs).2.2.1 := by
        simp only [pgRunHandler, hf, Bool.false_eq_true, if_false]
      rw [hsome] at hnone
      cases hnone
    · have hrw : (pgRunHandler srcIds fp fatal db0 notifs).2.1
          = (pgRunNotifs srcIds fp fatal 0 db0 [] notifs).2.2.2.1 := by
        simp only [pgRunHandler, hf, if_true]
      rw [hrw]
      exact ⟨pgRunNotifs_no_pub srcIds fp fatal notifs 0 db0 [],
        pgRunNotifs_fatal_last srcIds fp fatal notifs 0 db0 [] hf⟩
  · intro msgs hmsgs m hm
    rw [pgRunHandler_eq_none srcIds fatal db0 notifs] at hmsgs ⊢
    rcases hf : (runNotifs srcIds (fun _ => none) fatal 0 db0 []
      notifs).2.2.2.2 with _ | _
    · have hrw : runHandler srcIds (fun _ => none) fatal db0 notifs
          = ((runNotifs srcIds (fun _ => none) fatal 0 db0 []
                notifs).2.1,
             (runNotifs srcIds (fun _ => none) fatal 0 db0 []
                notifs).2.2.2.1 ++
               (runNotifs srcIds (fun _ => none) fatal 0 db0 []
                 notifs).2.2.1.map Ev.publish,
             some (runNotifs srcIds (fun _ => none) fatal 0 db0 []
               notifs).2.2.1) := by
        simp only [runHandler, hf, Bool.false_eq_true, if_false]
      rw [hrw] at hmsgs ⊢
      obtain ⟨hmono, hinv⟩ := runNotifs_inv srcIds (fun _ => none) fatal
        notifs 0 db0 [] hf
      injection hmsgs with hmsgs
      subst hmsgs
      rcases hinv m hm with hco | ⟨hid, hev⟩
      · cases hco
      · exact ⟨hid, List.mem_append.mpr (Or.inl hev)⟩
    · have hrw : (runHandler srcIds (fun _ => none) fatal db0
          notifs).2.2 = none := by
        simp only [runHandler, hf, if_true]
      rw [hrw] at hmsgs
      cases hmsgs

/-- C3 counterexample: in a two-item batch whose second upsert fails,
the first item's upsert succeeded (its event is in the trace) and the
client still issues COMMIT, yet the committed store ends empty — the
aborted transaction discards the whole batch, refuting "the batch is
still committed and every successful item durably stored". -/
theorem c3_aborted_batch_counterexample :
    (pgRunBatches 1 "eskom" c3Fp (fun _ => false) 0 {} []
        [[c3ItemA, c3ItemB]]).2.2.2.1
      = [Ev.beginTxn, Ev.upsertOk 1, Ev.upsertFail, Ev.commit] ∧
    (pgRunBatches 1 "eskom" c3Fp (fun _ => false) 0 {} []
        [[c3ItemA, c3ItemB]]).2.1.tenders = [] := by
  constructor
  · rfl
  · rfl

/-- C3: corrected — within one batch (at most 100 items, one
transaction) a failing row is caught and logged and the loop continues
with the next row of the same batch, emitting one event per row, and
the client still issues COMMIT; but the failure aborts the transaction,
every later statement of the batch fails, and the COMMIT silently
performs a rollback: if any row of the batch fails, nothing of the
batch is durably stored. Only a batch whose rows all succeed installs
its rows, each with exactly its documents and contacts. -/
theorem c3_pg_batch_abort_amended (sid : Nat) (source : String)
    (fp : Nat → Option Nat) (idx : Nat) (db : Db) (toPub : List SnsMsg)
    (items : List NormItem) (batch : List NormItem)
    (hb : batch ∈ chunksOf100 items) (hwf : DbWf db)
    (hnd : (batch.map (fun it => it.tender.external_id)).Nodup) :
    batch.length ≤ 100 ∧
    (pgRunItems sid source fp (fun _ => false) idx false db toPub
        batch).2.2.2.1.length = batch.length ∧
    (pgRunBatches sid source fp (fun _ => false) idx db toPub
        [batch]).2.2.2.1
      = Ev.beginTxn ::
          (pgRunItems sid source fp (fun _ => false) idx false db toPub
            batch).2.2.2.1 ++ [Ev.commit] ∧
    ((∀ i (hi : i < batch.length),
        itemOk (batch.get ⟨i, hi⟩) (fp (idx + i)) = true) →
      ∀ i (hi : i < batch.length),
        ∃ tid,
          (⟨tid, sid, (batch.get ⟨i, hi⟩).tender⟩ : Row)
              ∈ (pgRunBatches sid source fp (fun _ => false) idx db toPub
                  [batch]).2.1.tenders ∧
          docsOf tid (pgRunBatches sid source fp (fun _ => false) idx db
              toPub [batch]).2.1 = (batch.get ⟨i, hi⟩).documents ∧
          contactsOf tid (pgRunBatches sid source fp (fun _ => false) idx
              db toPub [batch]).2.1 = (batch.get ⟨i, hi⟩).contacts) ∧
    ((¬ ∀ i (hi : i < batch.length),
        itemOk (batch.get ⟨i, hi⟩) (fp (idx + i)) = true) →
      (pgRunBatches sid source fp (fun _ => false) idx db toPub
        [batch]).2.1 = db) := by
  have hfl := pgRunItems_flag sid source fp batch idx false db toPub
  refine ⟨chunksGo_le100 items.length items batch hb,
    pgRunItems_evlen sid source fp batch idx false db toPub, ?_, ?_, ?_⟩
  · simp only [pgRunBatches, hfl, Bool.false_eq_true, if_false,
      List.append_nil]
  · intro hall i hi
    have hbr := pgRunItems_eq_of_ok sid source fp (fun _ => false) batch
      idx db toPub hall
    have hrfl := runItems_flag sid source fp batch idx db toPub
    have hdb : (pgRunBatches sid source fp (fun _ => false) idx db toPub
        [batch]).2.1
        = (runItems sid source fp (fun _ => false) idx db toPub
            batch).2.1 := by
      simp only [pgRunBatches, hbr, hrfl, Bool.false_eq_true, if_false]
    rw [hdb]
    exact runItems_durable sid source fp batch idx db toPub hwf hnd i hi
      (hall i hi)
  · intro hno
    have hab := pgRunItems_ab_of_fail sid source fp batch idx db toPub hno
    simp only [pgRunBatches, hfl, Bool.false_eq_true, if_false, hab,
      if_true]

/-- C3 witness: a two-item batch whose second upsert fails; the loop
still emits one event per item and issues COMMIT, and the abort
conclusion applies. -/
theorem c3_pg_batch_abort_amended_witness :
    ([c3ItemA, c3ItemB].length ≤ 100 ∧
    (pgRunItems 1 "eskom" c3Fp (fun _ => false) 0 false {} []
        [c3ItemA, c3ItemB]).2.2.2.1.length = [c3ItemA, c3ItemB].length ∧
    (pgRunBatches 1 "eskom" c3Fp (fun _ => false) 0 {} []
        [[c3ItemA, c3ItemB]]).2.2.2.1
      = Ev.beginTxn ::
          (pgRunItems 1 "eskom" c3Fp (fun _ => false) 0 false {} []
            [c3ItemA, c3ItemB]).2.2.2.1 ++ [Ev.commit] ∧
    ((∀ i (hi : i < [c3ItemA, c3ItemB].length),
        itemOk ([c3ItemA, c3ItemB].get ⟨i, hi⟩) (c3Fp (0 + i)) = true) →
      ∀ i (hi : i < [c3ItemA, c3ItemB].length),
        ∃ tid,
          (⟨tid, 1, ([c3ItemA, c3ItemB].get ⟨i, hi⟩).tender⟩ : Row)
              ∈ (pgRunBatches 1 "eskom" c3Fp (fun _ => false) 0 {} []
                  [[c3ItemA, c3ItemB]]).2.1.tenders ∧
          docsOf tid (pgRunBatches 1 "eskom" c3Fp (fun _ => false) 0 {}
              [] [[c3ItemA, c3ItemB]]).2.1
            = ([c3ItemA, c3ItemB].get ⟨i, hi⟩).documents ∧
          contactsOf tid (pgRunBatches 1 "eskom" c3Fp (fun _ => false) 0
              {} [] [[c3ItemA, c3ItemB]]).2.1
            = ([c3ItemA, c3ItemB].get ⟨i, hi⟩).contacts) ∧
    ((¬ ∀ i (hi : i < [c3ItemA, c3ItemB].length),
        itemOk ([c3ItemA, c3ItemB].get ⟨i, hi⟩) (c3Fp (0 + i)) = true) →
      (pgRunBatches 1 "eskom" c3Fp (fun _ => false) 0 {} []
        [[c3ItemA, c3ItemB]]).2.1 = {})) :=
  c3_pg_batch_abort_amended 1 "eskom" c3Fp 0 {} [] [c3ItemA, c3ItemB]
    [c3ItemA, c3ItemB] (by decide) (by simp [DbWf]) (by decide)

end TenderTool
